import Mathlib

/-!
# Marketplace keeper (`x/marketplace/keeper/keeper.go`)

A shallow embedding of the marketplace keeper of the node: publishing of
collections and listings, purchase, removal, and the royalty distribution.

* `sdk.Int` is an arbitrary-precision signed integer: `Int`.
* `sdk.Dec` is a signed fixed-point decimal with 18 fractional digits kept as
  one big integer (the value times `10^18`): the structure `Dec`. Its `Mul`
  and `Quo` panic with `Int overflow` when the result needs more than 315
  bits; a panic is the outcome `Err.goPanic`.
* `sdk.NewCoin` and `sdk.NewCoins` panic on a negative amount and on a
  denomination that does not match the pattern of the SDK.
* The range check of `sdk.Int` itself is not modelled. It cannot fire in
  `getProportion`, whose truncated quotient is below `2^249` once the decimal
  operations are in range; the subtraction in the loop of
  `DistributeRoyalties` is the one of `Int`, and what is stated of a
  successful run is stated of a run whose success is given.
* The two collaborators of the keeper (`bankKeeper`, `nftKeeper`) are
  interfaces; they are parameters of the model, and every call made on them
  is recorded in a call log.
-/

namespace Marketplace

/-! ## Fixed-point decimals (`sdk.Dec`) -/

/-- The scaling factor `10^18` of `sdk.Dec` (`precisionReuse`). -/
def precisionReuse : Int := 1000000000000000000

/-- Half of the scaling factor (`fivePrecision`). -/
def fivePrecision : Int := 500000000000000000

/-- An `sdk.Dec`: the represented value is `raw / 10^18`. -/
structure Dec where
  raw : Int
  deriving DecidableEq, Repr

/-- `sdk.NewDec(n)`: the decimal with integer value `n`. -/
def NewDec (n : Int) : Dec := ⟨n * precisionReuse⟩

/-- `Int.ToDec()`: an integer amount as a decimal. -/
def ToDec (a : Int) : Dec := ⟨a * precisionReuse⟩

/-- `chopPrecisionAndRound` on a non-negative argument: divide by `10^18`,
rounding half to even. -/
def chopPrecisionAndRoundNonneg (d : Int) : Int :=
  let quo := Int.tdiv d precisionReuse
  let rem := Int.tmod d precisionReuse
  if rem = 0 then quo
  else if rem < fivePrecision then quo
  else if fivePrecision < rem then quo + 1
  else if quo % 2 = 0 then quo
  else quo + 1

/-- `chopPrecisionAndRound`: a negative argument is negated, chopped and
negated back. -/
def chopPrecisionAndRound (d : Int) : Int :=
  if d < 0 then -(chopPrecisionAndRoundNonneg (-d)) else chopPrecisionAndRoundNonneg d

/-- Errors returned by the two collaborators, passed through unchanged. -/
abbrev ExtErr := String

/-- The error kinds of the keeper (`types.Err...`, `sdkerrors.ErrInvalidAddress`),
the pass-through failures of the collaborators, and a Go panic. -/
inductive Err where
  | ErrNotDenomOwner
  | ErrCollectionAlreadyPublished
  | ErrNftAlreadyPublished
  | ErrNotNftOwner
  | ErrNftNotFound
  | ErrCollectionNotFound
  | ErrCannotBuyOwnNft
  | ErrInvalidAddress
  | external (e : ExtErr)
  | goPanic
  deriving DecidableEq, Repr

/-- The largest bit length of the raw integer of an `sdk.Dec`
(`maxDecBitLen`). -/
def maxDecBitLen : Nat := 315

/-- The number `2^315`, the least absolute value whose bit length exceeds
`maxDecBitLen`. -/
def decBitLenBound : Nat :=
  66749594872528440074844428317798503581334516323645399060845050244444366430645017188217565216768

/-- The test `chopped.BitLen() > maxDecBitLen`: the absolute value needs more
than 315 bits. -/
def exceedsDecBitLen (chopped : Int) : Bool := decide (decBitLenBound ≤ chopped.natAbs)

/-- The raw result of `Dec.Mul` before its range check: the product of the raw
integers, chopped with rounding. -/
def Dec.mulChopped (d d2 : Dec) : Int := chopPrecisionAndRound (d.raw * d2.raw)

/-- `Dec.Mul`: the chopped product; panics when it exceeds the bit length. -/
def Dec.Mul (d d2 : Dec) : Except Err Dec :=
  if exceedsDecBitLen (d.mulChopped d2) then .error .goPanic else .ok ⟨d.mulChopped d2⟩

/-- The raw result of `Dec.Quo` before its range check: the raw dividend is
scaled by `10^18` twice, divided by the raw divisor with truncation
(`big.Int.Quo`), then chopped with rounding. -/
def Dec.quoChopped (d d2 : Dec) : Int :=
  chopPrecisionAndRound (Int.tdiv (d.raw * precisionReuse * precisionReuse) d2.raw)

/-- `Dec.Quo`: the chopped quotient; panics on a zero divisor and when the
quotient exceeds the bit length. -/
def Dec.Quo (d d2 : Dec) : Except Err Dec :=
  if d2.raw = 0 then .error .goPanic
  else if exceedsDecBitLen (d.quoChopped d2) then .error .goPanic
  else .ok ⟨d.quoChopped d2⟩

/-- `Dec.TruncateInt`: the integer part, truncated toward zero. -/
def Dec.TruncateInt (d : Dec) : Int := Int.tdiv d.raw precisionReuse

/-! ## Coins -/

/-- An `sdk.Coin`. -/
structure Coin where
  Denom : String
  Amount : Int
  deriving DecidableEq, Repr

/-- An `sdk.Coins` value. -/
abbrev Coins := List Coin

/-- A character that may follow the first one in a denomination. -/
def denomChar (c : Char) : Bool :=
  c.isAlphanum || c = '/' || c = ':' || c = '.' || c = '_' || c = '-'

/-- `sdk.ValidateDenom`: the denomination matches
`[a-zA-Z][a-zA-Z0-9/:._-]{2,127}`. -/
def ValidateDenom (denom : String) : Bool :=
  match denom.toList with
  | [] => false
  | c :: rest => c.isAlpha && decide (2 ≤ rest.length) && decide (rest.length ≤ 127) &&
      rest.all denomChar

/-- `sdk.NewCoin`: panics on an invalid denomination and on a negative
amount. -/
def NewCoin (denom : String) (amount : Int) : Except Err Coin :=
  if !ValidateDenom denom then .error .goPanic
  else if amount < 0 then .error .goPanic
  else .ok ⟨denom, amount⟩

/-- `sdk.NewCoins` at its call sites, which all pass one coin: a zero coin is
dropped; a coin that remains is validated, and an invalid denomination or a
negative amount panics. -/
def NewCoins (coin : Coin) : Except Err Coins :=
  if coin.Amount = 0 then .ok []
  else if !ValidateDenom coin.Denom then .error .goPanic
  else if coin.Amount < 0 then .error .goPanic
  else .ok [coin]

/-- The amount that `getProportion` computes when none of its decimal
operations panics: the raw results of
`totalCoin.Amount.ToDec().Mul(ratio).Quo(sdk.NewDec(100))`, truncated by
`TruncateInt()`. -/
def proportionAmount (amount : Int) (ratio : Dec) : Int :=
  (⟨Dec.quoChopped ⟨(ToDec amount).mulChopped ratio⟩ (NewDec 100)⟩ : Dec).TruncateInt

/-- `getProportion`:
`sdk.NewCoin(totalCoin.Denom, totalCoin.Amount.ToDec().Mul(ratio).Quo(sdk.NewDec(100)).TruncateInt())`. -/
def getProportion (totalCoin : Coin) (ratio : Dec) : Except Err Coin :=
  match (ToDec totalCoin.Amount).Mul ratio with
  | .error e => .error e
  | .ok product =>
    match product.Quo (NewDec 100) with
    | .error e => .error e
    | .ok quotient => NewCoin totalCoin.Denom quotient.TruncateInt

/-- The amount of denomination `denom` in a coin set. -/
def Coins.amountOf (denom : String) (cs : Coins) : Int :=
  ((cs.filter (fun c => c.Denom = denom)).map Coin.Amount).sum

/-! ## Addresses -/

/-- An `sdk.AccAddress`: a byte string. -/
abbrev AccAddress := List Nat

/-- The bech32 text codec of account addresses (global SDK configuration):
`sdk.AccAddressFromBech32` and `AccAddress.String`. -/
structure AddrCodec where
  AccAddressFromBech32 : String → Option AccAddress
  AccAddressString : AccAddress → String

/-- The Go conversion `sdk.AccAddress(s)` of a string: its UTF-8 bytes. -/
def AccAddressCast (s : String) : AccAddress :=
  (s.toList.flatMap String.utf8EncodeChar).map UInt8.toNat

/-! ## Records of the marketplace -/

/-- A `types.Royalty`. -/
structure Royalty where
  Address : String
  Percent : Dec
  deriving DecidableEq, Repr

/-- A `types.Collection`. -/
structure Collection where
  Id : Nat
  DenomId : String
  MintRoyalties : List Royalty
  ResaleRoyalties : List Royalty
  Verified : Bool
  Owner : String
  deriving DecidableEq, Repr

/-- A `types.Nft`: a listing. -/
structure Nft where
  Id : Nat
  TokenId : String
  DenomId : String
  Price : Coin
  Owner : String
  deriving DecidableEq, Repr

/-- The zero value `types.Collection{}`. -/
def Collection.zero : Collection := ⟨0, "", [], [], false, ""⟩

/-- `types.ModuleName`. -/
def ModuleName : String := "marketplace"

/-! ## The custody service as seen by the keeper -/

/-- A denom of the nft module, as far as the keeper reads it. -/
structure Denom where
  Id : String
  Creator : String
  deriving DecidableEq, Repr

/-- An `exported.NFT` / `BaseNFT` as far as the keeper reads it: `GetOwner()`
and `GetApprovedAddresses()`. -/
structure BaseNFT where
  Id : String
  Owner : AccAddress
  ApprovedAddresses : List String
  deriving DecidableEq, Repr

/-- The interface `types.NftKeeper` over a custody state `N`. A failing call
returns its error and no new state. -/
structure NftKeeper (N : Type) where
  GetDenom : N → String → Except ExtErr Denom
  GetNFT : N → String → String → Except ExtErr BaseNFT
  GetBaseNFT : N → String → String → Except ExtErr BaseNFT
  IsApprovedOperator : N → AccAddress → AccAddress → Bool
  SoftLockNFT : N → String → String → String → Except ExtErr N
  SoftUnlockNFT : N → String → String → String → Except ExtErr N
  TransferNftInternal : N → String → String → AccAddress → AccAddress → BaseNFT → N
  MintNFT : N → String → String → String → String → AccAddress → AccAddress →
    Except ExtErr (String × N)

/-- The interface `types.BankKeeper` over a ledger state `B`. -/
structure BankKeeper (B : Type) where
  SendCoinsFromAccountToModule : B → AccAddress → String → Coins → Except ExtErr B
  SendCoinsFromModuleToAccount : B → String → AccAddress → Coins → Except ExtErr B

/-- One call made on a collaborator, with its arguments. -/
inductive Call where
  | GetDenom (denomID : String)
  | GetNFT (denomID tokenID : String)
  | GetBaseNFT (denomID tokenID : String)
  | IsApprovedOperator (owner operator : AccAddress)
  | SoftLockNFT (lockOwner denomID tokenID : String)
  | SoftUnlockNFT (lockOwner denomID tokenID : String)
  | TransferNftInternal (denomID tokenID : String) (sender recipient : AccAddress)
      (nft : BaseNFT)
  | MintNFT (denomID name uri data : String) (sender recipient : AccAddress)
  | SendCoinsFromAccountToModule (sender : AccAddress) (recipientModule : String)
      (amt : Coins)
  | SendCoinsFromModuleToAccount (senderModule : String) (recipient : AccAddress)
      (amt : Coins)
  deriving DecidableEq, Repr

/-! ## The store of the keeper -/

/-- The key-value store of the module, as its four tables and two counters.
The two index tables hold the encoded id bytes; keys are the decoded key
arguments (`KeyCollectionDenomID` and `KeyNftDenomTokenID` are taken to be
injective). -/
structure Store where
  collections : Nat → Option Collection
  collectionCount : Nat
  collectionDenomID : String → Option (List Nat)
  nfts : Nat → Option Nft
  nftCount : Nat
  nftDenomTokenID : String → String → Option (List Nat)

/-- The empty store. -/
def Store.empty : Store :=
  ⟨fun _ => none, 0, fun _ => none, fun _ => none, 0, fun _ _ => none⟩

/-- Modelled from the spec: `types.Uint64ToBytes` is not among the sources; it
is the fixed-width big-endian encoding of a 64-bit id. -/
def Uint64ToBytes (id : Nat) : List Nat :=
  [id / 2 ^ 56 % 256, id / 2 ^ 48 % 256, id / 2 ^ 40 % 256, id / 2 ^ 32 % 256,
   id / 2 ^ 24 % 256, id / 2 ^ 16 % 256, id / 2 ^ 8 % 256, id % 256]

/-- Modelled from the spec: `types.BytesToUint64`, the inverse of
`Uint64ToBytes` (big-endian, 64 bits). -/
def BytesToUint64 (bz : List Nat) : Nat :=
  (bz.foldl (fun acc b => acc * 256 + b) 0) % 2 ^ 64

/-- Modelled from the spec: `GetCollectionCount`, the sequential id allocator
of collections (a 64-bit counter). -/
def GetCollectionCount (s : Store) : Nat := s.collectionCount % 2 ^ 64

/-- Modelled from the spec: `GetCollection`, lookup by id; the zero value
when absent. -/
def GetCollection (s : Store) (id : Nat) : Collection × Bool :=
  match s.collections id with
  | some c => (c, true)
  | none => (Collection.zero, false)

/-- Modelled from the spec: `SetCollection`, store the record under its id. -/
def SetCollection (s : Store) (c : Collection) : Store :=
  { s with collections := fun i => if i = c.Id then some c else s.collections i }

/-- Modelled from the spec: `AppendCollection` allocates the next id, stores
the record under it and advances the counter. -/
def AppendCollection (s : Store) (c : Collection) : Nat × Store :=
  let count := GetCollectionCount s
  let s1 := SetCollection s { c with Id := count }
  (count, { s1 with collectionCount := (count + 1) % 2 ^ 64 })

/-- Modelled from the spec: `GetNftCount`, the sequential id allocator of
listings. -/
def GetNftCount (s : Store) : Nat := s.nftCount % 2 ^ 64

/-- Modelled from the spec: `GetNft`, lookup of a listing by id. -/
def GetNft (s : Store) (id : Nat) : Option Nft := s.nfts id

/-- Modelled from the spec: `AppendNft` allocates the next id, stores the
listing under it and advances the counter. -/
def AppendNft (s : Store) (nft : Nft) : Nat × Store :=
  let count := GetNftCount s
  (count, { s with
    nfts := fun i => if i = count then some { nft with Id := count } else s.nfts i
    nftCount := (count + 1) % 2 ^ 64 })

/-- Modelled from the spec: `RemoveNft` deletes the listing stored under an id. -/
def RemoveNft (s : Store) (id : Nat) : Store :=
  { s with nfts := fun i => if i = id then none else s.nfts i }

/-- `store.Set(types.KeyCollectionDenomID(denomID), bz)`. -/
def Store.setCollectionDenomID (s : Store) (denomID : String) (bz : List Nat) : Store :=
  { s with collectionDenomID := fun d => if d = denomID then some bz else s.collectionDenomID d }

/-- `store.Set(types.KeyNftDenomTokenID(denomID, tokenID), bz)`. -/
def Store.setNftDenomTokenID (s : Store) (denomID tokenID : String) (bz : List Nat) : Store :=
  { s with nftDenomTokenID := fun d t =>
      if d = denomID ∧ t = tokenID then some bz else s.nftDenomTokenID d t }

/-- `store.Delete(types.KeyNftDenomTokenID(denomID, tokenID))`. -/
def Store.deleteNftDenomTokenID (s : Store) (denomID tokenID : String) : Store :=
  { s with nftDenomTokenID := fun d t =>
      if d = denomID ∧ t = tokenID then none else s.nftDenomTokenID d t }

/-! ## The keeper and its execution context -/

/-- The `Keeper`: its two collaborators, and the address codec it uses. -/
structure Keeper (B N : Type) where
  bech32 : AddrCodec
  bankKeeper : BankKeeper B
  nftKeeper : NftKeeper N

/-- What an operation reads and writes through `sdk.Context`: the module
store, the ledger, the custody state, and the log of collaborator calls. -/
structure Ctx (B N : Type) where
  store : Store
  bank : B
  nft : N
  log : List Call

/-- Record a collaborator call. -/
def Ctx.call {B N : Type} (ctx : Ctx B N) (c : Call) : Ctx B N :=
  { ctx with log := ctx.log ++ [c] }

section Operations
variable {B N : Type}

/-- `isCollectionPublished`: `store.Has(types.KeyCollectionDenomID(denomID))`. -/
def isCollectionPublished (s : Store) (denomID : String) : Bool :=
  (s.collectionDenomID denomID).isSome

/-- `PublishCollection`. -/
def PublishCollection (k : Keeper B N) (ctx : Ctx B N) (collection : Collection) :
    Except Err Nat × Ctx B N :=
  let ctx := ctx.call (.GetDenom collection.DenomId)
  match k.nftKeeper.GetDenom ctx.nft collection.DenomId with
  | .error e => (.error (.external e), ctx)
  | .ok denom =>
    if denom.Creator ≠ collection.Owner then (.error .ErrNotDenomOwner, ctx)
    else if isCollectionPublished ctx.store collection.DenomId then
      (.error .ErrCollectionAlreadyPublished, ctx)
    else
      let (collectionID, store) := AppendCollection ctx.store collection
      let store := store.setCollectionDenomID collection.DenomId (Uint64ToBytes collectionID)
      (.ok collectionID, { ctx with store := store })

/-- `isApprovedNftAddress`: linear search of the approved-address list. -/
def isApprovedNftAddress (nftVal : BaseNFT) (owner : String) : Bool :=
  let rec loop : List String → Bool
    | [] => false
    | addr :: rest => if addr = owner then true else loop rest
  loop nftVal.ApprovedAddresses

/-- `PublishNFT`. The three-way authorisation test short-circuits: the
operator lookup is only made when the owner comparison fails. -/
def PublishNFT (k : Keeper B N) (ctx : Ctx B N) (nft : Nft) : Except Err Nat × Ctx B N :=
  let ctx := ctx.call (.GetDenom nft.DenomId)
  match k.nftKeeper.GetDenom ctx.nft nft.DenomId with
  | .error e => (.error (.external e), ctx)
  | .ok _ =>
    let ctx := ctx.call (.GetNFT nft.DenomId nft.TokenId)
    match k.nftKeeper.GetNFT ctx.nft nft.DenomId nft.TokenId with
    | .error e => (.error (.external e), ctx)
    | .ok nftVal =>
      let isOwner : Bool := k.bech32.AccAddressString nftVal.Owner = nft.Owner
      let ctx := if isOwner then ctx
        else ctx.call (.IsApprovedOperator nftVal.Owner (AccAddressCast nft.Owner))
      if isOwner ||
          k.nftKeeper.IsApprovedOperator ctx.nft nftVal.Owner (AccAddressCast nft.Owner) ||
          isApprovedNftAddress nftVal nft.Owner then
        if 0 < ((ctx.store.nftDenomTokenID nft.DenomId nft.TokenId).getD []).length then
          (.error .ErrNftAlreadyPublished, ctx)
        else
          let ctx := ctx.call (.SoftLockNFT ModuleName nft.DenomId nft.TokenId)
          match k.nftKeeper.SoftLockNFT ctx.nft ModuleName nft.DenomId nft.TokenId with
          | .error e => (.error (.external e), ctx)
          | .ok custody =>
            let (nftID, store) := AppendNft ctx.store nft
            let store := store.setNftDenomTokenID nft.DenomId nft.TokenId (Uint64ToBytes nftID)
            (.ok nftID, { ctx with store := store, nft := custody })
      else (.error .ErrNotNftOwner, ctx)

/-- `getCollectionByDenomID`. -/
def getCollectionByDenomID (s : Store) (denomID : String) : Collection × Bool :=
  match s.collectionDenomID denomID with
  | none => (Collection.zero, false)
  | some collectionIDBytes => GetCollection s (BytesToUint64 collectionIDBytes)

/-- One payment out of the module account:
`k.bankKeeper.SendCoinsFromModuleToAccount(ctx, types.ModuleName, addr, sdk.NewCoins(coin))`. -/
def payFromModule (k : Keeper B N) (ctx : Ctx B N) (addr : AccAddress) (coin : Coin) :
    Except Err Unit × Ctx B N :=
  match NewCoins coin with
  | .error e => (.error e, ctx)
  | .ok amt =>
    let ctx := ctx.call (.SendCoinsFromModuleToAccount ModuleName addr amt)
    match k.bankKeeper.SendCoinsFromModuleToAccount ctx.bank ModuleName addr amt with
    | .error e => (.error (.external e), ctx)
    | .ok bank => (.ok (), { ctx with bank := bank })

/-- The loop of `DistributeRoyalties` over the royalty entries, carrying
`amountLeft`. -/
def distributeLoop (k : Keeper B N) (price : Coin) :
    List Royalty → Int → Ctx B N → Except Err Int × Ctx B N
  | [], amountLeft, ctx => (.ok amountLeft, ctx)
  | royalty :: rest, amountLeft, ctx =>
    match k.bech32.AccAddressFromBech32 royalty.Address with
    | none => (.error .ErrInvalidAddress, ctx)
    | some royaltyReceiver =>
      match getProportion price royalty.Percent with
      | .error e => (.error e, ctx)
      | .ok portion =>
        let amountLeft := amountLeft - portion.Amount
        match payFromModule k ctx royaltyReceiver portion with
        | (.error e, ctx) => (.error e, ctx)
        | (.ok _, ctx) => distributeLoop k price rest amountLeft ctx

/-- `DistributeRoyalties`. -/
def DistributeRoyalties (k : Keeper B N) (ctx : Ctx B N) (price : Coin) (seller : String)
    (royalties : List Royalty) : Except Err Unit × Ctx B N :=
  if royalties.length = 0 then (.ok (), ctx)
  else
    match distributeLoop k price royalties price.Amount ctx with
    | (.error e, ctx) => (.error e, ctx)
    | (.ok amountLeft, ctx) =>
      if 0 < amountLeft then
        match k.bech32.AccAddressFromBech32 seller with
        | none => (.error .ErrInvalidAddress, ctx)
        | some sellerAddr =>
          match NewCoin price.Denom amountLeft with
          | .error e => (.error e, ctx)
          | .ok coin => payFromModule k ctx sellerAddr coin
      else (.ok (), ctx)

/-- The last part of `BuyNFT`, after the payouts: delete the index entry and
the listing, look up the asset, release the soft lock, transfer the asset. -/
def buyNFTHandOver (k : Keeper B N) (ctx : Ctx B N) (nftID : Nat) (nft : Nft)
    (buyer : AccAddress) : Except Err Unit × Ctx B N :=
  let store := ctx.store.deleteNftDenomTokenID nft.DenomId nft.TokenId
  let store := RemoveNft store nftID
  let ctx := { ctx with store := store }
  let ctx := ctx.call (.GetBaseNFT nft.DenomId nft.TokenId)
  match k.nftKeeper.GetBaseNFT ctx.nft nft.DenomId nft.TokenId with
  | .error e => (.error (.external e), ctx)
  | .ok baseNft =>
    let ctx := ctx.call (.SoftUnlockNFT ModuleName nft.DenomId nft.TokenId)
    match k.nftKeeper.SoftUnlockNFT ctx.nft ModuleName nft.DenomId nft.TokenId with
    | .error e => (.error (.external e), ctx)
    | .ok custody =>
      let ctx := { ctx with nft := custody }
      let ctx := ctx.call
        (.TransferNftInternal nft.DenomId nft.TokenId (AccAddressCast nft.Owner) buyer baseNft)
      let custody := k.nftKeeper.TransferNftInternal ctx.nft nft.DenomId nft.TokenId
        (AccAddressCast nft.Owner) buyer baseNft
      (.ok (), { ctx with nft := custody })

/-- The payout part of `BuyNFT`, after the buyer has paid into the module
account: the direct payment to the seller when there is no collection or no
resale royalty, then `DistributeRoyalties` in every case. -/
def buyNFTPayout (k : Keeper B N) (ctx : Ctx B N) (nft : Nft) : Except Err Unit × Ctx B N :=
  let (collection, found) := getCollectionByDenomID ctx.store nft.DenomId
  let direct : Except Err Unit × Ctx B N :=
    if !found || collection.ResaleRoyalties.length = 0 then
      match k.bech32.AccAddressFromBech32 nft.Owner with
      | none => (.error .ErrInvalidAddress, ctx)
      | some sellerAddr => payFromModule k ctx sellerAddr nft.Price
    else (.ok (), ctx)
  match direct with
  | (.error e, ctx) => (.error e, ctx)
  | (.ok _, ctx) => DistributeRoyalties k ctx nft.Price nft.Owner collection.ResaleRoyalties

/-- `BuyNFT`. -/
def BuyNFT (k : Keeper B N) (ctx : Ctx B N) (nftID : Nat) (buyer : AccAddress) :
    Except Err Unit × Ctx B N :=
  match GetNft ctx.store nftID with
  | none => (.error .ErrNftNotFound, ctx)
  | some nft =>
    if nft.Owner = k.bech32.AccAddressString buyer then (.error .ErrCannotBuyOwnNft, ctx)
    else
      match NewCoins nft.Price with
      | .error e => (.error e, ctx)
      | .ok amt =>
        let ctx := ctx.call (.SendCoinsFromAccountToModule buyer ModuleName amt)
        match k.bankKeeper.SendCoinsFromAccountToModule ctx.bank buyer ModuleName amt with
        | .error e => (.error (.external e), ctx)
        | .ok bank =>
          match buyNFTPayout k { ctx with bank := bank } nft with
          | (.error e, ctx) => (.error e, ctx)
          | (.ok _, ctx) => buyNFTHandOver k ctx nftID nft buyer

/-- `MintNFT`. -/
def MintNFT (k : Keeper B N) (ctx : Ctx B N) (denomID name uri data : String) (price : Coin)
    (recipient sender : AccAddress) : Except Err String × Ctx B N :=
  let ctx := ctx.call (.GetDenom denomID)
  match k.nftKeeper.GetDenom ctx.nft denomID with
  | .error e => (.error (.external e), ctx)
  | .ok denom =>
    let (collection, found) := getCollectionByDenomID ctx.store denomID
    if !found then (.error .ErrCollectionNotFound, ctx)
    else
      match DistributeRoyalties k ctx price denom.Creator collection.MintRoyalties with
      | (.error e, ctx) => (.error e, ctx)
      | (.ok _, ctx) =>
        let ctx := ctx.call (.MintNFT denomID name uri data sender recipient)
        match k.nftKeeper.MintNFT ctx.nft denomID name uri data sender recipient with
        | .error e => (.error (.external e), ctx)
        | .ok (id, custody) => (.ok id, { ctx with nft := custody })

/-- `RemoveNFT`. -/
def RemoveNFT (k : Keeper B N) (ctx : Ctx B N) (nftID : Nat) (owner : AccAddress) :
    Except Err Unit × Ctx B N :=
  match GetNft ctx.store nftID with
  | none => (.error .ErrNftNotFound, ctx)
  | some nft =>
    if nft.Owner ≠ k.bech32.AccAddressString owner then (.error .ErrNotNftOwner, ctx)
    else
      let store := ctx.store.deleteNftDenomTokenID nft.DenomId nft.TokenId
      let store := RemoveNft store nftID
      let ctx := { ctx with store := store }
      let ctx := ctx.call (.SoftUnlockNFT ModuleName nft.DenomId nft.TokenId)
      match k.nftKeeper.SoftUnlockNFT ctx.nft ModuleName nft.DenomId nft.TokenId with
      | .error e => (.error (.external e), ctx)
      | .ok custody => (.ok (), { ctx with nft := custody })

/-- `getCollectionStatus`. -/
def getCollectionStatus (s : Store) (id : Nat) : Except Err Bool :=
  match GetCollection s id with
  | (_, false) => .error .ErrCollectionNotFound
  | (collection, true) => .ok collection.Verified

/-- `setCollectionStatus`. -/
def setCollectionStatus (s : Store) (id : Nat) (verified : Bool) : Except Err Unit × Store :=
  match GetCollection s id with
  | (_, false) => (.error .ErrCollectionNotFound, s)
  | (collection, true) => (.ok (), SetCollection s { collection with Verified := verified })

end Operations

/-! ## Reference collaborators

Concrete instances of the interfaces, used to run the operations on examples:
a ledger of balances, a custody table, and the bech32 codec restricted to the
addresses of the examples. -/

namespace Sample

/-- Address bytes of the example seller, and the like below. -/
def sellerAddr : AccAddress := List.replicate 20 1
def buyerAddr : AccAddress := List.replicate 20 2
def royaltyAddr : AccAddress := List.replicate 20 3
def operatorAddr : AccAddress := List.replicate 20 4
def creatorAddr : AccAddress := List.replicate 20 5

/-- The bech32 text of the example seller address, and the like below. -/
def seller : String := "cudos1qyqszqgpqyqszqgpqyqszqgpqyqszqgpnzgpnf"
def buyer : String := "cudos1qgpqyqszqgpqyqszqgpqyqszqgpqyqszzxwycl"
def royalty : String := "cudos1qvpsxqcrqvpsxqcrqvpsxqcrqvpsxqcrrk09j7"
def operator : String := "cudos1qszqgpqyqszqgpqyqszqgpqyqszqgpqyrxgq4z"
def creator : String := "cudos1q5zs2pg9q5zs2pg9q5zs2pg9q5zs2pg9zkfplr"

/-- The pairs of the bech32 codec (account prefix `cudos`) that the examples
use. -/
def addressTable : List (String × AccAddress) :=
  [(seller, sellerAddr), (buyer, buyerAddr), (royalty, royaltyAddr),
   (operator, operatorAddr), (creator, creatorAddr)]

/-- The bech32 codec on the example addresses; every other text is rejected
(the examples use no other well-formed address). -/
def bech32 : AddrCodec where
  AccAddressFromBech32 := fun s => (addressTable.find? (fun p => p.1 = s)).map (fun p => p.2)
  AccAddressString := fun a => ((addressTable.find? (fun p => p.2 = a)).map (fun p => p.1)).getD ""

/-- Modelled from the spec: the payment ledger, balances per account address
and per module account, each per denomination. -/
structure Ledger where
  account : AccAddress → String → Int
  module : String → String → Int

/-- Move one coin set from an account into a module account; fails on
insufficient funds. -/
def Ledger.toModule (l : Ledger) (sender : AccAddress) (m : String) : Coins → Except ExtErr Ledger
  | [] => .ok l
  | c :: cs =>
    if l.account sender c.Denom < c.Amount then .error "insufficient funds"
    else Ledger.toModule
      { account := fun a d => if a = sender ∧ d = c.Denom then l.account a d - c.Amount
          else l.account a d
        module := fun n d => if n = m ∧ d = c.Denom then l.module n d + c.Amount
          else l.module n d } sender m cs

/-- Move one coin set from a module account to an account; fails on
insufficient funds. -/
def Ledger.fromModule (l : Ledger) (m : String) (recipient : AccAddress) :
    Coins → Except ExtErr Ledger
  | [] => .ok l
  | c :: cs =>
    if l.module m c.Denom < c.Amount then .error "insufficient funds"
    else Ledger.fromModule
      { account := fun a d => if a = recipient ∧ d = c.Denom then l.account a d + c.Amount
          else l.account a d
        module := fun n d => if n = m ∧ d = c.Denom then l.module n d - c.Amount
          else l.module n d } m recipient cs

/-- The ledger as a `BankKeeper`. -/
def bankKeeper : BankKeeper Ledger where
  SendCoinsFromAccountToModule := fun l a m amt => l.toModule a m amt
  SendCoinsFromModuleToAccount := fun l m a amt => l.fromModule m a amt

/-- Modelled from the spec: the asset custody service, with asset families,
assets, operator approvals and soft locks. -/
structure Custody where
  denoms : String → Option Denom
  nfts : String → String → Option BaseNFT
  operators : AccAddress → AccAddress → Bool
  locks : String → String → Option String

/-- Look up an asset. -/
def Custody.getNFT (c : Custody) (denomID tokenID : String) : Except ExtErr BaseNFT :=
  match c.nfts denomID tokenID with
  | some n => .ok n
  | none => .error "not found NFT"

/-- Take the soft lock of an asset; fails when the asset is missing or
already locked. -/
def Custody.softLock (c : Custody) (lockOwner denomID tokenID : String) : Except ExtErr Custody :=
  match c.nfts denomID tokenID, c.locks denomID tokenID with
  | none, _ => .error "not found NFT"
  | some _, some _ => .error "already soft locked"
  | some _, none => .ok { c with locks := fun d t =>
      if d = denomID ∧ t = tokenID then some lockOwner else c.locks d t }

/-- Release the soft lock of an asset; fails unless it is held by `lockOwner`. -/
def Custody.softUnlock (c : Custody) (lockOwner denomID tokenID : String) :
    Except ExtErr Custody :=
  if c.locks denomID tokenID = some lockOwner then
    .ok { c with locks := fun d t => if d = denomID ∧ t = tokenID then none else c.locks d t }
  else .error "not soft locked by this owner"

/-- Hand an asset over to `recipient`. -/
def Custody.transfer (c : Custody) (denomID tokenID : String) (recipient : AccAddress)
    (nft : BaseNFT) : Custody :=
  { c with nfts := fun d t =>
      if d = denomID ∧ t = tokenID then some { nft with Owner := recipient, ApprovedAddresses := [] }
      else c.nfts d t }

/-- The custody table as an `NftKeeper`. -/
def nftKeeper : NftKeeper Custody where
  GetDenom := fun c d => match c.denoms d with
    | some x => .ok x
    | none => .error "not found denomID"
  GetNFT := fun c d t => c.getNFT d t
  GetBaseNFT := fun c d t => c.getNFT d t
  IsApprovedOperator := fun c o p => c.operators o p
  SoftLockNFT := fun c o d t => c.softLock o d t
  SoftUnlockNFT := fun c o d t => c.softUnlock o d t
  TransferNftInternal := fun c d t _ r n => c.transfer d t r n
  MintNFT := fun c d _ _ _ _ r => match c.denoms d with
    | some _ => .ok ("minted", { c with nfts := fun d1 t =>
        if d1 = d ∧ t = "minted" then some ⟨"minted", r, []⟩ else c.nfts d1 t })
    | none => .error "not found denomID"

/-- A ledger without balances that accepts every transfer. -/
def openBank : BankKeeper Unit where
  SendCoinsFromAccountToModule := fun _ _ _ _ => .ok ()
  SendCoinsFromModuleToAccount := fun _ _ _ _ => .ok ()

/-- The keeper over the accepting ledger. -/
def openKeeper : Keeper Unit Custody := ⟨bech32, openBank, nftKeeper⟩

/-- The keeper over the reference collaborators. -/
def keeper : Keeper Ledger Custody := ⟨bech32, bankKeeper, nftKeeper⟩

/-- The price of the examples: `100 uDenom`. -/
def price : Coin := ⟨"uDenom", 100⟩

/-- A ledger in which the buyer holds `1000 uDenom` and nobody else anything. -/
def ledger0 : Ledger where
  account := fun a d => if a = buyerAddr ∧ d = "uDenom" then 1000 else 0
  module := fun _ _ => 0

/-- A custody state with the family `D1`, created by `creator`, and its asset
`T1`, owned by `seller`, for whom `operator` is an approved operator. -/
def custody0 : Custody where
  denoms := fun d => if d = "D1" then some ⟨"D1", creator⟩ else none
  nfts := fun d t => if d = "D1" ∧ t = "T1" then some ⟨"T1", sellerAddr, []⟩ else none
  operators := fun o p => decide (o = sellerAddr ∧ p = operatorAddr)
  locks := fun _ _ => none

/-- The custody state `custody0` with the text of `operator` in the
approved-address list of `T1` and no operator approval. -/
def custodyApproved : Custody where
  denoms := fun d => if d = "D1" then some ⟨"D1", creator⟩ else none
  nfts := fun d t => if d = "D1" ∧ t = "T1" then some ⟨"T1", sellerAddr, [operator]⟩ else none
  operators := fun _ _ => false
  locks := fun _ _ => none

/-- The custody state `custody0` with the soft lock of `T1` already held by
another module, so that a further soft-lock is refused. -/
def custodyLocked : Custody where
  denoms := fun d => if d = "D1" then some ⟨"D1", creator⟩ else none
  nfts := fun d t => if d = "D1" ∧ t = "T1" then some ⟨"T1", sellerAddr, []⟩ else none
  operators := fun _ _ => false
  locks := fun d t => if d = "D1" ∧ t = "T1" then some "auction" else none

/-- A ledger in which the module account of the marketplace holds
`500 uDenom`. -/
def ledgerEscrow : Ledger where
  account := fun _ _ => 0
  module := fun m d => if m = ModuleName ∧ d = "uDenom" then 500 else 0

/-- The custody state `custody0` without the asset `T1`. -/
def custodyWithoutAsset : Custody where
  denoms := fun d => if d = "D1" then some ⟨"D1", creator⟩ else none
  nfts := fun _ _ => none
  operators := fun _ _ => false
  locks := fun _ _ => none

/-- The initial context: empty store, empty log. -/
def ctx0 : Ctx Ledger Custody := ⟨Store.empty, ledger0, custody0, []⟩

/-- The collection of the examples: family `D1` with the given resale
royalties. -/
def collection (resale : List Royalty) : Collection :=
  ⟨0, "D1", [], resale, false, creator⟩

/-- The listing of the examples: asset `T1` of `D1` at `amount uDenom`, listed
by `lister`. -/
def listing (lister : String) (amount : Int) : Nft := ⟨0, "T1", "D1", ⟨"uDenom", amount⟩, lister⟩

/-- The context after the collection and the seller's listing at
`amount uDenom` have been published. -/
def ctxListed (resale : List Royalty) (amount : Int) : Ctx Ledger Custody :=
  (PublishNFT keeper (PublishCollection keeper ctx0 (collection resale)).2
    (listing seller amount)).2

/-- The context, over the ledger whose module account holds `500 uDenom`,
after the collection of `D1` with the given mint royalties has been
published. -/
def ctxMint (mint : List Royalty) : Ctx Ledger Custody :=
  (PublishCollection keeper ⟨Store.empty, ledgerEscrow, custody0, []⟩
    ⟨0, "D1", mint, [], false, creator⟩).2

/-- The context after the seller's listing at `100 uDenom` has been published
and no collection. -/
def ctxListedOnly : Ctx Ledger Custody := (PublishNFT keeper ctx0 (listing seller 100)).2

end Sample

/-! ## Vocabulary for the statements -/

/-- The coin set that `sdk.NewCoins(coin)` returns when it does not panic. -/
def coinsOf (coin : Coin) : Coins := if coin.Amount = 0 then [] else [coin]

/-- The amount of `denom` that one call moves out of the module account. -/
def Call.escrowOut (denom : String) : Call → Int
  | .SendCoinsFromModuleToAccount m _ amt => if m = ModuleName then amt.amountOf denom else 0
  | _ => 0

/-- The amount of `denom` that one call moves into the module account. -/
def Call.escrowIn (denom : String) : Call → Int
  | .SendCoinsFromAccountToModule _ m amt => if m = ModuleName then amt.amountOf denom else 0
  | _ => 0

/-- The amount of `denom` that one call pays from the module account to
`addr`. -/
def Call.paidTo (denom : String) (addr : AccAddress) : Call → Int
  | .SendCoinsFromModuleToAccount m a amt =>
    if m = ModuleName ∧ a = addr then amt.amountOf denom else 0
  | _ => 0

/-- Total of `denom` requested out of the module account in a call log. -/
def escrowOut (denom : String) (log : List Call) : Int := (log.map (Call.escrowOut denom)).sum

/-- Total of `denom` requested into the module account in a call log. -/
def escrowIn (denom : String) (log : List Call) : Int := (log.map (Call.escrowIn denom)).sum

/-- The payment that `DistributeRoyalties` requests for one royalty entry. -/
def royaltyCall {B N : Type} (k : Keeper B N) (price : Coin) (r : Royalty) : Call :=
  .SendCoinsFromModuleToAccount ModuleName ((k.bech32.AccAddressFromBech32 r.Address).getD [])
    (coinsOf ⟨price.Denom, proportionAmount price.Amount r.Percent⟩)

/-- The payment that `DistributeRoyalties` requests for the seller when
`amountLeft` is positive, as a list of zero or one call. -/
def sellerCalls {B N : Type} (k : Keeper B N) (price : Coin) (seller : String)
    (amountLeft : Int) : List Call :=
  if 0 < amountLeft then
    [.SendCoinsFromModuleToAccount ModuleName ((k.bech32.AccAddressFromBech32 seller).getD [])
      (coinsOf ⟨price.Denom, amountLeft⟩)]
  else []

/-- The sum of the portions of a royalty list. -/
def portionSum (amount : Int) (royalties : List Royalty) : Int :=
  (royalties.map (fun r => proportionAmount amount r.Percent)).sum

/-- The sum of the raw percents of a royalty list. -/
def percentSum (royalties : List Royalty) : Int := (royalties.map (fun r => r.Percent.raw)).sum

/-- The raw value of `100` percent. -/
def hundredPercent : Int := 100 * precisionReuse

/-- The calls are all sends out of the module account. -/
def Call.isPayout : Call → Bool
  | .SendCoinsFromModuleToAccount _ _ _ => true
  | _ => false

/-- The payout of a sale as the spec words it (4.4, step 4), one branch: if
the collection has resale royalties run the distribution, else pay the seller
the full price directly. -/
def payoutSingleBranch {B N : Type} (k : Keeper B N) (ctx : Ctx B N) (nft : Nft) :
    Except Err Unit × Ctx B N :=
  let (collection, found) := getCollectionByDenomID ctx.store nft.DenomId
  if found && collection.ResaleRoyalties.length ≠ 0 then
    DistributeRoyalties k ctx nft.Price nft.Owner collection.ResaleRoyalties
  else
    match k.bech32.AccAddressFromBech32 nft.Owner with
    | none => (.error .ErrInvalidAddress, ctx)
    | some sellerAddr => payFromModule k ctx sellerAddr nft.Price

/-- `BuyNFT` with the payout in one branch. -/
def BuyNFTSingleBranch {B N : Type} (k : Keeper B N) (ctx : Ctx B N) (nftID : Nat)
    (buyer : AccAddress) : Except Err Unit × Ctx B N :=
  match GetNft ctx.store nftID with
  | none => (.error .ErrNftNotFound, ctx)
  | some nft =>
    if nft.Owner = k.bech32.AccAddressString buyer then (.error .ErrCannotBuyOwnNft, ctx)
    else
      match NewCoins nft.Price with
      | .error e => (.error e, ctx)
      | .ok amt =>
        let ctx := ctx.call (.SendCoinsFromAccountToModule buyer ModuleName amt)
        match k.bankKeeper.SendCoinsFromAccountToModule ctx.bank buyer ModuleName amt with
        | .error e => (.error (.external e), ctx)
        | .ok bank =>
          match payoutSingleBranch k { ctx with bank := bank } nft with
          | (.error e, ctx) => (.error e, ctx)
          | (.ok _, ctx) => buyNFTHandOver k ctx nftID nft buyer

/-- The resale royalties that apply to a listing: those of the published
collection of its family, none when there is no collection. -/
def resaleRoyalties (s : Store) (nft : Nft) : List Royalty :=
  (getCollectionByDenomID s nft.DenomId).1.ResaleRoyalties

/-- The sends out of the module account that a sale requests. -/
def payoutCalls {B N : Type} (k : Keeper B N) (s : Store) (nft : Nft) : List Call :=
  if (resaleRoyalties s nft).length = 0 then
    [.SendCoinsFromModuleToAccount ModuleName ((k.bech32.AccAddressFromBech32 nft.Owner).getD [])
      (coinsOf nft.Price)]
  else
    (resaleRoyalties s nft).map (royaltyCall k nft.Price) ++
      sellerCalls k nft.Price nft.Owner
        (nft.Price.Amount - portionSum nft.Price.Amount (resaleRoyalties s nft))

/-- The store after a sale or a removal: the index entry and the listing are
gone. -/
def storeWithoutListing (s : Store) (nftID : Nat) (nft : Nft) : Store :=
  RemoveNft (s.deleteNftDenomTokenID nft.DenomId nft.TokenId) nftID

/-- The custody lookup and the two custody requests that end a sale, given
the asset record that the lookup returned. -/
def handOverCalls (nft : Nft) (buyer : AccAddress) (baseNft : BaseNFT) : List Call :=
  [.GetBaseNFT nft.DenomId nft.TokenId, .SoftUnlockNFT ModuleName nft.DenomId nft.TokenId,
   .TransferNftInternal nft.DenomId nft.TokenId (AccAddressCast nft.Owner) buyer baseNft]

/-- Total of `denom` that a call log requests from the module account for
`addr`. -/
def paidTo (denom : String) (addr : AccAddress) (log : List Call) : Int :=
  (log.map (Call.paidTo denom addr)).sum

/-- The call is a custody transfer. -/
def Call.isTransfer : Call → Bool
  | .TransferNftInternal _ _ _ _ _ => true
  | _ => false

/-- The call is a soft-lock request. -/
def Call.isSoftLock : Call → Bool
  | .SoftLockNFT _ _ _ => true
  | _ => false

/-- The log `l'` is the log `l` followed by calls that all satisfy `P`. -/
def LogExtends (P : Call → Bool) (l l' : List Call) : Prop :=
  ∃ calls, l' = l ++ calls ∧ ∀ c ∈ calls, P c = true

/-- The buyer's payment into the module account is reached and accepted:
what `BuyNFT` does up to and including
`SendCoinsFromAccountToModule`. -/
def paymentAccepted {B N : Type} (k : Keeper B N) (ctx : Ctx B N) (nftID : Nat)
    (buyer : AccAddress) : Bool :=
  match GetNft ctx.store nftID with
  | none => false
  | some nft =>
    if nft.Owner = k.bech32.AccAddressString buyer then false
    else
      match NewCoins nft.Price with
      | .error _ => false
      | .ok amt =>
        match k.bankKeeper.SendCoinsFromAccountToModule ctx.bank buyer ModuleName amt with
        | .error _ => false
        | .ok _ => true

/-- The custody lookups of `PublishNFT` succeed and its three-way
authorisation test passes, for the custody state `custody`. -/
def authorised {B N : Type} (k : Keeper B N) (custody : N) (nft : Nft) : Bool :=
  match k.nftKeeper.GetDenom custody nft.DenomId with
  | .error _ => false
  | .ok _ =>
    match k.nftKeeper.GetNFT custody nft.DenomId nft.TokenId with
    | .error _ => false
    | .ok nftVal =>
      decide (k.bech32.AccAddressString nftVal.Owner = nft.Owner) ||
        k.nftKeeper.IsApprovedOperator custody nftVal.Owner (AccAddressCast nft.Owner) ||
        isApprovedNftAddress nftVal nft.Owner

/-- The index holds a non-empty entry for the asset of the listing
(`len(b) > 0`). -/
def indexPresent (s : Store) (nft : Nft) : Bool :=
  decide (0 < ((s.nftDenomTokenID nft.DenomId nft.TokenId).getD []).length)

/-- The custody queries that `PublishNFT` makes before it decides on the
authorisation: the operator query is only made when the owner comparison
fails. -/
def publishLookups {B N : Type} (k : Keeper B N) (nftVal : BaseNFT) (nft : Nft) : List Call :=
  [.GetDenom nft.DenomId, .GetNFT nft.DenomId nft.TokenId] ++
    if k.bech32.AccAddressString nftVal.Owner = nft.Owner then []
    else [.IsApprovedOperator nftVal.Owner (AccAddressCast nft.Owner)]

/-- Every collection of the store is stored under its own `Id`: what the two
writers of the table, `AppendCollection` and `SetCollection`, maintain. -/
def Store.CollectionsKeyed (s : Store) : Prop :=
  ∀ i c, s.collections i = some c → c.Id = i

/-- The call is a payment into a module account. -/
def Call.isDeposit : Call → Bool
  | .SendCoinsFromAccountToModule _ _ _ => true
  | _ => false

/-- One call of an operation of the keeper, with its arguments. -/
inductive Op where
  | PublishCollection (collection : Collection)
  | PublishNFT (nft : Nft)
  | BuyNFT (nftID : Nat) (buyer : AccAddress)
  | MintNFT (denomID name uri data : String) (price : Coin) (recipient sender : AccAddress)
  | RemoveNFT (nftID : Nat) (owner : AccAddress)
  | setCollectionStatus (id : Nat) (verified : Bool)

/-- The context that one operation leaves, whether it succeeds or fails. -/
def Op.apply {B N : Type} (k : Keeper B N) (ctx : Ctx B N) : Op → Ctx B N
  | .PublishCollection collection => (Marketplace.PublishCollection k ctx collection).2
  | .PublishNFT nft => (Marketplace.PublishNFT k ctx nft).2
  | .BuyNFT nftID buyer => (Marketplace.BuyNFT k ctx nftID buyer).2
  | .MintNFT denomID name uri data price recipient sender =>
    (Marketplace.MintNFT k ctx denomID name uri data price recipient sender).2
  | .RemoveNFT nftID owner => (Marketplace.RemoveNFT k ctx nftID owner).2
  | .setCollectionStatus id verified =>
    { ctx with store := (Marketplace.setCollectionStatus ctx.store id verified).2 }

/-- The context after a sequence of operations, each applied to what the one
before left. -/
def run {B N : Type} (k : Keeper B N) (ctx : Ctx B N) (ops : List Op) : Ctx B N :=
  ops.foldl (Op.apply k) ctx

/-- The store reached from the empty store by a sequence of operations, for
any initial ledger, custody state and log. -/
def reachedStore {B N : Type} (k : Keeper B N) (bank : B) (custody : N) (log : List Call)
    (ops : List Op) : Store :=
  (run k ⟨Store.empty, bank, custody, log⟩ ops).store

/-- The listing table and its index agree, and ids are below the counter:
every index entry is the encoding of the id of a stored listing of that asset,
every stored listing is indexed under its asset, and every id in use is below
the counter, which is at most `bound`. -/
def ListingsIndexed (s : Store) (bound : Nat) : Prop :=
  (∀ d t bz, s.nftDenomTokenID d t = some bz →
      ∃ id n, bz = Uint64ToBytes id ∧ s.nfts id = some n ∧ n.DenomId = d ∧ n.TokenId = t) ∧
    (∀ id n, s.nfts id = some n →
      s.nftDenomTokenID n.DenomId n.TokenId = some (Uint64ToBytes id)) ∧
    (∀ id n, s.nfts id = some n → id < s.nftCount) ∧
    s.nftCount ≤ bound

/-- The listing tables of `s'` are those of `s`. -/
def SameListings (s s' : Store) : Prop :=
  s'.nfts = s.nfts ∧ s'.nftCount = s.nftCount ∧ s'.nftDenomTokenID = s.nftDenomTokenID

/-- The effect of one operation on the listing tables: none, one listing
published for an asset without index entry, or one stored listing removed
together with the index entry of its asset. -/
def ListingStep (s s' : Store) : Prop :=
  SameListings s s' ∨
    (∃ nft, indexPresent s nft = false ∧
      s' = (AppendNft s nft).2.setNftDenomTokenID nft.DenomId nft.TokenId
        (Uint64ToBytes (GetNftCount s))) ∨
    (∃ nftID nft, GetNft s nftID = some nft ∧ s' = storeWithoutListing s nftID nft)

/-- The share of the spec: `floor(amount * percent / 100)` over the exact
rational value of the percent. -/
def floorShare (amount : Int) (percent : Dec) : Int :=
  ⌊(amount : ℚ) * ((percent.raw : ℚ) / 1000000000000000000) / 100⌋

deriving instance DecidableEq for Except

/-! ## Arithmetic of `getProportion` -/

/-- Division by `100` rounding half to even: what `Quo(sdk.NewDec(100))`
leaves as raw value for a non-negative raw dividend. -/
def roundHalfEven100 (x : Int) : Int :=
  if x % 100 < 50 then x / 100
  else if 50 < x % 100 then x / 100 + 1
  else if x / 100 % 2 = 0 then x / 100
  else x / 100 + 1

theorem decBitLenBound_eq : decBitLenBound = 2 ^ maxDecBitLen := by
  unfold decBitLenBound maxDecBitLen
  norm_num

theorem exceedsDecBitLen_of_lt (x : Int) (h0 : 0 ≤ x) (h : x < decBitLenBound) :
    exceedsDecBitLen x = false := by
  unfold exceedsDecBitLen
  rw [decide_eq_false_iff_not]
  omega

theorem exceedsDecBitLen_of_le (x : Int) (h : (decBitLenBound : Int) ≤ x) :
    exceedsDecBitLen x = true := by
  unfold exceedsDecBitLen
  rw [decide_eq_true_iff]
  omega

theorem chopPrecisionAndRound_of_nonneg (d : Int) (hd : 0 ≤ d) :
    chopPrecisionAndRound d = chopPrecisionAndRoundNonneg d := by
  unfold chopPrecisionAndRound
  rw [if_neg (not_lt.mpr hd)]

theorem ToDec_mulChopped (a p : Int) (ha : 0 ≤ a) (hp : 0 ≤ p) :
    (ToDec a).mulChopped ⟨p⟩ = a * p := by
  have hx : 0 ≤ a * p := mul_nonneg ha hp
  have hre : a * precisionReuse * p = a * p * precisionReuse := by ring
  simp only [ToDec, Dec.mulChopped, hre]
  generalize a * p = x at hx
  have hd : 0 ≤ x * precisionReuse := by unfold precisionReuse; omega
  rw [chopPrecisionAndRound_of_nonneg _ hd]
  unfold chopPrecisionAndRoundNonneg
  have hP : (0 : Int) ≤ precisionReuse := by unfold precisionReuse; omega
  simp only [Int.tdiv_eq_ediv hd hP, Int.tmod_eq_emod hd hP]
  unfold precisionReuse
  have h1 : x * 1000000000000000000 % 1000000000000000000 = 0 := by omega
  have h2 : x * 1000000000000000000 / 1000000000000000000 = x := by omega
  simp [h1, h2]

theorem quoChopped_hundred (x : Int) (hx : 0 ≤ x) :
    Dec.quoChopped ⟨x⟩ (NewDec 100) = roundHalfEven100 x := by
  have hP : (0 : Int) ≤ precisionReuse := by unfold precisionReuse; omega
  have hn : 0 ≤ x * precisionReuse * precisionReuse := by unfold precisionReuse; omega
  have hden : (0 : Int) ≤ 100 * precisionReuse := by unfold precisionReuse; omega
  have hq : x * precisionReuse * precisionReuse / (100 * precisionReuse)
      = x * 10000000000000000 := by unfold precisionReuse; omega
  have hd : 0 ≤ x * 10000000000000000 := by omega
  simp only [Dec.quoChopped, NewDec, Int.tdiv_eq_ediv hn hden, hq]
  rw [chopPrecisionAndRound_of_nonneg _ hd]
  unfold chopPrecisionAndRoundNonneg roundHalfEven100
  simp only [Int.tdiv_eq_ediv hd hP, Int.tmod_eq_emod hd hP]
  unfold precisionReuse fivePrecision
  have e1 : x * 10000000000000000 / 1000000000000000000 = x / 100 := by omega
  have e2 : x * 10000000000000000 % 1000000000000000000 = x % 100 * 10000000000000000 := by
    omega
  rw [e1, e2]
  split_ifs <;> omega

theorem roundHalfEven100_nonneg (x : Int) (hx : 0 ≤ x) : 0 ≤ roundHalfEven100 x := by
  unfold roundHalfEven100
  split_ifs <;> omega

/-- The amount computed by `getProportion` for a non-negative amount and a
non-negative ratio. -/
theorem proportionAmount_eq (a p : Int) (ha : 0 ≤ a) (hp : 0 ≤ p) :
    proportionAmount a ⟨p⟩ = roundHalfEven100 (a * p) / precisionReuse := by
  have hx : 0 ≤ a * p := mul_nonneg ha hp
  unfold proportionAmount Dec.TruncateInt
  rw [ToDec_mulChopped a p ha hp, quoChopped_hundred _ hx]
  have hP : (0 : Int) ≤ precisionReuse := by unfold precisionReuse; omega
  exact Int.tdiv_eq_ediv (roundHalfEven100_nonneg _ hx) hP

theorem proportionAmount_nonneg (a p : Int) (ha : 0 ≤ a) (hp : 0 ≤ p) :
    0 ≤ proportionAmount a ⟨p⟩ := by
  rw [proportionAmount_eq a p ha hp]
  have := roundHalfEven100_nonneg (a * p) (mul_nonneg ha hp)
  unfold precisionReuse
  omega

/-- The portion never exceeds the exact share by more than the rounding of
the quotient: `portion * 10^20 ≤ amount * raw + 50`. -/
theorem proportionAmount_upper (a p : Int) (ha : 0 ≤ a) (hp : 0 ≤ p) :
    proportionAmount a ⟨p⟩ * 100000000000000000000 ≤ a * p + 50 := by
  rw [proportionAmount_eq a p ha hp]
  have hx : 0 ≤ a * p := mul_nonneg ha hp
  generalize a * p = x at hx
  unfold roundHalfEven100 precisionReuse
  split_ifs <;> omega

/-- The portion is at least the floor of the exact share, and at most one
more. -/
theorem proportionAmount_floor_bounds (a p : Int) (ha : 0 ≤ a) (hp : 0 ≤ p) :
    a * p / 100000000000000000000 ≤ proportionAmount a ⟨p⟩ ∧
      proportionAmount a ⟨p⟩ ≤ a * p / 100000000000000000000 + 1 := by
  rw [proportionAmount_eq a p ha hp]
  have hx : 0 ≤ a * p := mul_nonneg ha hp
  generalize a * p = x at hx
  unfold roundHalfEven100 precisionReuse
  split_ifs <;> omega

/-- When the quotient by `100` is exact at 18 digits the portion is the floor
of the exact share. -/
theorem proportionAmount_exact (a p : Int) (ha : 0 ≤ a) (hp : 0 ≤ p)
    (hdiv : a * p % 100 < 50) :
    proportionAmount a ⟨p⟩ = a * p / 100000000000000000000 := by
  rw [proportionAmount_eq a p ha hp]
  have hx : 0 ≤ a * p := mul_nonneg ha hp
  generalize a * p = x at hx hdiv
  unfold roundHalfEven100 precisionReuse
  rw [if_pos hdiv]
  omega

/-! ## The royalty distribution -/

section Distribution
variable {B N : Type}

/-- The two outcomes of `sdk.NewCoins` on one coin. -/
theorem NewCoins_cases (coin : Coin) :
    NewCoins coin = .error .goPanic ∨ (NewCoins coin = .ok (coinsOf coin) ∧ 0 ≤ coin.Amount) := by
  unfold NewCoins coinsOf
  split_ifs with h0 hd hneg
  · exact Or.inr ⟨rfl, le_of_eq h0.symm⟩
  · exact Or.inl rfl
  · exact Or.inl rfl
  · exact Or.inr ⟨rfl, not_lt.mp hneg⟩

theorem NewCoins_ok {coin : Coin} {amt : Coins} (h : NewCoins coin = .ok amt) :
    amt = coinsOf coin ∧ 0 ≤ coin.Amount := by
  rcases NewCoins_cases coin with hc | ⟨hc, hnn⟩
  · rw [hc] at h; cases h
  · rw [hc] at h
    exact ⟨(Except.ok.inj h).symm, hnn⟩

theorem NewCoin_ok {denom : String} {amount : Int} {coin : Coin}
    (h : NewCoin denom amount = .ok coin) : coin = ⟨denom, amount⟩ ∧ 0 ≤ amount := by
  unfold NewCoin at h
  split_ifs at h with hd hneg
  exact ⟨(Except.ok.inj h).symm, not_lt.mp hneg⟩

theorem NewCoin_error {denom : String} {amount : Int} {e : Err}
    (h : NewCoin denom amount = .error e) : e = .goPanic := by
  unfold NewCoin at h
  split_ifs at h <;> exact (Except.error.inj h).symm

theorem amountOf_coinsOf (denom : String) (coin : Coin) :
    Coins.amountOf denom (coinsOf coin) = if coin.Denom = denom then coin.Amount else 0 := by
  unfold coinsOf Coins.amountOf
  by_cases h0 : coin.Amount = 0 <;> by_cases hd : coin.Denom = denom <;> simp [h0, hd]

/-- The three outcomes of one payment out of the module account. -/
theorem payFromModule_cases (k : Keeper B N) (ctx : Ctx B N) (addr : AccAddress) (coin : Coin) :
    payFromModule k ctx addr coin = (.error .goPanic, ctx) ∨
      (0 ≤ coin.Amount ∧ payFromModule k ctx addr coin =
        match k.bankKeeper.SendCoinsFromModuleToAccount ctx.bank ModuleName addr (coinsOf coin) with
        | .error e => (.error (.external e),
            ctx.call (.SendCoinsFromModuleToAccount ModuleName addr (coinsOf coin)))
        | .ok bank => (.ok (),
            { ctx.call (.SendCoinsFromModuleToAccount ModuleName addr (coinsOf coin)) with
              bank := bank })) := by
  unfold payFromModule
  rcases NewCoins_cases coin with hc | ⟨hc, hnn⟩
  · rw [hc]; exact Or.inl rfl
  · rw [hc]; exact Or.inr ⟨hnn, rfl⟩

theorem payFromModule_ok {k : Keeper B N} {ctx ctx' : Ctx B N} {addr : AccAddress} {coin : Coin}
    (h : payFromModule k ctx addr coin = (.ok (), ctx')) :
    0 ≤ coin.Amount ∧
      ctx'.log = ctx.log ++ [.SendCoinsFromModuleToAccount ModuleName addr (coinsOf coin)] ∧
      ctx'.store = ctx.store ∧ ctx'.nft = ctx.nft := by
  rcases payFromModule_cases k ctx addr coin with hp | ⟨hnn, hp⟩
  · rw [hp] at h; simp at h
  · rw [hp] at h
    cases hb : k.bankKeeper.SendCoinsFromModuleToAccount ctx.bank ModuleName addr (coinsOf coin) with
    | error e => simp [hb] at h
    | ok bank =>
      simp only [hb, Prod.mk.injEq, true_and] at h
      subst h
      exact ⟨hnn, rfl, rfl, rfl⟩

/-- A payment out of the module account touches neither the store nor the
custody state, whatever its outcome, and requests at most that one send. -/
theorem payFromModule_frame (k : Keeper B N) (ctx : Ctx B N) (addr : AccAddress) (coin : Coin) :
    (payFromModule k ctx addr coin).2.store = ctx.store ∧
      (payFromModule k ctx addr coin).2.nft = ctx.nft ∧
      ((payFromModule k ctx addr coin).2.log = ctx.log ∨
        (payFromModule k ctx addr coin).2.log =
          ctx.log ++ [.SendCoinsFromModuleToAccount ModuleName addr (coinsOf coin)]) := by
  rcases payFromModule_cases k ctx addr coin with hp | ⟨_, hp⟩
  · rw [hp]; simp
  · rw [hp]
    cases hb : k.bankKeeper.SendCoinsFromModuleToAccount ctx.bank ModuleName addr (coinsOf coin) <;>
      simp [Ctx.call]

/-- A payment out of the module account fails only by a refusal of the ledger
or by a panic. -/
theorem payFromModule_error {k : Keeper B N} {ctx ctx' : Ctx B N} {addr : AccAddress}
    {coin : Coin} {e : Err} (h : payFromModule k ctx addr coin = (.error e, ctx')) :
    e = .goPanic ∨ ∃ x, e = .external x := by
  rcases payFromModule_cases k ctx addr coin with hp | ⟨_, hp⟩
  · rw [hp] at h
    simp only [Prod.mk.injEq, Except.error.injEq] at h
    exact Or.inl h.1.symm
  · rw [hp] at h
    cases hb : k.bankKeeper.SendCoinsFromModuleToAccount ctx.bank ModuleName addr (coinsOf coin) with
    | error x =>
      simp only [hb, Prod.mk.injEq, Except.error.injEq] at h
      exact Or.inr ⟨x, h.1.symm⟩
    | ok bank => simp [hb] at h

/-- One step of the loop of `DistributeRoyalties`. -/
theorem distributeLoop_cons (k : Keeper B N) (price : Coin) (r : Royalty) (rest : List Royalty)
    (left : Int) (ctx : Ctx B N) :
    distributeLoop k price (r :: rest) left ctx =
      match k.bech32.AccAddressFromBech32 r.Address with
      | none => (.error .ErrInvalidAddress, ctx)
      | some royaltyReceiver =>
        match getProportion price r.Percent with
        | .error e => (.error e, ctx)
        | .ok portion =>
          match payFromModule k ctx royaltyReceiver portion with
          | (.error e, ctx) => (.error e, ctx)
          | (.ok _, ctx) => distributeLoop k price rest (left - portion.Amount) ctx := by
  rfl

theorem distributeLoop_nil (k : Keeper B N) (price : Coin) (left : Int) (ctx : Ctx B N) :
    distributeLoop k price [] left ctx = (.ok left, ctx) := by
  rfl

/-- The outcomes of `getProportion`: a panic of `Mul`, a panic of `Quo`, or
the coin made of the truncated quotient. -/
theorem getProportion_eq (price : Coin) (ratio : Dec) :
    getProportion price ratio =
      if exceedsDecBitLen ((ToDec price.Amount).mulChopped ratio) then .error .goPanic
      else if exceedsDecBitLen
          (Dec.quoChopped ⟨(ToDec price.Amount).mulChopped ratio⟩ (NewDec 100)) then
        .error .goPanic
      else NewCoin price.Denom (proportionAmount price.Amount ratio) := by
  have h100 : (NewDec 100).raw ≠ 0 := by decide
  unfold getProportion Dec.Mul
  by_cases h1 : exceedsDecBitLen ((ToDec price.Amount).mulChopped ratio) = true
  · rw [if_pos h1, if_pos h1]
  · rw [if_neg h1, if_neg h1]
    unfold Dec.Quo
    simp only [if_neg h100]
    by_cases h2 : exceedsDecBitLen
        (Dec.quoChopped ⟨(ToDec price.Amount).mulChopped ratio⟩ (NewDec 100)) = true
    · rw [if_pos h2, if_pos h2]
    · rw [if_neg h2, if_neg h2]
      rfl

theorem getProportion_ok {price portion : Coin} {ratio : Dec}
    (h : getProportion price ratio = .ok portion) :
    portion = ⟨price.Denom, proportionAmount price.Amount ratio⟩ ∧
      0 ≤ proportionAmount price.Amount ratio := by
  rw [getProportion_eq] at h
  split_ifs at h
  exact NewCoin_ok h

theorem getProportion_error {price : Coin} {ratio : Dec} {e : Err}
    (h : getProportion price ratio = .error e) : e = .goPanic := by
  rw [getProportion_eq] at h
  split_ifs at h
  · exact (Except.error.inj h).symm
  · exact (Except.error.inj h).symm
  · exact NewCoin_error h

/-- The decimal operations of `getProportion` stay within 315 bits, the
denomination is valid: `getProportion` returns the coin of the computed
amount. -/
theorem getProportion_in_range (price : Coin) (p : Int) (ha : 0 ≤ price.Amount) (hp : 0 ≤ p)
    (hdenom : ValidateDenom price.Denom = true) (hbound : price.Amount * p < decBitLenBound) :
    getProportion price ⟨p⟩ = .ok ⟨price.Denom, proportionAmount price.Amount ⟨p⟩⟩ := by
  have hx : 0 ≤ price.Amount * p := mul_nonneg ha hp
  have hnn := proportionAmount_nonneg price.Amount p ha hp
  have hq : roundHalfEven100 (price.Amount * p) ≤ price.Amount * p := by
    unfold roundHalfEven100
    split_ifs <;> omega
  have hq0 := roundHalfEven100_nonneg _ hx
  rw [getProportion_eq, ToDec_mulChopped _ _ ha hp, quoChopped_hundred _ hx]
  have h1 : exceedsDecBitLen (price.Amount * p) = false :=
    exceedsDecBitLen_of_lt _ hx hbound
  have h2 : exceedsDecBitLen (roundHalfEven100 (price.Amount * p)) = false :=
    exceedsDecBitLen_of_lt _ hq0 (lt_of_le_of_lt hq hbound)
  rw [h1, h2]
  unfold NewCoin
  simp [hdenom, not_lt.mpr hnn]

/-- A successful run of the loop: every address was well-formed, the log grew
by exactly one send per entry, in order, and `amountLeft` went down by the sum
of the portions. -/
theorem distributeLoop_ok (k : Keeper B N) (price : Coin) (rs : List Royalty) :
    ∀ (left left' : Int) (ctx ctx' : Ctx B N),
      distributeLoop k price rs left ctx = (.ok left', ctx') →
      (∀ r ∈ rs, (k.bech32.AccAddressFromBech32 r.Address).isSome ∧
          0 ≤ proportionAmount price.Amount r.Percent) ∧
        ctx'.log = ctx.log ++ rs.map (royaltyCall k price) ∧
        left' = left - portionSum price.Amount rs ∧
        ctx'.store = ctx.store ∧ ctx'.nft = ctx.nft := by
  induction rs with
  | nil =>
    intro left left' ctx ctx' h
    rw [distributeLoop_nil] at h
    simp only [Prod.mk.injEq, Except.ok.injEq] at h
    obtain ⟨h1, h2⟩ := h
    subst h1 h2
    simp [portionSum]
  | cons r rest ih =>
    intro left left' ctx ctx' h
    rw [distributeLoop_cons] at h
    cases haddr : k.bech32.AccAddressFromBech32 r.Address with
    | none => simp [haddr] at h
    | some a =>
      cases hprop : getProportion price r.Percent with
      | error e => simp [haddr, hprop] at h
      | ok portion =>
        obtain ⟨hportion, hnn⟩ := getProportion_ok hprop
        cases hpay : payFromModule k ctx a portion with
        | mk res ctx1 =>
          cases res with
          | error e => simp [haddr, hprop, hpay] at h
          | ok u =>
            simp only [haddr, hprop, hpay] at h
            obtain ⟨_, hlog, hstore, hnft⟩ := payFromModule_ok hpay
            obtain ⟨hall, hlog', hleft, hstore', hnft'⟩ := ih _ _ _ _ h
            refine ⟨?_, ?_, ?_, ?_, ?_⟩
            · intro r' hr'
              rcases List.mem_cons.mp hr' with rfl | hr'
              · exact ⟨by simp [haddr], hnn⟩
              · exact hall r' hr'
            · rw [hlog', hlog, hportion]
              simp [royaltyCall, haddr]
            · rw [hleft, hportion]
              simp [portionSum]
              ring
            · rw [hstore', hstore]
            · rw [hnft', hnft]

/-- The loop touches neither the store nor the custody state, whatever its
outcome. -/
theorem distributeLoop_frame (k : Keeper B N) (price : Coin) (rs : List Royalty) :
    ∀ (left : Int) (ctx : Ctx B N),
      (distributeLoop k price rs left ctx).2.store = ctx.store ∧
        (distributeLoop k price rs left ctx).2.nft = ctx.nft := by
  induction rs with
  | nil => intro left ctx; exact ⟨rfl, rfl⟩
  | cons r rest ih =>
    intro left ctx
    cases haddr : k.bech32.AccAddressFromBech32 r.Address with
    | none => simp only [distributeLoop_cons, haddr, and_self]
    | some a =>
      cases hprop : getProportion price r.Percent with
      | error e => simp only [distributeLoop_cons, haddr, hprop, and_self]
      | ok portion =>
        have hf := payFromModule_frame k ctx a portion
        cases hpay : payFromModule k ctx a portion with
        | mk res ctx1 =>
          rw [hpay] at hf
          cases res with
          | error e =>
            simp only [distributeLoop_cons, haddr, hprop, hpay]
            exact ⟨hf.1, hf.2.1⟩
          | ok u =>
            have := ih (left - portion.Amount) ctx1
            simp only [distributeLoop_cons, haddr, hprop, hpay]
            exact ⟨this.1.trans hf.1, this.2.trans hf.2.1⟩

theorem escrowOut_append (denom : String) (l1 l2 : List Call) :
    escrowOut denom (l1 ++ l2) = escrowOut denom l1 + escrowOut denom l2 := by
  simp [escrowOut]

theorem escrowOut_royaltyCalls (k : Keeper B N) (price : Coin) (denom : String)
    (rs : List Royalty) :
    escrowOut denom (rs.map (royaltyCall k price)) =
      if denom = price.Denom then portionSum price.Amount rs else 0 := by
  induction rs with
  | nil => simp [escrowOut, portionSum]
  | cons r rest ih =>
    have ih' : (List.map (Call.escrowOut denom) (List.map (royaltyCall k price) rest)).sum =
        if denom = price.Denom then portionSum price.Amount rest else 0 := ih
    simp only [escrowOut, List.map_cons, List.sum_cons, ih']
    simp only [royaltyCall, Call.escrowOut, if_true, amountOf_coinsOf, portionSum, List.map_cons,
      List.sum_cons]
    by_cases hd : denom = price.Denom
    · simp [hd]
    · have hd' : ¬ price.Denom = denom := fun h => hd h.symm
      simp [hd, hd']

theorem escrowOut_sellerCalls (k : Keeper B N) (price : Coin) (seller denom : String)
    (left : Int) :
    escrowOut denom (sellerCalls k price seller left) =
      if denom = price.Denom ∧ 0 < left then left else 0 := by
  unfold sellerCalls
  by_cases hl : 0 < left
  · by_cases hd : denom = price.Denom
    · simp [hl, hd, escrowOut, Call.escrowOut, amountOf_coinsOf]
    · have hd' : ¬ price.Denom = denom := fun h => hd h.symm
      simp [hl, hd, hd', escrowOut, Call.escrowOut, amountOf_coinsOf]
  · simp [hl, escrowOut]

/-- A successful `DistributeRoyalties` on a non-empty list: the calls it made
are the royalty sends in list order, then the send of a positive remainder to
the seller; store and custody state are untouched. -/
theorem DistributeRoyalties_ok (k : Keeper B N) (ctx ctx' : Ctx B N) (price : Coin)
    (seller : String) (royalties : List Royalty) (hne : royalties ≠ [])
    (h : DistributeRoyalties k ctx price seller royalties = (.ok (), ctx')) :
    (∀ r ∈ royalties, (k.bech32.AccAddressFromBech32 r.Address).isSome ∧
        0 ≤ proportionAmount price.Amount r.Percent) ∧
      (0 < price.Amount - portionSum price.Amount royalties →
        (k.bech32.AccAddressFromBech32 seller).isSome) ∧
      ctx'.log = ctx.log ++ royalties.map (royaltyCall k price) ++
        sellerCalls k price seller (price.Amount - portionSum price.Amount royalties) ∧
      ctx'.store = ctx.store ∧ ctx'.nft = ctx.nft := by
  have hlen : ¬ royalties.length = 0 := fun h0 => hne (List.length_eq_zero.mp h0)
  unfold DistributeRoyalties at h
  rw [if_neg hlen] at h
  cases hloop : distributeLoop k price royalties price.Amount ctx with
  | mk res ctx1 =>
    cases res with
    | error e => simp [hloop] at h
    | ok left =>
      obtain ⟨hall, hlog, hleft, hstore, hnft⟩ := distributeLoop_ok k price royalties _ _ _ _ hloop
      simp only [hloop] at h
      subst hleft
      by_cases hpos : 0 < price.Amount - portionSum price.Amount royalties
      · rw [if_pos hpos] at h
        cases hs : k.bech32.AccAddressFromBech32 seller with
        | none => simp [hs] at h
        | some sellerAddr =>
          simp only [hs] at h
          cases hcoin : NewCoin price.Denom (price.Amount - portionSum price.Amount royalties) with
          | error e => simp [hcoin] at h
          | ok coin =>
            simp only [hcoin] at h
            obtain ⟨hc, _⟩ := NewCoin_ok hcoin
            subst hc
            obtain ⟨_, hlog2, hstore2, hnft2⟩ := payFromModule_ok h
            refine ⟨hall, fun _ => by simp, ?_, hstore2.trans hstore, hnft2.trans hnft⟩
            rw [hlog2, hlog]
            simp [sellerCalls, hpos, hs]
      · rw [if_neg hpos] at h
        simp only [Prod.mk.injEq, true_and] at h
        subst h
        refine ⟨hall, fun hp => absurd hp hpos, ?_, hstore, hnft⟩
        rw [hlog]
        simp [sellerCalls, hpos]

/-- The portions of a list exceed the exact shares by at most half a unit of
the last of the 18 digits each. -/
theorem portionSum_upper (a : Int) (ha : 0 ≤ a) (rs : List Royalty)
    (hrs : ∀ r ∈ rs, 0 ≤ r.Percent.raw) :
    portionSum a rs * 100000000000000000000 ≤ a * percentSum rs + 50 * rs.length := by
  induction rs with
  | nil => simp [portionSum, percentSum]
  | cons r rest ih =>
    have h1 := proportionAmount_upper a r.Percent.raw ha (hrs r (List.mem_cons_self _ _))
    have h2 := ih (fun r' hr' => hrs r' (List.mem_cons_of_mem _ hr'))
    have e1 : portionSum a (r :: rest) = proportionAmount a r.Percent + portionSum a rest := by
      simp [portionSum]
    have e2 : percentSum (r :: rest) = r.Percent.raw + percentSum rest := by
      simp [percentSum]
    have e3 : ((r :: rest).length : Int) = rest.length + 1 := by simp
    rw [e1, e2, e3]
    have e4 : a * (r.Percent.raw + percentSum rest) = a * r.Percent.raw + a * percentSum rest := by
      ring
    rw [e4]
    have h1' : proportionAmount a r.Percent * 100000000000000000000 ≤ a * r.Percent.raw + 50 := h1
    generalize proportionAmount a r.Percent = x at h1' ⊢
    generalize portionSum a rest = y at h2 ⊢
    generalize a * r.Percent.raw = u at h1' ⊢
    generalize a * percentSum rest = v at h2 ⊢
    omega

theorem portionSum_nonneg (a : Int) (ha : 0 ≤ a) (rs : List Royalty)
    (hrs : ∀ r ∈ rs, 0 ≤ r.Percent.raw) : 0 ≤ portionSum a rs := by
  induction rs with
  | nil => simp [portionSum]
  | cons r rest ih =>
    have h1 := proportionAmount_nonneg a r.Percent.raw ha (hrs r (List.mem_cons_self _ _))
    have h2 := ih (fun r' hr' => hrs r' (List.mem_cons_of_mem _ hr'))
    have e1 : portionSum a (r :: rest) = proportionAmount a r.Percent + portionSum a rest := by
      simp [portionSum]
    rw [e1]
    exact add_nonneg h1 h2

/-- With percents summing to at most `100` and fewer than `2 * 10^18`
entries, the portions sum to at most the price. -/
theorem portionSum_le_amount (a : Int) (ha : 0 ≤ a) (rs : List Royalty)
    (hrs : ∀ r ∈ rs, 0 ≤ r.Percent.raw) (hsum : percentSum rs ≤ hundredPercent)
    (hlen : rs.length < 2 * 10 ^ 18) : portionSum a rs ≤ a := by
  have h1 := portionSum_upper a ha rs hrs
  have h2 : a * percentSum rs ≤ a * hundredPercent := mul_le_mul_of_nonneg_left hsum ha
  have h3 : a * hundredPercent = a * 100000000000000000000 := by
    unfold hundredPercent precisionReuse
    norm_num
  rw [h3] at h2
  have h4 : (rs.length : Int) < 2000000000000000000 := by
    have : rs.length < 2000000000000000000 := by
      have e : (2 : Nat) * 10 ^ 18 = 2000000000000000000 := by norm_num
      omega
    exact_mod_cast this
  generalize portionSum a rs = y at h1 ⊢
  generalize a * percentSum rs = v at h1 h2
  generalize (rs.length : Int) = n at h1 h4
  omega

theorem floorShare_eq (amount : Int) (percent : Dec) :
    floorShare amount percent = amount * percent.raw / 100000000000000000000 := by
  unfold floorShare
  have h : (amount : ℚ) * ((percent.raw : ℚ) / 1000000000000000000) / 100 =
      ((amount * percent.raw : ℤ) : ℚ) / ((100000000000000000000 : ℕ) : ℚ) := by
    push_cast
    ring
  rw [h, Rat.floor_intCast_div_natCast]
  rfl

theorem result_eq_of_fst {α : Type} {r : Except Err α × Ctx B N} {x : Except Err α}
    (h : r.1 = x) : r = (x, r.2) := by
  cases r
  simp_all

end Distribution

/-! ## The purchase -/

section Purchase
variable {B N : Type}

theorem getCollectionByDenomID_not_found (s : Store) (denomID : String)
    (h : (getCollectionByDenomID s denomID).2 = false) :
    (getCollectionByDenomID s denomID).1 = Collection.zero := by
  unfold getCollectionByDenomID at h ⊢
  cases hidx : s.collectionDenomID denomID with
  | none => rfl
  | some bz =>
    simp only [hidx] at h ⊢
    unfold GetCollection at h ⊢
    cases hc : s.collections (BytesToUint64 bz) with
    | none => rfl
    | some c => simp [hc] at h

/-- `DistributeRoyalties` touches neither the store nor the custody state,
whatever its outcome. -/
theorem DistributeRoyalties_frame (k : Keeper B N) (ctx : Ctx B N) (price : Coin)
    (seller : String) (royalties : List Royalty) :
    (DistributeRoyalties k ctx price seller royalties).2.store = ctx.store ∧
      (DistributeRoyalties k ctx price seller royalties).2.nft = ctx.nft := by
  unfold DistributeRoyalties
  by_cases hlen : royalties.length = 0
  · rw [if_pos hlen]
    exact ⟨rfl, rfl⟩
  · rw [if_neg hlen]
    have hf := distributeLoop_frame k price royalties price.Amount ctx
    cases hloop : distributeLoop k price royalties price.Amount ctx with
    | mk res ctx1 =>
      rw [hloop] at hf
      cases res with
      | error e => exact hf
      | ok left =>
        simp only
        by_cases hpos : 0 < left
        · rw [if_pos hpos]
          cases hs : k.bech32.AccAddressFromBech32 seller with
          | none => exact hf
          | some sellerAddr =>
            cases hcoin : NewCoin price.Denom left with
            | error e => exact hf
            | ok coin =>
              have hp := payFromModule_frame k ctx1 sellerAddr coin
              exact ⟨hp.1.trans hf.1, hp.2.1.trans hf.2⟩
        · rw [if_neg hpos]
          exact hf

/-- `DistributeRoyalties` on an empty list does nothing. -/
theorem DistributeRoyalties_nil (k : Keeper B N) (ctx : Ctx B N) (price : Coin)
    (seller : String) : DistributeRoyalties k ctx price seller [] = (.ok (), ctx) := by
  rfl

/-- The payout of `BuyNFT` is the single branch of the spec. -/
theorem buyNFTPayout_eq_singleBranch (k : Keeper B N) (ctx : Ctx B N) (nft : Nft) :
    buyNFTPayout k ctx nft = payoutSingleBranch k ctx nft := by
  unfold buyNFTPayout payoutSingleBranch
  have hzero := getCollectionByDenomID_not_found ctx.store nft.DenomId
  cases hc : getCollectionByDenomID ctx.store nft.DenomId with
  | mk collection found =>
    rw [hc] at hzero
    simp only at hzero ⊢
    cases found with
    | false =>
      have hcz : collection = Collection.zero := hzero rfl
      subst hcz
      simp only [Bool.not_false, Bool.true_or, if_true, Bool.false_and, Bool.false_eq_true,
        if_false]
      cases hs : k.bech32.AccAddressFromBech32 nft.Owner with
      | none => rfl
      | some sellerAddr =>
        simp only
        cases hp : payFromModule k ctx sellerAddr nft.Price with
        | mk res ctx1 =>
          cases res with
          | error e => rfl
          | ok u => rfl
    | true =>
      by_cases hlen : collection.ResaleRoyalties.length = 0
      · have hnil : collection.ResaleRoyalties = [] := List.length_eq_zero.mp hlen
        simp only [hlen, Bool.not_true, Bool.false_or, decide_True, if_true, Bool.true_and,
          ne_eq, not_true_eq_false, decide_False, Bool.false_eq_true, if_false]
        cases hs : k.bech32.AccAddressFromBech32 nft.Owner with
        | none => rfl
        | some sellerAddr =>
          simp only
          cases hp : payFromModule k ctx sellerAddr nft.Price with
          | mk res ctx1 =>
            cases res with
            | error e => rfl
            | ok u =>
              simp only [hnil]
              rfl
      · simp [hlen]

/-- `BuyNFT` is `BuyNFTSingleBranch`. -/
theorem BuyNFT_eq_singleBranch (k : Keeper B N) (ctx : Ctx B N) (nftID : Nat)
    (buyer : AccAddress) : BuyNFT k ctx nftID buyer = BuyNFTSingleBranch k ctx nftID buyer := by
  unfold BuyNFT BuyNFTSingleBranch
  simp only [buyNFTPayout_eq_singleBranch]

/-- A successful payout: the sends it requested, and what it left alone. -/
theorem payoutSingleBranch_ok (k : Keeper B N) (ctx ctx' : Ctx B N) (nft : Nft)
    (h : payoutSingleBranch k ctx nft = (.ok (), ctx')) :
    ctx'.log = ctx.log ++ payoutCalls k ctx.store nft ∧
      ctx'.store = ctx.store ∧ ctx'.nft = ctx.nft ∧
      ((resaleRoyalties ctx.store nft).length = 0 →
        (k.bech32.AccAddressFromBech32 nft.Owner).isSome ∧ 0 ≤ nft.Price.Amount) ∧
      (∀ r ∈ resaleRoyalties ctx.store nft,
        (k.bech32.AccAddressFromBech32 r.Address).isSome) := by
  unfold payoutSingleBranch at h
  have hzero := getCollectionByDenomID_not_found ctx.store nft.DenomId
  unfold payoutCalls resaleRoyalties
  cases hc : getCollectionByDenomID ctx.store nft.DenomId with
  | mk collection found =>
    rw [hc] at hzero h
    simp only at hzero h ⊢
    by_cases hbranch : (found && decide (collection.ResaleRoyalties.length ≠ 0)) = true
    · rw [if_pos hbranch] at h
      have hlen : ¬ collection.ResaleRoyalties.length = 0 := by
        simp only [Bool.and_eq_true, decide_eq_true_eq] at hbranch
        exact hbranch.2
      have hne : collection.ResaleRoyalties ≠ [] := fun h0 => hlen (by simp [h0])
      obtain ⟨hall, _, hlog, hstore, hnft⟩ :=
        DistributeRoyalties_ok k ctx ctx' nft.Price nft.Owner _ hne h
      refine ⟨?_, hstore, hnft, fun h0 => absurd h0 hlen, fun r hr => (hall r hr).1⟩
      rw [if_neg hlen, hlog, List.append_assoc]
    · rw [if_neg hbranch] at h
      have hlen : collection.ResaleRoyalties.length = 0 := by
        cases found with
        | false =>
          have hcz : collection = Collection.zero := hzero rfl
          subst hcz
          rfl
        | true =>
          simp only [Bool.true_and, decide_eq_true_eq] at hbranch
          exact not_not.mp hbranch
      have hnil : collection.ResaleRoyalties = [] := List.length_eq_zero.mp hlen
      cases hs : k.bech32.AccAddressFromBech32 nft.Owner with
      | none => simp [hs] at h
      | some sellerAddr =>
        simp only [hs] at h
        obtain ⟨hnn, hlog, hstore, hnft⟩ := payFromModule_ok h
        refine ⟨?_, hstore, hnft, fun _ => ⟨by simp, hnn⟩, ?_⟩
        · rw [if_pos hlen, hlog]
          simp
        · intro r hr
          rw [hnil] at hr
          cases hr

/-- The payout touches neither the store nor the custody state, whatever its
outcome. -/
theorem payoutSingleBranch_frame (k : Keeper B N) (ctx : Ctx B N) (nft : Nft) :
    (payoutSingleBranch k ctx nft).2.store = ctx.store ∧
      (payoutSingleBranch k ctx nft).2.nft = ctx.nft := by
  unfold payoutSingleBranch
  cases hc : getCollectionByDenomID ctx.store nft.DenomId with
  | mk collection found =>
    simp only
    split_ifs
    · exact DistributeRoyalties_frame k ctx nft.Price nft.Owner _
    · cases hs : k.bech32.AccAddressFromBech32 nft.Owner with
      | none => exact ⟨rfl, rfl⟩
      | some sellerAddr =>
        have hp := payFromModule_frame k ctx sellerAddr nft.Price
        exact ⟨hp.1, hp.2.1⟩

/-- A successful hand-over. -/
theorem buyNFTHandOver_ok (k : Keeper B N) (ctx : Ctx B N) (nftID : Nat) (nft : Nft)
    (buyer : AccAddress) (h : (buyNFTHandOver k ctx nftID nft buyer).1 = .ok ()) :
    ∃ baseNft custody,
      k.nftKeeper.GetBaseNFT ctx.nft nft.DenomId nft.TokenId = .ok baseNft ∧
      k.nftKeeper.SoftUnlockNFT ctx.nft ModuleName nft.DenomId nft.TokenId = .ok custody ∧
      (buyNFTHandOver k ctx nftID nft buyer).2.log = ctx.log ++ handOverCalls nft buyer baseNft ∧
      (buyNFTHandOver k ctx nftID nft buyer).2.store = storeWithoutListing ctx.store nftID nft ∧
      (buyNFTHandOver k ctx nftID nft buyer).2.bank = ctx.bank ∧
      (buyNFTHandOver k ctx nftID nft buyer).2.nft =
        k.nftKeeper.TransferNftInternal custody nft.DenomId nft.TokenId
          (AccAddressCast nft.Owner) buyer baseNft := by
  unfold buyNFTHandOver at h ⊢
  simp only [Ctx.call] at h ⊢
  cases hb : k.nftKeeper.GetBaseNFT ctx.nft nft.DenomId nft.TokenId with
  | error e => simp [hb] at h
  | ok baseNft =>
    cases hu : k.nftKeeper.SoftUnlockNFT ctx.nft ModuleName nft.DenomId nft.TokenId with
    | error e => simp [hb, hu] at h
    | ok custody =>
      refine ⟨baseNft, custody, rfl, rfl, ?_, ?_, ?_, ?_⟩ <;>
        simp [handOverCalls, storeWithoutListing]

/-- A failing hand-over leaves ledger and custody state alone and requests no
transfer. -/
theorem buyNFTHandOver_error (k : Keeper B N) (ctx : Ctx B N) (nftID : Nat) (nft : Nft)
    (buyer : AccAddress) (e : Err) (h : (buyNFTHandOver k ctx nftID nft buyer).1 = .error e) :
    (buyNFTHandOver k ctx nftID nft buyer).2.bank = ctx.bank ∧
      (buyNFTHandOver k ctx nftID nft buyer).2.nft = ctx.nft ∧
      (buyNFTHandOver k ctx nftID nft buyer).2.store = storeWithoutListing ctx.store nftID nft ∧
      ((buyNFTHandOver k ctx nftID nft buyer).2.log =
          ctx.log ++ [.GetBaseNFT nft.DenomId nft.TokenId] ∨
        (buyNFTHandOver k ctx nftID nft buyer).2.log =
          ctx.log ++ [.GetBaseNFT nft.DenomId nft.TokenId,
            .SoftUnlockNFT ModuleName nft.DenomId nft.TokenId]) := by
  unfold buyNFTHandOver at h ⊢
  simp only [Ctx.call] at h ⊢
  cases hb : k.nftKeeper.GetBaseNFT ctx.nft nft.DenomId nft.TokenId with
  | error e1 => simp [storeWithoutListing]
  | ok baseNft =>
    cases hu : k.nftKeeper.SoftUnlockNFT ctx.nft ModuleName nft.DenomId nft.TokenId with
    | error e1 => simp [storeWithoutListing]
    | ok custody => simp [hb, hu] at h

/-- A successful `BuyNFT`, step by step: the listing it sold, the payment
into the module account, the payouts, the hand-over, and the store it left. -/
theorem BuyNFT_ok (k : Keeper B N) (ctx : Ctx B N) (nftID : Nat) (buyer : AccAddress)
    (h : (BuyNFT k ctx nftID buyer).1 = .ok ()) :
    ∃ nft baseNft,
      GetNft ctx.store nftID = some nft ∧
      nft.Owner ≠ k.bech32.AccAddressString buyer ∧
      0 ≤ nft.Price.Amount ∧
      ((resaleRoyalties ctx.store nft).length = 0 →
        (k.bech32.AccAddressFromBech32 nft.Owner).isSome) ∧
      (∀ r ∈ resaleRoyalties ctx.store nft,
        (k.bech32.AccAddressFromBech32 r.Address).isSome) ∧
      k.nftKeeper.GetBaseNFT ctx.nft nft.DenomId nft.TokenId = .ok baseNft ∧
      (BuyNFT k ctx nftID buyer).2.log =
        ctx.log ++ [.SendCoinsFromAccountToModule buyer ModuleName (coinsOf nft.Price)] ++
          payoutCalls k ctx.store nft ++ handOverCalls nft buyer baseNft ∧
      (BuyNFT k ctx nftID buyer).2.store = storeWithoutListing ctx.store nftID nft := by
  rw [BuyNFT_eq_singleBranch] at h ⊢
  unfold BuyNFTSingleBranch at h ⊢
  cases hg : GetNft ctx.store nftID with
  | none => simp [hg] at h
  | some nft =>
    simp only [hg] at h ⊢
    by_cases hown : nft.Owner = k.bech32.AccAddressString buyer
    · simp [hown] at h
    · rw [if_neg hown] at h ⊢
      rcases NewCoins_cases nft.Price with hcoins | ⟨hcoins, hnn⟩
      · simp [hcoins] at h
      · rw [hcoins] at h ⊢
        simp only at h ⊢
        cases hpay : k.bankKeeper.SendCoinsFromAccountToModule
            (ctx.call (.SendCoinsFromAccountToModule buyer ModuleName (coinsOf nft.Price))).bank
            buyer ModuleName (coinsOf nft.Price) with
        | error e => simp [hpay] at h
        | ok bank =>
          simp only [hpay] at h ⊢
          cases hpo : payoutSingleBranch k
              { ctx.call (.SendCoinsFromAccountToModule buyer ModuleName (coinsOf nft.Price)) with
                bank := bank } nft with
          | mk res ctx2 =>
            cases res with
            | error e => simp [hpo] at h
            | ok u =>
              simp only [hpo] at h ⊢
              obtain ⟨hlog, hstore, hnft, hsell, hroy⟩ := payoutSingleBranch_ok k _ _ nft hpo
              obtain ⟨baseNft, custody, hbase, _, hlog2, hstore2, _, _⟩ :=
                buyNFTHandOver_ok k ctx2 nftID nft buyer h
              refine ⟨nft, baseNft, rfl, hown, hnn, fun h0 => (hsell h0).1, hroy, ?_, ?_, ?_⟩
              · rw [← hbase, hnft]
                rfl
              · rw [hlog2, hlog]
                rfl
              · rw [hstore2, hstore]
                rfl

theorem LogExtends.refl (P : Call → Bool) (l : List Call) : LogExtends P l l :=
  ⟨[], by simp, by simp⟩

theorem LogExtends.trans {P : Call → Bool} {l1 l2 l3 : List Call}
    (h1 : LogExtends P l1 l2) (h2 : LogExtends P l2 l3) : LogExtends P l1 l3 := by
  obtain ⟨c1, e1, p1⟩ := h1
  obtain ⟨c2, e2, p2⟩ := h2
  refine ⟨c1 ++ c2, by rw [e2, e1, List.append_assoc], ?_⟩
  intro c hc
  rcases List.mem_append.mp hc with h | h
  · exact p1 c h
  · exact p2 c h

theorem LogExtends.mono {P Q : Call → Bool} {l1 l2 : List Call}
    (hPQ : ∀ c, P c = true → Q c = true) (h : LogExtends P l1 l2) : LogExtends Q l1 l2 := by
  obtain ⟨c1, e1, p1⟩ := h
  exact ⟨c1, e1, fun c hc => hPQ c (p1 c hc)⟩

theorem LogExtends.single {P : Call → Bool} (l : List Call) (c : Call) (h : P c = true) :
    LogExtends P l (l ++ [c]) :=
  ⟨[c], rfl, by simp [h]⟩

/-- Whatever its outcome, one payment adds only sends out of the module
account to the log. -/
theorem payFromModule_log (k : Keeper B N) (ctx : Ctx B N) (addr : AccAddress) (coin : Coin) :
    LogExtends Call.isPayout ctx.log (payFromModule k ctx addr coin).2.log := by
  rcases (payFromModule_frame k ctx addr coin).2.2 with h | h
  · rw [h]
    exact LogExtends.refl _ _
  · rw [h]
    exact LogExtends.single _ _ rfl

theorem distributeLoop_log (k : Keeper B N) (price : Coin) (rs : List Royalty) :
    ∀ (left : Int) (ctx : Ctx B N),
      LogExtends Call.isPayout ctx.log (distributeLoop k price rs left ctx).2.log := by
  induction rs with
  | nil => intro left ctx; exact LogExtends.refl _ _
  | cons r rest ih =>
    intro left ctx
    cases haddr : k.bech32.AccAddressFromBech32 r.Address with
    | none =>
      simp only [distributeLoop_cons, haddr]
      exact LogExtends.refl _ _
    | some a =>
      cases hprop : getProportion price r.Percent with
      | error e =>
        simp only [distributeLoop_cons, haddr, hprop]
        exact LogExtends.refl _ _
      | ok portion =>
        have hf := payFromModule_log k ctx a portion
        cases hpay : payFromModule k ctx a portion with
        | mk res ctx1 =>
          rw [hpay] at hf
          cases res with
          | error e =>
            simp only [distributeLoop_cons, haddr, hprop, hpay]
            exact hf
          | ok u =>
            simp only [distributeLoop_cons, haddr, hprop, hpay]
            exact hf.trans (ih (left - portion.Amount) ctx1)

/-- Whatever its outcome, `DistributeRoyalties` adds only sends out of the
module account to the log. -/
theorem DistributeRoyalties_log (k : Keeper B N) (ctx : Ctx B N) (price : Coin)
    (seller : String) (royalties : List Royalty) :
    LogExtends Call.isPayout ctx.log
      (DistributeRoyalties k ctx price seller royalties).2.log := by
  unfold DistributeRoyalties
  by_cases hlen : royalties.length = 0
  · rw [if_pos hlen]
    exact LogExtends.refl _ _
  · rw [if_neg hlen]
    have hf := distributeLoop_log k price royalties price.Amount ctx
    cases hloop : distributeLoop k price royalties price.Amount ctx with
    | mk res ctx1 =>
      rw [hloop] at hf
      cases res with
      | error e => exact hf
      | ok left =>
        simp only
        by_cases hpos : 0 < left
        · rw [if_pos hpos]
          cases hs : k.bech32.AccAddressFromBech32 seller with
          | none => exact hf
          | some sellerAddr =>
            cases hcoin : NewCoin price.Denom left with
            | error e => exact hf
            | ok coin => exact hf.trans (payFromModule_log k ctx1 sellerAddr coin)
        · rw [if_neg hpos]
          exact hf

/-- Whatever its outcome, the payout of a sale adds only sends out of the
module account to the log. -/
theorem payoutSingleBranch_log (k : Keeper B N) (ctx : Ctx B N) (nft : Nft) :
    LogExtends Call.isPayout ctx.log (payoutSingleBranch k ctx nft).2.log := by
  unfold payoutSingleBranch
  cases hc : getCollectionByDenomID ctx.store nft.DenomId with
  | mk collection found =>
    simp only
    split_ifs
    · exact DistributeRoyalties_log k ctx nft.Price nft.Owner _
    · cases hs : k.bech32.AccAddressFromBech32 nft.Owner with
      | none => exact LogExtends.refl _ _
      | some sellerAddr => exact payFromModule_log k ctx sellerAddr nft.Price

/-- The store after a sale or a removal no longer has the listing under its
id, nor the index entry of its asset. -/
theorem storeWithoutListing_lookup (s : Store) (nftID : Nat) (nft : Nft) :
    GetNft (storeWithoutListing s nftID nft) nftID = none ∧
      (storeWithoutListing s nftID nft).nftDenomTokenID nft.DenomId nft.TokenId = none := by
  simp [storeWithoutListing, RemoveNft, GetNft, Store.deleteNftDenomTokenID]

/-- `BuyNFT` stops before the payouts unless the payment into the module
account was accepted; nothing but the log has changed then. -/
theorem BuyNFT_not_accepted (k : Keeper B N) (ctx : Ctx B N) (nftID : Nat) (buyer : AccAddress)
    (h : paymentAccepted k ctx nftID buyer = false) :
    (∃ e, (BuyNFT k ctx nftID buyer).1 = .error e) ∧
      (BuyNFT k ctx nftID buyer).2.store = ctx.store ∧
      (BuyNFT k ctx nftID buyer).2.bank = ctx.bank ∧
      (BuyNFT k ctx nftID buyer).2.nft = ctx.nft ∧
      LogExtends (fun c => !c.isTransfer) ctx.log (BuyNFT k ctx nftID buyer).2.log := by
  unfold paymentAccepted at h
  unfold BuyNFT
  cases hg : GetNft ctx.store nftID with
  | none => exact ⟨⟨_, rfl⟩, rfl, rfl, rfl, LogExtends.refl _ _⟩
  | some nft =>
    simp only [hg] at h ⊢
    by_cases hown : nft.Owner = k.bech32.AccAddressString buyer
    · rw [if_pos hown]
      exact ⟨⟨_, rfl⟩, rfl, rfl, rfl, LogExtends.refl _ _⟩
    · rw [if_neg hown] at h ⊢
      cases hc : NewCoins nft.Price with
      | error e => exact ⟨⟨_, rfl⟩, rfl, rfl, rfl, LogExtends.refl _ _⟩
      | ok amt =>
        simp only [hc] at h ⊢
        cases hpay : k.bankKeeper.SendCoinsFromAccountToModule ctx.bank buyer ModuleName amt with
        | ok bank => simp [hpay] at h
        | error e =>
          have hpay' : k.bankKeeper.SendCoinsFromAccountToModule
              (ctx.call (.SendCoinsFromAccountToModule buyer ModuleName amt)).bank buyer
              ModuleName amt = .error e := hpay
          simp only [hpay']
          exact ⟨⟨_, rfl⟩, rfl, rfl, rfl, LogExtends.single _ _ rfl⟩

/-- A failing `BuyNFT` has not changed the custody state and has requested no
custody transfer. -/
theorem BuyNFT_error (k : Keeper B N) (ctx : Ctx B N) (nftID : Nat) (buyer : AccAddress)
    (e : Err) (h : (BuyNFT k ctx nftID buyer).1 = .error e) :
    (BuyNFT k ctx nftID buyer).2.nft = ctx.nft ∧
      LogExtends (fun c => !c.isTransfer) ctx.log (BuyNFT k ctx nftID buyer).2.log := by
  cases hacc : paymentAccepted k ctx nftID buyer with
  | false =>
    have := BuyNFT_not_accepted k ctx nftID buyer hacc
    exact ⟨this.2.2.2.1, this.2.2.2.2⟩
  | true =>
    unfold paymentAccepted at hacc
    rw [BuyNFT_eq_singleBranch] at h ⊢
    unfold BuyNFTSingleBranch at h ⊢
    cases hg : GetNft ctx.store nftID with
    | none => simp [hg] at hacc
    | some nft =>
      simp only [hg] at h hacc ⊢
      by_cases hown : nft.Owner = k.bech32.AccAddressString buyer
      · simp [hown] at hacc
      · rw [if_neg hown] at h hacc ⊢
        cases hc : NewCoins nft.Price with
        | error e1 => simp [hc] at hacc
        | ok amt =>
          simp only [hc] at h hacc ⊢
          cases hpay : k.bankKeeper.SendCoinsFromAccountToModule ctx.bank buyer ModuleName
              amt with
          | error e1 => simp [hpay] at hacc
          | ok bank =>
            have hpay' : k.bankKeeper.SendCoinsFromAccountToModule
                (ctx.call (.SendCoinsFromAccountToModule buyer ModuleName amt)).bank buyer
                ModuleName amt = .ok bank := hpay
            simp only [hpay'] at h ⊢
            have hfr := payoutSingleBranch_frame k
              { ctx.call (.SendCoinsFromAccountToModule buyer ModuleName amt) with
                bank := bank } nft
            have hlg := payoutSingleBranch_log k
              { ctx.call (.SendCoinsFromAccountToModule buyer ModuleName amt) with
                bank := bank } nft
            have hlg0 : LogExtends (fun c => !c.isTransfer) ctx.log
                (ctx.call (.SendCoinsFromAccountToModule buyer ModuleName amt)).log :=
              LogExtends.single _ _ rfl
            have hmono : ∀ c : Call, c.isPayout = true → (!c.isTransfer) = true := by
              intro c hc
              cases c <;> simp_all [Call.isPayout, Call.isTransfer]
            cases hpo : payoutSingleBranch k
                { ctx.call (.SendCoinsFromAccountToModule buyer ModuleName amt) with
                  bank := bank } nft with
            | mk res ctx2 =>
              rw [hpo] at hfr hlg
              cases res with
              | error e1 =>
                exact ⟨hfr.2, hlg0.trans (hlg.mono hmono)⟩
              | ok u =>
                simp only [hpo] at h ⊢
                obtain ⟨_, hn, _, hl⟩ := buyNFTHandOver_error k ctx2 nftID nft buyer e h
                refine ⟨hn.trans hfr.2, (hlg0.trans (hlg.mono hmono)).trans ?_⟩
                rcases hl with hl | hl
                · rw [hl]
                  exact LogExtends.single _ _ rfl
                · rw [hl]
                  exact ⟨_, rfl, by simp [Call.isTransfer]⟩

end Purchase

/-! ## Claims on the royalty distribution -/

section RoyaltyClaims
variable {B N : Type}

/-- C1. For a non-negative price and a non-empty royalty list with
non-negative percents summing to at most 100 (and fewer than `2 * 10^18`
entries, as every list held in memory has), every run of
`DistributeRoyalties` that succeeds, so that the addresses it decoded were
well-formed and the ledger accepted its sends, has sent out of the module
account the royalty portions in list order and then the positive remainder to
the seller, and these amounts sum to exactly `price.Amount` in the
denomination of the price, and to nothing in any other denomination. -/
theorem DistributeRoyalties_pays_exactly_price (k : Keeper B N) (ctx : Ctx B N) (price : Coin)
    (seller : String) (royalties : List Royalty)
    (hne : royalties ≠ [])
    (hprice : 0 ≤ price.Amount)
    (hpct : ∀ r ∈ royalties, 0 ≤ r.Percent.raw)
    (hsum : percentSum royalties ≤ hundredPercent)
    (hlen : royalties.length < 2 * 10 ^ 18)
    (hok : (DistributeRoyalties k ctx price seller royalties).1 = .ok ()) :
    (DistributeRoyalties k ctx price seller royalties).2.log =
        ctx.log ++ royalties.map (royaltyCall k price) ++
          sellerCalls k price seller (price.Amount - portionSum price.Amount royalties) ∧
      ∀ denom, escrowOut denom (DistributeRoyalties k ctx price seller royalties).2.log =
        escrowOut denom ctx.log + if denom = price.Denom then price.Amount else 0 := by
  obtain ⟨_, _, hlog, _, _⟩ := DistributeRoyalties_ok k ctx _ price seller royalties hne
    (result_eq_of_fst hok)
  have hle := portionSum_le_amount price.Amount hprice royalties hpct hsum hlen
  refine ⟨hlog, fun denom => ?_⟩
  rw [hlog, escrowOut_append, escrowOut_append, escrowOut_royaltyCalls, escrowOut_sellerCalls]
  by_cases hd : denom = price.Denom
  · by_cases hpos : 0 < price.Amount - portionSum price.Amount royalties
    · simp only [hd, hpos, and_self, if_true]
      ring
    · have : portionSum price.Amount royalties = price.Amount := by omega
      simp [hd, hpos, this]
  · simp [hd]

/-- C1, at an instance: `100 uDenom` with royalties of 10 and 33.5 percent, on
a ledger whose module account holds the price: the run succeeds, and `100
uDenom` leave the module account. -/
theorem DistributeRoyalties_pays_exactly_price_witness :
    (DistributeRoyalties Sample.keeper
        ⟨Store.empty, Sample.ledgerEscrow, Sample.custody0, []⟩ Sample.price
        Sample.seller [⟨Sample.royalty, ⟨10 * precisionReuse⟩⟩,
          ⟨Sample.creator, ⟨33500000000000000000⟩⟩]).1 = .ok () ∧
      ∀ denom, escrowOut denom (DistributeRoyalties Sample.keeper
        ⟨Store.empty, Sample.ledgerEscrow, Sample.custody0, []⟩ Sample.price Sample.seller
        [⟨Sample.royalty, ⟨10 * precisionReuse⟩⟩,
          ⟨Sample.creator, ⟨33500000000000000000⟩⟩]).2.log =
        escrowOut denom [] + if denom = Sample.price.Denom then Sample.price.Amount else 0 :=
  ⟨by decide,
    (DistributeRoyalties_pays_exactly_price Sample.keeper
      ⟨Store.empty, Sample.ledgerEscrow, Sample.custody0, []⟩
      Sample.price Sample.seller
      [⟨Sample.royalty, ⟨10 * precisionReuse⟩⟩, ⟨Sample.creator, ⟨33500000000000000000⟩⟩]
      (by decide) (by decide) (by decide) (by decide) (by decide) (by decide)).2⟩

/-- C2, refuted as stated: for the price `1 uDenom` and the percent
`99.99999999999999995`, which lies in `[0,100]`, `getProportion` yields the
portion `1`, while the floor of the exact share `0.9999999999999999995` is
`0`: the division by `100` rounded up. -/
theorem getProportion_rounds_up :
    (0 : Int) ≤ 99999999999999999950 ∧ (99999999999999999950 : Int) ≤ hundredPercent ∧
      getProportion ⟨"uDenom", 1⟩ ⟨99999999999999999950⟩ = .ok ⟨"uDenom", 1⟩ ∧
      floorShare 1 ⟨99999999999999999950⟩ = 0 := by
  refine ⟨by decide, by decide, by decide, ?_⟩
  rw [floorShare_eq]
  decide

/-- C2, amended. For a non-negative price amount and a non-negative percent,
`getProportion` returns a coin exactly when the denomination of the price is
valid and the product of the amount and the raw percent is below `2^315`, and
panics otherwise. The portion it returns is the integer part of the quotient
`amount * percent / 100` after that quotient has been rounded half to even at
18 fractional digits. So the portion is the floor of the exact share or one
more, and it is exactly the floor whenever the quotient's digits beyond the
18th are below one half. That portion of the price denomination is what a
successful `DistributeRoyalties` sends to the royalty address. -/
theorem getProportion_amended (price : Coin) (percent : Dec)
    (hprice : 0 ≤ price.Amount) (hpct : 0 ≤ percent.raw) :
    (ValidateDenom price.Denom = true ∧ price.Amount * percent.raw < decBitLenBound →
        getProportion price percent =
          .ok ⟨price.Denom, roundHalfEven100 (price.Amount * percent.raw) / precisionReuse⟩) ∧
      (¬ (ValidateDenom price.Denom = true ∧ price.Amount * percent.raw < decBitLenBound) →
        getProportion price percent = .error .goPanic) ∧
      floorShare price.Amount percent ≤
        roundHalfEven100 (price.Amount * percent.raw) / precisionReuse ∧
      roundHalfEven100 (price.Amount * percent.raw) / precisionReuse ≤
        floorShare price.Amount percent + 1 ∧
      (price.Amount * percent.raw % 100 < 50 →
        roundHalfEven100 (price.Amount * percent.raw) / precisionReuse =
          floorShare price.Amount percent) ∧
      ∀ (k : Keeper B N) (ctx : Ctx B N) (seller address : String) (royalties : List Royalty),
        (⟨address, percent⟩ : Royalty) ∈ royalties →
        (DistributeRoyalties k ctx price seller royalties).1 = .ok () →
        ∃ receiver, k.bech32.AccAddressFromBech32 address = some receiver ∧
          Call.SendCoinsFromModuleToAccount ModuleName receiver
            (coinsOf ⟨price.Denom, roundHalfEven100 (price.Amount * percent.raw) / precisionReuse⟩)
            ∈ (DistributeRoyalties k ctx price seller royalties).2.log := by
  have heq := proportionAmount_eq price.Amount percent.raw hprice hpct
  have hnn := proportionAmount_nonneg price.Amount percent.raw hprice hpct
  have hb := proportionAmount_floor_bounds price.Amount percent.raw hprice hpct
  have hd : (⟨percent.raw⟩ : Dec) = percent := rfl
  rw [hd] at heq hnn hb
  rw [← heq, floorShare_eq]
  refine ⟨?_, ?_, hb.1, hb.2, ?_, ?_⟩
  · rintro ⟨hdenom, hbound⟩
    exact getProportion_in_range price percent.raw hprice hpct hdenom hbound
  · intro hnot
    rw [getProportion_eq]
    by_cases hbound : price.Amount * percent.raw < decBitLenBound
    · have hdenom : ValidateDenom price.Denom = false := by
        cases hv : ValidateDenom price.Denom with
        | false => rfl
        | true => exact absurd ⟨hv, hbound⟩ hnot
      split_ifs
      · rfl
      · rfl
      · simp [NewCoin, hdenom]
    · have hm := ToDec_mulChopped price.Amount percent.raw hprice hpct
      rw [hd] at hm
      rw [hm, exceedsDecBitLen_of_le _ (not_lt.mp hbound)]
      rfl
  · intro h50
    have := proportionAmount_exact price.Amount percent.raw hprice hpct h50
    rw [hd] at this
    exact this
  · intro k ctx seller address royalties hmem hok
    have hne : royalties ≠ [] := List.ne_nil_of_mem hmem
    obtain ⟨hall, _, hlog, _, _⟩ := DistributeRoyalties_ok k ctx _ price seller royalties hne
      (result_eq_of_fst hok)
    obtain ⟨receiver, hrec⟩ := Option.isSome_iff_exists.mp (hall _ hmem).1
    refine ⟨receiver, hrec, ?_⟩
    rw [hlog]
    apply List.mem_append_left
    apply List.mem_append_right
    have : royaltyCall k price ⟨address, percent⟩ ∈ royalties.map (royaltyCall k price) :=
      List.mem_map_of_mem _ hmem
    simpa [royaltyCall, hrec] using this

/-- C2 amended, at an instance: `7 uDenom` at 33 percent gives the portion
`2`, the floor of `2.31`. -/
theorem getProportion_amended_witness :
    getProportion ⟨"uDenom", 7⟩ ⟨33 * precisionReuse⟩ = .ok ⟨"uDenom", 2⟩ ∧
      floorShare 7 ⟨33 * precisionReuse⟩ = 2 := by
  have h := getProportion_amended (B := Unit) (N := Unit) ⟨"uDenom", 7⟩ ⟨33 * precisionReuse⟩
    (by decide) (by decide)
  have h50 : (7 : Int) * (33 * precisionReuse) % 100 < 50 := by decide
  have e : roundHalfEven100 ((7 : Int) * (33 * precisionReuse)) / precisionReuse = 2 := by decide
  refine ⟨?_, ?_⟩
  · rw [h.1 ⟨by decide, by decide⟩]
    simp only [e]
  · rw [← h.2.2.2.2.1 h50]
    exact e

end RoyaltyClaims

/-! ## Claims on the purchase -/

section PurchaseClaims
variable {B N : Type}

theorem escrowIn_append (denom : String) (l1 l2 : List Call) :
    escrowIn denom (l1 ++ l2) = escrowIn denom l1 + escrowIn denom l2 := by
  simp [escrowIn]

theorem escrowIn_royaltyCalls (k : Keeper B N) (price : Coin) (denom : String)
    (rs : List Royalty) : escrowIn denom (rs.map (royaltyCall k price)) = 0 := by
  induction rs with
  | nil => simp [escrowIn]
  | cons r rest ih =>
    have ih' : (List.map (Call.escrowIn denom) (List.map (royaltyCall k price) rest)).sum = 0 := ih
    simp only [escrowIn, List.map_cons, List.sum_cons, ih']
    simp [royaltyCall, Call.escrowIn]

theorem escrowIn_sellerCalls (k : Keeper B N) (price : Coin) (seller denom : String)
    (left : Int) : escrowIn denom (sellerCalls k price seller left) = 0 := by
  unfold sellerCalls
  split_ifs <;> simp [escrowIn, Call.escrowIn]

/-- C3, refuted as stated: a listing at `1 uDenom` whose collection has the
single resale royalty `99.99999999999999995` percent is bought successfully;
the royalty recipient is paid `1 uDenom` although the floor of the exact share
is `0`, and the seller is paid nothing. -/
theorem BuyNFT_royalty_above_floor :
    (BuyNFT Sample.keeper
        (Sample.ctxListed [⟨Sample.royalty, ⟨99999999999999999950⟩⟩] 1) 0 Sample.buyerAddr).1
      = .ok () ∧
    paidTo "uDenom" Sample.royaltyAddr (BuyNFT Sample.keeper
        (Sample.ctxListed [⟨Sample.royalty, ⟨99999999999999999950⟩⟩] 1) 0 Sample.buyerAddr).2.log
      = 1 ∧
    floorShare 1 ⟨99999999999999999950⟩ = 0 ∧
    paidTo "uDenom" Sample.sellerAddr (BuyNFT Sample.keeper
        (Sample.ctxListed [⟨Sample.royalty, ⟨99999999999999999950⟩⟩] 1) 0 Sample.buyerAddr).2.log
      = 0 := by
  refine ⟨by decide, by decide, ?_, by decide⟩
  rw [floorShare_eq]
  decide

/-- C3, amended. For every successful `BuyNFT` of a listing whose family has a
published collection with non-empty resale royalties, of non-negative percents
summing to at most 100 (fewer than `2 * 10^18` entries): the calls of the sale
are, in this order, the buyer's payment of exactly the listing price into the
module account, one send per royalty entry in list order of the portion that
`getProportion` computes, the send of the remainder to the listing owner when
it is positive, and the hand-over; the full price is not sent to the owner in
addition, the portions do not exceed the price, and what entered the module
account equals what left it, namely the price. With one royalty of 10 percent
and the price 100 the royalty recipient is sent 10 and the owner 90. -/
theorem BuyNFT_with_royalties (k : Keeper B N) (ctx : Ctx B N) (nftID : Nat)
    (buyer : AccAddress) (nft : Nft)
    (hok : (BuyNFT k ctx nftID buyer).1 = .ok ())
    (hget : GetNft ctx.store nftID = some nft)
    (hne : resaleRoyalties ctx.store nft ≠ [])
    (hpct : ∀ r ∈ resaleRoyalties ctx.store nft, 0 ≤ r.Percent.raw)
    (hsum : percentSum (resaleRoyalties ctx.store nft) ≤ hundredPercent)
    (hlen : (resaleRoyalties ctx.store nft).length < 2 * 10 ^ 18) :
    (∃ baseNft, (BuyNFT k ctx nftID buyer).2.log =
        ctx.log ++ [.SendCoinsFromAccountToModule buyer ModuleName (coinsOf nft.Price)] ++
          ((resaleRoyalties ctx.store nft).map (royaltyCall k nft.Price) ++
            sellerCalls k nft.Price nft.Owner
              (nft.Price.Amount - portionSum nft.Price.Amount (resaleRoyalties ctx.store nft))) ++
          handOverCalls nft buyer baseNft) ∧
      portionSum nft.Price.Amount (resaleRoyalties ctx.store nft) ≤ nft.Price.Amount ∧
      (∀ denom, escrowIn denom (BuyNFT k ctx nftID buyer).2.log =
        escrowIn denom ctx.log + if denom = nft.Price.Denom then nft.Price.Amount else 0) ∧
      (∀ denom, escrowOut denom (BuyNFT k ctx nftID buyer).2.log =
        escrowOut denom ctx.log + if denom = nft.Price.Denom then nft.Price.Amount else 0) ∧
      (∀ address, resaleRoyalties ctx.store nft = [⟨address, ⟨10 * precisionReuse⟩⟩] →
        nft.Price.Amount = 100 →
        (resaleRoyalties ctx.store nft).map (royaltyCall k nft.Price) ++
            sellerCalls k nft.Price nft.Owner
              (nft.Price.Amount - portionSum nft.Price.Amount (resaleRoyalties ctx.store nft)) =
          [.SendCoinsFromModuleToAccount ModuleName
              ((k.bech32.AccAddressFromBech32 address).getD []) [⟨nft.Price.Denom, 10⟩],
           .SendCoinsFromModuleToAccount ModuleName
              ((k.bech32.AccAddressFromBech32 nft.Owner).getD []) [⟨nft.Price.Denom, 90⟩]]) := by
  obtain ⟨nft', baseNft, hget', _, hnn, _, _, _, hlog, _⟩ := BuyNFT_ok k ctx nftID buyer hok
  have hnft : nft' = nft := by
    rw [hget] at hget'
    exact (Option.some.inj hget').symm
  subst hnft
  have hlen0 : ¬ (resaleRoyalties ctx.store nft').length = 0 := fun h0 =>
    hne (List.length_eq_zero.mp h0)
  have hcalls : payoutCalls k ctx.store nft' =
      (resaleRoyalties ctx.store nft').map (royaltyCall k nft'.Price) ++
        sellerCalls k nft'.Price nft'.Owner
          (nft'.Price.Amount - portionSum nft'.Price.Amount (resaleRoyalties ctx.store nft')) := by
    unfold payoutCalls
    rw [if_neg hlen0]
  rw [hcalls] at hlog
  have hle := portionSum_le_amount nft'.Price.Amount hnn _ hpct hsum hlen
  refine ⟨⟨baseNft, hlog⟩, hle, ?_, ?_, ?_⟩
  · intro denom
    rw [hlog]
    simp only [escrowIn_append, escrowIn_royaltyCalls, escrowIn_sellerCalls]
    simp [escrowIn, Call.escrowIn, handOverCalls, amountOf_coinsOf, eq_comm]
  · intro denom
    rw [hlog]
    simp only [escrowOut_append, escrowOut_royaltyCalls, escrowOut_sellerCalls]
    have h0 : escrowOut denom
        [Call.SendCoinsFromAccountToModule buyer ModuleName (coinsOf nft'.Price)] = 0 := by
      simp [escrowOut, Call.escrowOut]
    have h1 : escrowOut denom (handOverCalls nft' buyer baseNft) = 0 := by
      simp [escrowOut, Call.escrowOut, handOverCalls]
    rw [h0, h1]
    by_cases hd : denom = nft'.Price.Denom
    · by_cases hpos : 0 < nft'.Price.Amount -
          portionSum nft'.Price.Amount (resaleRoyalties ctx.store nft')
      · simp only [hd, hpos, and_self, if_true]
        ring
      · have : portionSum nft'.Price.Amount (resaleRoyalties ctx.store nft') =
            nft'.Price.Amount := by omega
        simp [hd, hpos, this]
    · simp [hd]
  · intro address hroy hprice
    have hp : proportionAmount 100 ⟨10 * precisionReuse⟩ = 10 := by decide
    rw [hroy]
    simp [royaltyCall, sellerCalls, portionSum, hprice, hp, coinsOf]

/-- C3 amended, at the scenario of the spec: collection of `D1` with the
royalty of 10 percent, listing of `T1` at `100 uDenom`, bought by the
buyer. -/
theorem BuyNFT_with_royalties_witness :
    (BuyNFT Sample.keeper (Sample.ctxListed [⟨Sample.royalty, ⟨10 * precisionReuse⟩⟩] 100) 0
        Sample.buyerAddr).1 = .ok () ∧
      paidTo "uDenom" Sample.royaltyAddr (BuyNFT Sample.keeper
        (Sample.ctxListed [⟨Sample.royalty, ⟨10 * precisionReuse⟩⟩] 100) 0
        Sample.buyerAddr).2.log = 10 ∧
      paidTo "uDenom" Sample.sellerAddr (BuyNFT Sample.keeper
        (Sample.ctxListed [⟨Sample.royalty, ⟨10 * precisionReuse⟩⟩] 100) 0
        Sample.buyerAddr).2.log = 90 ∧
      ∀ denom, escrowOut denom (BuyNFT Sample.keeper
        (Sample.ctxListed [⟨Sample.royalty, ⟨10 * precisionReuse⟩⟩] 100) 0
        Sample.buyerAddr).2.log =
        escrowOut denom (Sample.ctxListed [⟨Sample.royalty, ⟨10 * precisionReuse⟩⟩] 100).log +
          if denom = "uDenom" then 100 else 0 :=
  ⟨by decide, by decide, by decide,
    (BuyNFT_with_royalties Sample.keeper
      (Sample.ctxListed [⟨Sample.royalty, ⟨10 * precisionReuse⟩⟩] 100) 0 Sample.buyerAddr
      (Sample.listing Sample.seller 100) (by decide) (by decide) (by decide) (by decide)
      (by decide) (by decide)).2.2.2.1⟩

/-- C4. `BuyNFT` is, on every input, the operation with the single payout
branch "if the collection has resale royalties run the distribution, else pay
the seller the full price directly". And for every successful `BuyNFT` of a
listing whose family has no published collection, or whose collection has no
resale royalties, the calls of the sale are the buyer's payment into the
module account, one send out of it, of the full listing price to the decoded
listing owner, and the hand-over: no royalty send and no second send to the
seller. -/
theorem BuyNFT_without_royalties (k : Keeper B N) :
    (∀ (ctx : Ctx B N) (nftID : Nat) (buyer : AccAddress),
        BuyNFT k ctx nftID buyer = BuyNFTSingleBranch k ctx nftID buyer) ∧
      ∀ (ctx : Ctx B N) (nftID : Nat) (buyer : AccAddress) (nft : Nft),
        GetNft ctx.store nftID = some nft →
        ((getCollectionByDenomID ctx.store nft.DenomId).2 = false ∨
          (getCollectionByDenomID ctx.store nft.DenomId).1.ResaleRoyalties = []) →
        (BuyNFT k ctx nftID buyer).1 = .ok () →
        ∃ sellerAddr baseNft,
          k.bech32.AccAddressFromBech32 nft.Owner = some sellerAddr ∧
          (BuyNFT k ctx nftID buyer).2.log =
            ctx.log ++
              [.SendCoinsFromAccountToModule buyer ModuleName (coinsOf nft.Price),
               .SendCoinsFromModuleToAccount ModuleName sellerAddr (coinsOf nft.Price)] ++
              handOverCalls nft buyer baseNft ∧
          ∀ denom, escrowOut denom (BuyNFT k ctx nftID buyer).2.log =
            escrowOut denom ctx.log + if denom = nft.Price.Denom then nft.Price.Amount else 0 := by
  refine ⟨BuyNFT_eq_singleBranch k, ?_⟩
  intro ctx nftID buyer nft hget hnone hok
  obtain ⟨nft', baseNft, hget', _, _, hsell, _, _, hlog, _⟩ := BuyNFT_ok k ctx nftID buyer hok
  have hnft : nft' = nft := by
    rw [hget] at hget'
    exact (Option.some.inj hget').symm
  subst hnft
  have hnil : resaleRoyalties ctx.store nft' = [] := by
    unfold resaleRoyalties
    rcases hnone with h | h
    · rw [getCollectionByDenomID_not_found _ _ h]
      rfl
    · exact h
  have hlen : (resaleRoyalties ctx.store nft').length = 0 := by rw [hnil]; rfl
  obtain ⟨sellerAddr, hs⟩ := Option.isSome_iff_exists.mp (hsell hlen)
  have hcalls : payoutCalls k ctx.store nft' =
      [.SendCoinsFromModuleToAccount ModuleName sellerAddr (coinsOf nft'.Price)] := by
    unfold payoutCalls
    rw [if_pos hlen, hs]
    rfl
  rw [hcalls] at hlog
  have hlog' : (BuyNFT k ctx nftID buyer).2.log =
      ctx.log ++
        [.SendCoinsFromAccountToModule buyer ModuleName (coinsOf nft'.Price),
         .SendCoinsFromModuleToAccount ModuleName sellerAddr (coinsOf nft'.Price)] ++
        handOverCalls nft' buyer baseNft := by
    rw [hlog]
    simp
  refine ⟨sellerAddr, baseNft, hs, hlog', ?_⟩
  intro denom
  rw [hlog']
  simp [escrowOut, Call.escrowOut, handOverCalls, amountOf_coinsOf, eq_comm]

/-- C4, at the two scenarios: the collection of `D1` published without resale
royalties, and no collection at all; in both the only send out of the module
account is `100 uDenom` to the seller. -/
theorem BuyNFT_without_royalties_witness :
    (∃ sellerAddr baseNft,
      Sample.bech32.AccAddressFromBech32 Sample.seller = some sellerAddr ∧
      (BuyNFT Sample.keeper (Sample.ctxListed [] 100) 0 Sample.buyerAddr).2.log =
        (Sample.ctxListed [] 100).log ++
          [.SendCoinsFromAccountToModule Sample.buyerAddr ModuleName [⟨"uDenom", 100⟩],
           .SendCoinsFromModuleToAccount ModuleName sellerAddr [⟨"uDenom", 100⟩]] ++
          handOverCalls (Sample.listing Sample.seller 100) Sample.buyerAddr baseNft ∧
      ∀ denom, escrowOut denom
          (BuyNFT Sample.keeper (Sample.ctxListed [] 100) 0 Sample.buyerAddr).2.log =
        escrowOut denom (Sample.ctxListed [] 100).log + if denom = "uDenom" then 100 else 0) ∧
      paidTo "uDenom" Sample.sellerAddr
        (BuyNFT Sample.keeper Sample.ctxListedOnly 0 Sample.buyerAddr).2.log = 100 :=
  ⟨(BuyNFT_without_royalties Sample.keeper).2 (Sample.ctxListed [] 100) 0 Sample.buyerAddr
      (Sample.listing Sample.seller 100) (by decide) (Or.inr (by decide)) (by decide),
    by decide⟩

/-- C5, the code at a sale: the listing of `T1` by the seller is bought
successfully; afterwards the listing and its index entry are gone and the
soft-unlock was requested before the transfer; the seller was paid at the
decoded address of `listing.owner`, but the custody transfer was requested
from the UTF-8 bytes of the bech32 text of `listing.owner`, which is a
different byte string. -/
theorem BuyNFT_transfer_sender_is_text_bytes :
    (BuyNFT Sample.keeper (Sample.ctxListed [] 100) 0 Sample.buyerAddr).1 = .ok () ∧
      GetNft (BuyNFT Sample.keeper (Sample.ctxListed [] 100) 0 Sample.buyerAddr).2.store 0
        = none ∧
      (BuyNFT Sample.keeper (Sample.ctxListed [] 100) 0 Sample.buyerAddr).2.store.nftDenomTokenID
        "D1" "T1" = none ∧
      ((BuyNFT Sample.keeper (Sample.ctxListed [] 100) 0 Sample.buyerAddr).2.log.drop
          (Sample.ctxListed [] 100).log.length =
        [.SendCoinsFromAccountToModule Sample.buyerAddr ModuleName [⟨"uDenom", 100⟩],
         .SendCoinsFromModuleToAccount ModuleName Sample.sellerAddr [⟨"uDenom", 100⟩],
         .GetBaseNFT "D1" "T1",
         .SoftUnlockNFT ModuleName "D1" "T1",
         .TransferNftInternal "D1" "T1" (AccAddressCast Sample.seller) Sample.buyerAddr
           ⟨"T1", Sample.sellerAddr, []⟩]) ∧
      Sample.bech32.AccAddressFromBech32 Sample.seller = some Sample.sellerAddr ∧
      AccAddressCast Sample.seller ≠ Sample.sellerAddr ∧
      (AccAddressCast Sample.seller).length = 44 ∧ Sample.sellerAddr.length = 20 := by
  refine ⟨by decide, by decide, by decide, by decide, by decide, by decide, by decide,
    by decide⟩

/-- C6, refuted as stated: the collection of `D1` carries a resale royalty
with a malformed address; `BuyNFT` fails with `ErrInvalidAddress` after the
buyer's `100 uDenom` have entered the module account, and returns with the
buyer's balance lowered from 1000 to 900 while the listing is still stored and
the asset is still the seller's. And on a state whose listing is not
soft-locked, `BuyNFT` fails at the soft-unlock after the seller was paid and
the listing deleted. -/
theorem BuyNFT_failure_keeps_effects :
    (BuyNFT Sample.keeper (Sample.ctxListed [⟨"not-an-address", ⟨10 * precisionReuse⟩⟩] 100) 0
        Sample.buyerAddr).1 = .error .ErrInvalidAddress ∧
      (Sample.ctxListed [⟨"not-an-address", ⟨10 * precisionReuse⟩⟩] 100).bank.account
        Sample.buyerAddr "uDenom" = 1000 ∧
      (BuyNFT Sample.keeper (Sample.ctxListed [⟨"not-an-address", ⟨10 * precisionReuse⟩⟩] 100) 0
        Sample.buyerAddr).2.bank.account Sample.buyerAddr "uDenom" = 900 ∧
      (BuyNFT Sample.keeper (Sample.ctxListed [⟨"not-an-address", ⟨10 * precisionReuse⟩⟩] 100) 0
        Sample.buyerAddr).2.bank.module ModuleName "uDenom" = 100 ∧
      GetNft (BuyNFT Sample.keeper
        (Sample.ctxListed [⟨"not-an-address", ⟨10 * precisionReuse⟩⟩] 100) 0
        Sample.buyerAddr).2.store 0 = some (Sample.listing Sample.seller 100) ∧
      (BuyNFT Sample.keeper ⟨(Sample.ctxListed [] 100).store, Sample.ledger0, Sample.custody0, []⟩
        0 Sample.buyerAddr).1 = .error (.external "not soft locked by this owner") ∧
      (BuyNFT Sample.keeper ⟨(Sample.ctxListed [] 100).store, Sample.ledger0, Sample.custody0, []⟩
        0 Sample.buyerAddr).2.bank.account Sample.sellerAddr "uDenom" = 100 ∧
      GetNft (BuyNFT Sample.keeper
        ⟨(Sample.ctxListed [] 100).store, Sample.ledger0, Sample.custody0, []⟩
        0 Sample.buyerAddr).2.store 0 = none ∧
      ((BuyNFT Sample.keeper ⟨(Sample.ctxListed [] 100).store, Sample.ledger0, Sample.custody0, []⟩
        0 Sample.buyerAddr).2.nft.nfts "D1" "T1").map BaseNFT.Owner = some Sample.sellerAddr := by
  refine ⟨by decide, by decide, by decide, by decide, by decide, by decide, by decide,
    by decide, by decide⟩

/-- C6, amended. `BuyNFT` undoes nothing itself. When it stops before the
buyer's payment has been accepted (listing not found, own listing, payment
refused) it fails and the listing store, the index, the ledger and the custody
state are as before. When it fails later, it returns the error with the
effects made so far in place; in every failing case the custody state is
unchanged and no custody transfer was requested. -/
theorem BuyNFT_failure_effects (k : Keeper B N) (ctx : Ctx B N) (nftID : Nat)
    (buyer : AccAddress) (e : Err) (herr : (BuyNFT k ctx nftID buyer).1 = .error e) :
    (BuyNFT k ctx nftID buyer).2.nft = ctx.nft ∧
      LogExtends (fun c => !c.isTransfer) ctx.log (BuyNFT k ctx nftID buyer).2.log ∧
      (paymentAccepted k ctx nftID buyer = false →
        (BuyNFT k ctx nftID buyer).2.store = ctx.store ∧
        (BuyNFT k ctx nftID buyer).2.bank = ctx.bank) := by
  obtain ⟨h1, h2⟩ := BuyNFT_error k ctx nftID buyer e herr
  refine ⟨h1, h2, fun hacc => ?_⟩
  have := BuyNFT_not_accepted k ctx nftID buyer hacc
  exact ⟨this.2.1, this.2.2.1⟩

/-- C6 amended, at an instance: the seller tries to buy the own listing. -/
theorem BuyNFT_failure_effects_witness :
    (BuyNFT Sample.keeper (Sample.ctxListed [] 100) 0 Sample.sellerAddr).1 =
        .error .ErrCannotBuyOwnNft ∧
      (BuyNFT Sample.keeper (Sample.ctxListed [] 100) 0 Sample.sellerAddr).2.store =
        (Sample.ctxListed [] 100).store ∧
      (BuyNFT Sample.keeper (Sample.ctxListed [] 100) 0 Sample.sellerAddr).2.bank =
        (Sample.ctxListed [] 100).bank :=
  ⟨by decide,
    (BuyNFT_failure_effects Sample.keeper (Sample.ctxListed [] 100) 0 Sample.sellerAddr
      .ErrCannotBuyOwnNft (by decide)).2.2 (by decide)⟩

end PurchaseClaims

/-! ## Publishing -/

section Publishing
variable {B N : Type}

theorem Uint64ToBytes_length (id : Nat) : (Uint64ToBytes id).length = 8 := by
  rfl

theorem BytesToUint64_Uint64ToBytes (id : Nat) : BytesToUint64 (Uint64ToBytes id) = id % 2 ^ 64 := by
  simp only [BytesToUint64, Uint64ToBytes, List.foldl]
  omega

theorem LogExtends.of_append (P : Call → Bool) (l calls : List Call)
    (h : ∀ c ∈ calls, P c = true) : LogExtends P l (l ++ calls) :=
  ⟨calls, rfl, h⟩

theorem publishLookups_no_lock (k : Keeper B N) (nftVal : BaseNFT) (nft : Nft) :
    ∀ c ∈ publishLookups k nftVal nft, (!c.isSoftLock) = true := by
  intro c hc
  unfold publishLookups at hc
  split_ifs at hc <;> simp at hc <;> rcases hc with rfl | rfl | rfl <;> rfl

/-- `PublishNFT` after its two custody lookups have succeeded. -/
theorem PublishNFT_of_lookups (k : Keeper B N) (ctx : Ctx B N) (nft : Nft) (denom : Denom)
    (nftVal : BaseNFT) (hd : k.nftKeeper.GetDenom ctx.nft nft.DenomId = .ok denom)
    (hn : k.nftKeeper.GetNFT ctx.nft nft.DenomId nft.TokenId = .ok nftVal) :
    PublishNFT k ctx nft =
      if authorised k ctx.nft nft = true then
        if indexPresent ctx.store nft = true then
          (.error .ErrNftAlreadyPublished,
            ⟨ctx.store, ctx.bank, ctx.nft, ctx.log ++ publishLookups k nftVal nft⟩)
        else
          match k.nftKeeper.SoftLockNFT ctx.nft ModuleName nft.DenomId nft.TokenId with
          | .error e => (.error (.external e),
              ⟨ctx.store, ctx.bank, ctx.nft, ctx.log ++ publishLookups k nftVal nft ++
                [.SoftLockNFT ModuleName nft.DenomId nft.TokenId]⟩)
          | .ok custody => (.ok (GetNftCount ctx.store),
              ⟨(AppendNft ctx.store nft).2.setNftDenomTokenID nft.DenomId nft.TokenId
                  (Uint64ToBytes (GetNftCount ctx.store)), ctx.bank, custody,
                ctx.log ++ publishLookups k nftVal nft ++
                  [.SoftLockNFT ModuleName nft.DenomId nft.TokenId]⟩)
      else
        (.error .ErrNotNftOwner,
          ⟨ctx.store, ctx.bank, ctx.nft, ctx.log ++ publishLookups k nftVal nft⟩) := by
  unfold PublishNFT authorised indexPresent publishLookups
  simp only [Ctx.call, hd, hn]
  by_cases hown : k.bech32.AccAddressString nftVal.Owner = nft.Owner
  · simp only [hown, decide_True, Bool.true_or, if_true, decide_eq_true_eq, AppendNft,
      List.append_nil, List.append_assoc, List.singleton_append]
  · simp only [hown, decide_False, Bool.false_or, Bool.false_eq_true, if_false,
      decide_eq_true_eq, AppendNft, List.append_assoc, List.singleton_append, List.cons_append,
      List.nil_append]

/-- A run of `PublishNFT` that is not authorised fails, changes nothing but
the log, and requests no soft-lock. -/
theorem PublishNFT_unauthorised (k : Keeper B N) (ctx : Ctx B N) (nft : Nft)
    (h : authorised k ctx.nft nft = false) :
    (∃ e, (PublishNFT k ctx nft).1 = .error e) ∧
      (PublishNFT k ctx nft).2.store = ctx.store ∧
      (PublishNFT k ctx nft).2.bank = ctx.bank ∧
      (PublishNFT k ctx nft).2.nft = ctx.nft ∧
      LogExtends (fun c => !c.isSoftLock) ctx.log (PublishNFT k ctx nft).2.log := by
  cases hd : k.nftKeeper.GetDenom ctx.nft nft.DenomId with
  | error e =>
    have hres : PublishNFT k ctx nft = (.error (.external e),
        ⟨ctx.store, ctx.bank, ctx.nft, ctx.log ++ [.GetDenom nft.DenomId]⟩) := by
      unfold PublishNFT
      simp only [Ctx.call, hd]
    rw [hres]
    exact ⟨⟨_, rfl⟩, rfl, rfl, rfl, LogExtends.of_append _ _ _ (by simp [Call.isSoftLock])⟩
  | ok denom =>
    cases hn : k.nftKeeper.GetNFT ctx.nft nft.DenomId nft.TokenId with
    | error e =>
      have hres : PublishNFT k ctx nft = (.error (.external e),
          ⟨ctx.store, ctx.bank, ctx.nft,
            ctx.log ++ [.GetDenom nft.DenomId, .GetNFT nft.DenomId nft.TokenId]⟩) := by
        unfold PublishNFT
        simp only [Ctx.call, hd, hn, List.append_assoc, List.singleton_append]
      rw [hres]
      exact ⟨⟨_, rfl⟩, rfl, rfl, rfl, LogExtends.of_append _ _ _ (by simp [Call.isSoftLock])⟩
    | ok nftVal =>
      rw [PublishNFT_of_lookups k ctx nft denom nftVal hd hn, h, if_neg Bool.false_ne_true]
      exact ⟨⟨_, rfl⟩, rfl, rfl, rfl,
        LogExtends.of_append _ _ _ (publishLookups_no_lock k nftVal nft)⟩

/-- An authorised run got both custody lookups answered. -/
theorem authorised_lookups (k : Keeper B N) (custody : N) (nft : Nft)
    (h : authorised k custody nft = true) :
    ∃ denom nftVal, k.nftKeeper.GetDenom custody nft.DenomId = .ok denom ∧
      k.nftKeeper.GetNFT custody nft.DenomId nft.TokenId = .ok nftVal := by
  unfold authorised at h
  cases hd : k.nftKeeper.GetDenom custody nft.DenomId with
  | error e => simp [hd] at h
  | ok denom =>
    cases hn : k.nftKeeper.GetNFT custody nft.DenomId nft.TokenId with
    | error e => simp [hd, hn] at h
    | ok nftVal => exact ⟨denom, nftVal, rfl, rfl⟩

/-- A run of `PublishNFT` that is authorised but finds the index entry of the
asset fails with `ErrNftAlreadyPublished`, changes nothing but the log, and
requests no soft-lock. -/
theorem PublishNFT_already_published (k : Keeper B N) (ctx : Ctx B N) (nft : Nft)
    (h : authorised k ctx.nft nft = true) (hidx : indexPresent ctx.store nft = true) :
    (PublishNFT k ctx nft).1 = .error .ErrNftAlreadyPublished ∧
      (PublishNFT k ctx nft).2.store = ctx.store ∧
      (PublishNFT k ctx nft).2.bank = ctx.bank ∧
      (PublishNFT k ctx nft).2.nft = ctx.nft ∧
      LogExtends (fun c => !c.isSoftLock) ctx.log (PublishNFT k ctx nft).2.log := by
  obtain ⟨denom, nftVal, hd, hn⟩ := authorised_lookups k ctx.nft nft h
  rw [PublishNFT_of_lookups k ctx nft denom nftVal hd hn, h, hidx, if_pos rfl, if_pos rfl]
  exact ⟨rfl, rfl, rfl, rfl, LogExtends.of_append _ _ _ (publishLookups_no_lock k nftVal nft)⟩

/-- A successful `PublishNFT`: it was authorised, the index had no entry for
the asset, the soft-lock was granted, and afterwards the index maps the asset
to the encoded id and the listing is stored under that id. -/
theorem PublishNFT_ok (k : Keeper B N) (ctx : Ctx B N) (nft : Nft) (id : Nat)
    (h : (PublishNFT k ctx nft).1 = .ok id) :
    authorised k ctx.nft nft = true ∧ indexPresent ctx.store nft = false ∧
      id = GetNftCount ctx.store ∧
      (PublishNFT k ctx nft).2.store =
        (AppendNft ctx.store nft).2.setNftDenomTokenID nft.DenomId nft.TokenId
          (Uint64ToBytes id) ∧
      (PublishNFT k ctx nft).2.bank = ctx.bank ∧
      k.nftKeeper.SoftLockNFT ctx.nft ModuleName nft.DenomId nft.TokenId =
        .ok (PublishNFT k ctx nft).2.nft := by
  cases hauth : authorised k ctx.nft nft with
  | false =>
    obtain ⟨⟨e, he⟩, _⟩ := PublishNFT_unauthorised k ctx nft hauth
    rw [he] at h
    cases h
  | true =>
    cases hidx : indexPresent ctx.store nft with
    | true =>
      rw [(PublishNFT_already_published k ctx nft hauth hidx).1] at h
      cases h
    | false =>
      obtain ⟨denom, nftVal, hd, hn⟩ := authorised_lookups k ctx.nft nft hauth
      rw [PublishNFT_of_lookups k ctx nft denom nftVal hd hn, hauth, hidx, if_pos rfl,
        if_neg Bool.false_ne_true] at h ⊢
      cases hl : k.nftKeeper.SoftLockNFT ctx.nft ModuleName nft.DenomId nft.TokenId with
      | error e => simp [hl] at h
      | ok custody =>
        rw [hl] at h
        have hid : GetNftCount ctx.store = id := Except.ok.inj h
        subst hid
        exact ⟨rfl, rfl, rfl, rfl, rfl, rfl⟩

/-- The store right after a listing was appended and indexed. -/
theorem published_store_lookup (s : Store) (nft : Nft) (id : Nat) (hid : id = GetNftCount s) :
    ((AppendNft s nft).2.setNftDenomTokenID nft.DenomId nft.TokenId
        (Uint64ToBytes id)).nftDenomTokenID nft.DenomId nft.TokenId = some (Uint64ToBytes id) ∧
      GetNft ((AppendNft s nft).2.setNftDenomTokenID nft.DenomId nft.TokenId
        (Uint64ToBytes id)) id = some { nft with Id := id } := by
  subst hid
  simp [AppendNft, Store.setNftDenomTokenID, GetNft]

/-- A successful `PublishCollection`: the family exists with the collection
owner as creator, no collection was indexed for it, and the store afterwards
is the old one with the record appended and indexed; ledger and custody state
are untouched. -/
theorem PublishCollection_ok (k : Keeper B N) (ctx : Ctx B N) (c : Collection) (id : Nat)
    (h : (PublishCollection k ctx c).1 = .ok id) :
    (∃ denom, k.nftKeeper.GetDenom ctx.nft c.DenomId = .ok denom ∧ denom.Creator = c.Owner) ∧
      isCollectionPublished ctx.store c.DenomId = false ∧
      id = GetCollectionCount ctx.store ∧
      (PublishCollection k ctx c).2.store =
        (AppendCollection ctx.store c).2.setCollectionDenomID c.DenomId (Uint64ToBytes id) ∧
      (PublishCollection k ctx c).2.bank = ctx.bank ∧
      (PublishCollection k ctx c).2.nft = ctx.nft := by
  cases hd : k.nftKeeper.GetDenom ctx.nft c.DenomId with
  | error e =>
    unfold PublishCollection at h
    simp [Ctx.call, hd] at h
  | ok denom =>
    by_cases hown : denom.Creator = c.Owner
    · cases hpub : isCollectionPublished ctx.store c.DenomId with
      | true =>
        unfold PublishCollection at h
        simp [Ctx.call, hd, hown, hpub] at h
      | false =>
        have hres : PublishCollection k ctx c = (.ok (GetCollectionCount ctx.store),
            ⟨(AppendCollection ctx.store c).2.setCollectionDenomID c.DenomId
                (Uint64ToBytes (GetCollectionCount ctx.store)),
              ctx.bank, ctx.nft, ctx.log ++ [.GetDenom c.DenomId]⟩) := by
          unfold PublishCollection
          simp only [Ctx.call, hd, hown, ne_eq, not_true_eq_false, if_false, hpub,
            Bool.false_eq_true, AppendCollection]
        rw [hres] at h ⊢
        have hid : GetCollectionCount ctx.store = id := Except.ok.inj h
        subst hid
        exact ⟨⟨denom, rfl, hown⟩, rfl, rfl, rfl, rfl, rfl⟩
    · unfold PublishCollection at h
      simp [Ctx.call, hd, hown] at h

/-- A `PublishCollection` for a family that already has an index entry, by the
creator of the family, fails with `ErrCollectionAlreadyPublished` and changes
nothing but the log. -/
theorem PublishCollection_already_published (k : Keeper B N) (ctx : Ctx B N) (c : Collection)
    (denom : Denom) (hd : k.nftKeeper.GetDenom ctx.nft c.DenomId = .ok denom)
    (hown : denom.Creator = c.Owner) (hpub : isCollectionPublished ctx.store c.DenomId = true) :
    PublishCollection k ctx c = (.error .ErrCollectionAlreadyPublished,
      ⟨ctx.store, ctx.bank, ctx.nft, ctx.log ++ [.GetDenom c.DenomId]⟩) := by
  unfold PublishCollection
  simp only [Ctx.call, hd, hown, ne_eq, not_true_eq_false, if_false, hpub, if_true]

/-- The store right after a collection was appended and indexed. -/
theorem published_collection_lookup (s : Store) (c : Collection) :
    isCollectionPublished ((AppendCollection s c).2.setCollectionDenomID c.DenomId
        (Uint64ToBytes (GetCollectionCount s))) c.DenomId = true ∧
      getCollectionByDenomID ((AppendCollection s c).2.setCollectionDenomID c.DenomId
        (Uint64ToBytes (GetCollectionCount s))) c.DenomId =
        ({ c with Id := GetCollectionCount s }, true) ∧
      ∀ i, i ≠ GetCollectionCount s →
        ((AppendCollection s c).2.setCollectionDenomID c.DenomId
          (Uint64ToBytes (GetCollectionCount s))).collections i = s.collections i := by
  have hlt : GetCollectionCount s % 2 ^ 64 = GetCollectionCount s := by
    unfold GetCollectionCount
    omega
  refine ⟨?_, ?_, ?_⟩
  · simp [isCollectionPublished, Store.setCollectionDenomID]
  · have hidx : ((AppendCollection s c).2.setCollectionDenomID c.DenomId
        (Uint64ToBytes (GetCollectionCount s))).collectionDenomID c.DenomId =
        some (Uint64ToBytes (GetCollectionCount s)) := by
      simp [Store.setCollectionDenomID]
    have hrec : ((AppendCollection s c).2.setCollectionDenomID c.DenomId
        (Uint64ToBytes (GetCollectionCount s))).collections (GetCollectionCount s) =
        some { c with Id := GetCollectionCount s } := by
      simp [Store.setCollectionDenomID, AppendCollection, SetCollection]
    unfold getCollectionByDenomID
    rw [hidx]
    simp only [BytesToUint64_Uint64ToBytes, hlt]
    unfold GetCollection
    rw [hrec]
  · intro i hi
    simp [Store.setCollectionDenomID, AppendCollection, SetCollection, hi]

/-- The loop over a list in two parts: the second part runs on the state and
the `amountLeft` that the first part left, if the first part did not fail. -/
theorem distributeLoop_append (k : Keeper B N) (price : Coin) (pre post : List Royalty) :
    ∀ (left : Int) (ctx : Ctx B N),
      distributeLoop k price (pre ++ post) left ctx =
        match distributeLoop k price pre left ctx with
        | (.error e, ctx1) => (.error e, ctx1)
        | (.ok left1, ctx1) => distributeLoop k price post left1 ctx1 := by
  induction pre with
  | nil => intro left ctx; rfl
  | cons r rest ih =>
    intro left ctx
    rw [List.cons_append, distributeLoop_cons, distributeLoop_cons]
    cases haddr : k.bech32.AccAddressFromBech32 r.Address with
    | none => rfl
    | some a =>
      cases hprop : getProportion price r.Percent with
      | error e => rfl
      | ok portion =>
        cases hpay : payFromModule k ctx a portion with
        | mk res ctx1 =>
          cases res with
          | error e => simp only [hpay]
          | ok u =>
            simp only [hpay]
            exact ih _ _

end Publishing

/-! ## Claims on addresses and on publishing -/

section PublishingClaims
variable {B N : Type}

/-- C7, refuted as stated: with the single royalty of 100 percent the
portions consume the whole price of `100 uDenom`; the seller text is
malformed, and `DistributeRoyalties` succeeds. -/
theorem DistributeRoyalties_skips_seller_check :
    Sample.bech32.AccAddressFromBech32 "not-an-address" = none ∧
      (DistributeRoyalties Sample.openKeeper ⟨Store.empty, (), Sample.custody0, []⟩ Sample.price
        "not-an-address" [⟨Sample.royalty, ⟨100 * precisionReuse⟩⟩]).1 = .ok () ∧
      (DistributeRoyalties Sample.openKeeper ⟨Store.empty, (), Sample.custody0, []⟩ Sample.price
        "not-an-address" [⟨Sample.royalty, ⟨100 * precisionReuse⟩⟩]).2.log =
        [.SendCoinsFromModuleToAccount ModuleName Sample.royaltyAddr [⟨"uDenom", 100⟩]] := by
  refine ⟨by decide, by decide, by decide⟩

/-- C7, amended. For every price and every non-empty royalty list:
`DistributeRoyalties` does not succeed if any royalty address is malformed,
and it fails with `ErrInvalidAddress` when the entries before the malformed
one were processed without failure. When the loop over all royalty entries
ran without failure, it leaves the remainder `price.Amount` minus the
portions; the call then fails with `ErrInvalidAddress` if the remainder is
positive and the seller address is malformed, and it succeeds if the
remainder is not positive, whatever the seller text. When the remainder is
not positive the seller address is not examined: the outcome is the same for
every seller text. -/
theorem DistributeRoyalties_invalid_address (k : Keeper B N) (ctx : Ctx B N) (price : Coin)
    (seller : String) (royalties : List Royalty)
    (hne : royalties ≠ []) :
    ((∃ r ∈ royalties, k.bech32.AccAddressFromBech32 r.Address = none) →
        (DistributeRoyalties k ctx price seller royalties).1 ≠ .ok ()) ∧
      (∀ pre r post left, royalties = pre ++ r :: post →
        k.bech32.AccAddressFromBech32 r.Address = none →
        (distributeLoop k price pre price.Amount ctx).1 = .ok left →
        (DistributeRoyalties k ctx price seller royalties).1 = .error .ErrInvalidAddress) ∧
      (∀ left, (distributeLoop k price royalties price.Amount ctx).1 = .ok left →
        left = price.Amount - portionSum price.Amount royalties ∧
        (0 < left → k.bech32.AccAddressFromBech32 seller = none →
          (DistributeRoyalties k ctx price seller royalties).1 = .error .ErrInvalidAddress) ∧
        (¬ 0 < left → (DistributeRoyalties k ctx price seller royalties).1 = .ok ())) ∧
      (¬ 0 < price.Amount - portionSum price.Amount royalties →
        ∀ other, DistributeRoyalties k ctx price seller royalties =
          DistributeRoyalties k ctx price other royalties) := by
  have hlen : ¬ royalties.length = 0 := fun h0 => hne (List.length_eq_zero.mp h0)
  refine ⟨?_, ?_, ?_, ?_⟩
  · intro hbad hok
    obtain ⟨hall, _⟩ := DistributeRoyalties_ok k ctx _ price seller royalties hne
      (result_eq_of_fst hok)
    obtain ⟨r, hr, hnone⟩ := hbad
    have := (hall r hr).1
    rw [hnone] at this
    cases this
  · intro pre r post left hsplit hnone hpre
    unfold DistributeRoyalties
    rw [if_neg hlen, hsplit, distributeLoop_append, result_eq_of_fst hpre]
    simp only [distributeLoop_cons, hnone]
  · intro left hloop
    have hl := result_eq_of_fst hloop
    obtain ⟨_, _, hleft, _, _⟩ := distributeLoop_ok k price royalties _ _ _ _ hl
    refine ⟨hleft, ?_, ?_⟩
    · intro hpos hseller
      unfold DistributeRoyalties
      rw [if_neg hlen, hl]
      simp only [if_pos hpos, hseller]
    · intro hnpos
      unfold DistributeRoyalties
      rw [if_neg hlen, hl]
      simp only [if_neg hnpos]
  · intro hnpos other
    unfold DistributeRoyalties
    rw [if_neg hlen, if_neg hlen]
    cases hl : distributeLoop k price royalties price.Amount ctx with
    | mk res ctx1 =>
      cases res with
      | error e => rfl
      | ok left =>
        obtain ⟨_, _, hleft, _, _⟩ := distributeLoop_ok k price royalties _ _ _ _ hl
        subst hleft
        simp only [if_neg hnpos]

/-- C7 amended, at an instance: the royalty of 10 percent is paid, the
remainder is 90 and the malformed seller text is rejected. -/
theorem DistributeRoyalties_invalid_address_witness :
    (DistributeRoyalties Sample.keeper
        ⟨Store.empty, Sample.ledgerEscrow, Sample.custody0, []⟩ Sample.price
        "not-an-address" [⟨Sample.royalty, ⟨10 * precisionReuse⟩⟩]).1 =
      .error .ErrInvalidAddress :=
  ((DistributeRoyalties_invalid_address Sample.keeper
      ⟨Store.empty, Sample.ledgerEscrow, Sample.custody0, []⟩ Sample.price "not-an-address"
      [⟨Sample.royalty, ⟨10 * precisionReuse⟩⟩] (by decide)).2.2.1 90 (by decide)).2.1
    (by decide) (by decide)

/-- C8. After a successful `PublishCollection` of a collection, a second
`PublishCollection` for the same family by the same owner (the registered
creator) fails with `ErrCollectionAlreadyPublished`; the collection store, the
family index, the ledger and the custody state are unchanged by the second
call; lookup by the family still returns the first collection under the first
id, and no record other than the one under that id differs from the store
before the first call. -/
theorem PublishCollection_twice (k : Keeper B N) (ctx : Ctx B N) (c1 c2 : Collection) (id : Nat)
    (h1 : (PublishCollection k ctx c1).1 = .ok id)
    (hden : c2.DenomId = c1.DenomId) (hown : c2.Owner = c1.Owner) :
    (PublishCollection k (PublishCollection k ctx c1).2 c2).1 =
        .error .ErrCollectionAlreadyPublished ∧
      (PublishCollection k (PublishCollection k ctx c1).2 c2).2.store =
        (PublishCollection k ctx c1).2.store ∧
      (PublishCollection k (PublishCollection k ctx c1).2 c2).2.bank = ctx.bank ∧
      (PublishCollection k (PublishCollection k ctx c1).2 c2).2.nft = ctx.nft ∧
      getCollectionByDenomID (PublishCollection k (PublishCollection k ctx c1).2 c2).2.store
        c1.DenomId = ({ c1 with Id := id }, true) ∧
      ∀ i, i ≠ id →
        (PublishCollection k (PublishCollection k ctx c1).2 c2).2.store.collections i =
          ctx.store.collections i := by
  obtain ⟨⟨denom, hd, hcre⟩, _, hid, hstore, hbank, hnft⟩ := PublishCollection_ok k ctx c1 id h1
  subst hid
  obtain ⟨hpub, hlook, hother⟩ := published_collection_lookup ctx.store c1
  have hd2 : k.nftKeeper.GetDenom (PublishCollection k ctx c1).2.nft c2.DenomId = .ok denom := by
    rw [hnft, hden]
    exact hd
  have hpub2 : isCollectionPublished (PublishCollection k ctx c1).2.store c2.DenomId = true := by
    rw [hstore, hden]
    exact hpub
  rw [PublishCollection_already_published k _ c2 denom hd2 (hcre.trans hown.symm) hpub2]
  refine ⟨rfl, rfl, hbank, hnft, ?_, ?_⟩
  · show getCollectionByDenomID (PublishCollection k ctx c1).2.store c1.DenomId = _
    rw [hstore]
    exact hlook
  · intro i hi
    show (PublishCollection k ctx c1).2.store.collections i = _
    rw [hstore]
    exact hother i hi

/-- C8, at an instance: the creator publishes the collection of `D1` twice,
the second time with other royalties. -/
theorem PublishCollection_twice_witness :
    (PublishCollection Sample.keeper
        (PublishCollection Sample.keeper Sample.ctx0 (Sample.collection [])).2
        (Sample.collection [⟨Sample.royalty, ⟨10 * precisionReuse⟩⟩])).1 =
      .error .ErrCollectionAlreadyPublished ∧
    getCollectionByDenomID (PublishCollection Sample.keeper
        (PublishCollection Sample.keeper Sample.ctx0 (Sample.collection [])).2
        (Sample.collection [⟨Sample.royalty, ⟨10 * precisionReuse⟩⟩])).2.store "D1" =
      (Sample.collection [], true) :=
  have h := PublishCollection_twice Sample.keeper Sample.ctx0 (Sample.collection [])
    (Sample.collection [⟨Sample.royalty, ⟨10 * precisionReuse⟩⟩]) 0 (by decide) (by decide)
    (by decide)
  ⟨h.1, h.2.2.2.2.1⟩

/-- C9, the code at a listing by an approved operator: in the custody state
`operator` is an approved operator for the owner of `T1`, under the address
that its bech32 text decodes to. `PublishNFT` with that text as caller fails
with `ErrNotNftOwner`: it asked the custody service about the UTF-8 bytes of
the text instead of the decoded address. No soft-lock was requested and
nothing was stored. The owner, and a caller on the approved-address list, do
pass. -/
theorem PublishNFT_rejects_approved_operator :
    Sample.bech32.AccAddressFromBech32 Sample.operator = some Sample.operatorAddr ∧
      Sample.nftKeeper.IsApprovedOperator Sample.custody0 Sample.sellerAddr Sample.operatorAddr
        = true ∧
      (PublishNFT Sample.keeper Sample.ctx0 (Sample.listing Sample.operator 100)).1 =
        .error .ErrNotNftOwner ∧
      (PublishNFT Sample.keeper Sample.ctx0 (Sample.listing Sample.operator 100)).2.log =
        [.GetDenom "D1", .GetNFT "D1" "T1",
         .IsApprovedOperator Sample.sellerAddr (AccAddressCast Sample.operator)] ∧
      AccAddressCast Sample.operator ≠ Sample.operatorAddr ∧
      GetNft (PublishNFT Sample.keeper Sample.ctx0 (Sample.listing Sample.operator 100)).2.store 0
        = none ∧
      (PublishNFT Sample.keeper Sample.ctx0
        (Sample.listing Sample.operator 100)).2.store.nftDenomTokenID "D1" "T1" = none ∧
      (PublishNFT Sample.keeper Sample.ctx0 (Sample.listing Sample.seller 100)).1 = .ok 0 ∧
      (PublishNFT Sample.keeper ⟨Store.empty, Sample.ledger0, Sample.custodyApproved, []⟩
        (Sample.listing Sample.operator 100)).1 = .ok 0 := by
  refine ⟨by decide, by decide, by decide, by decide, by decide, by decide, by decide,
    by decide, by decide⟩

/-- C10, refuted as stated: after the seller's successful listing of `T1`, a
second `PublishNFT` for `T1` by the buyer, who is neither owner nor approved,
fails with `ErrNotNftOwner`, not with `ErrNftAlreadyPublished`: the
authorisation test comes before the test of the index. -/
theorem PublishNFT_second_by_stranger :
    (PublishNFT Sample.keeper Sample.ctx0 (Sample.listing Sample.seller 100)).1 = .ok 0 ∧
      (PublishNFT Sample.keeper
        (PublishNFT Sample.keeper Sample.ctx0 (Sample.listing Sample.seller 100)).2
        (Sample.listing Sample.buyer 100)).1 = .error .ErrNotNftOwner := by
  refine ⟨by decide, by decide⟩

/-- C10, amended. After a successful `PublishNFT` for an asset, a second
`PublishNFT` for the same asset, with no operation in between, fails: with
`ErrNftAlreadyPublished` when the caller passes the custody lookups and the
authorisation test, with the error of those otherwise. In every case it
requests no soft-lock and leaves the listing store, the index, the ledger and
the custody state unchanged. -/
theorem PublishNFT_twice (k : Keeper B N) (ctx : Ctx B N) (nft1 nft2 : Nft) (id : Nat)
    (h1 : (PublishNFT k ctx nft1).1 = .ok id)
    (hd : nft2.DenomId = nft1.DenomId) (ht : nft2.TokenId = nft1.TokenId) :
    (∃ e, (PublishNFT k (PublishNFT k ctx nft1).2 nft2).1 = .error e) ∧
      (authorised k (PublishNFT k ctx nft1).2.nft nft2 = true →
        (PublishNFT k (PublishNFT k ctx nft1).2 nft2).1 = .error .ErrNftAlreadyPublished) ∧
      (PublishNFT k (PublishNFT k ctx nft1).2 nft2).2.store = (PublishNFT k ctx nft1).2.store ∧
      (PublishNFT k (PublishNFT k ctx nft1).2 nft2).2.bank = (PublishNFT k ctx nft1).2.bank ∧
      (PublishNFT k (PublishNFT k ctx nft1).2 nft2).2.nft = (PublishNFT k ctx nft1).2.nft ∧
      LogExtends (fun c => !c.isSoftLock) (PublishNFT k ctx nft1).2.log
        (PublishNFT k (PublishNFT k ctx nft1).2 nft2).2.log := by
  obtain ⟨_, _, hid, hstore, _, _⟩ := PublishNFT_ok k ctx nft1 id h1
  have hidx : indexPresent (PublishNFT k ctx nft1).2.store nft2 = true := by
    unfold indexPresent
    rw [hstore, hd, ht, (published_store_lookup ctx.store nft1 id hid).1]
    simp [Uint64ToBytes_length]
  cases hauth : authorised k (PublishNFT k ctx nft1).2.nft nft2 with
  | false =>
    obtain ⟨he, h2, h3, h4, h5⟩ := PublishNFT_unauthorised k _ nft2 hauth
    exact ⟨he, fun h => absurd h Bool.false_ne_true, h2, h3, h4, h5⟩
  | true =>
    obtain ⟨he, h2, h3, h4, h5⟩ := PublishNFT_already_published k _ nft2 hauth hidx
    exact ⟨⟨_, he⟩, fun _ => he, h2, h3, h4, h5⟩

/-- C10 amended, at an instance: the seller lists `T1` twice, the second time
at another price. -/
theorem PublishNFT_twice_witness :
    (PublishNFT Sample.keeper
        (PublishNFT Sample.keeper Sample.ctx0 (Sample.listing Sample.seller 100)).2
        (Sample.listing Sample.seller 250)).1 = .error .ErrNftAlreadyPublished :=
  (PublishNFT_twice Sample.keeper Sample.ctx0 (Sample.listing Sample.seller 100)
    (Sample.listing Sample.seller 250) 0 (by decide) (by decide) (by decide)).2.1 (by decide)

end PublishingClaims

/-! ## Claims on the failure paths -/

section FailureClaims
variable {B N : Type}

/-- C11. For every authorised `PublishNFT` on an asset without index entry, if
the custody service refuses the soft-lock then `PublishNFT` returns that
error; the store is the one before the call, so no listing id was allocated
(the counter is unchanged), no listing is stored under the next id and the
index has no entry for the asset; ledger and custody state are unchanged. -/
theorem PublishNFT_lock_refused (k : Keeper B N) (ctx : Ctx B N) (nft : Nft) (e : ExtErr)
    (hauth : authorised k ctx.nft nft = true)
    (hidx : indexPresent ctx.store nft = false)
    (hlock : k.nftKeeper.SoftLockNFT ctx.nft ModuleName nft.DenomId nft.TokenId = .error e) :
    (PublishNFT k ctx nft).1 = .error (.external e) ∧
      (PublishNFT k ctx nft).2.store = ctx.store ∧
      GetNftCount (PublishNFT k ctx nft).2.store = GetNftCount ctx.store ∧
      GetNft (PublishNFT k ctx nft).2.store (GetNftCount ctx.store) =
        GetNft ctx.store (GetNftCount ctx.store) ∧
      indexPresent (PublishNFT k ctx nft).2.store nft = false ∧
      (PublishNFT k ctx nft).2.bank = ctx.bank ∧
      (PublishNFT k ctx nft).2.nft = ctx.nft := by
  obtain ⟨denom, nftVal, hd, hn⟩ := authorised_lookups k ctx.nft nft hauth
  rw [PublishNFT_of_lookups k ctx nft denom nftVal hd hn, hauth, hidx, if_pos rfl,
    if_neg Bool.false_ne_true, hlock]
  exact ⟨rfl, rfl, rfl, rfl, hidx, rfl, rfl⟩

/-- C11, at an instance: the soft lock of `T1` is held by another module; the
seller's listing is refused and the store stays empty. -/
theorem PublishNFT_lock_refused_witness :
    (PublishNFT Sample.keeper ⟨Store.empty, Sample.ledger0, Sample.custodyLocked, []⟩
        (Sample.listing Sample.seller 100)).1 = .error (.external "already soft locked") ∧
      GetNftCount (PublishNFT Sample.keeper
        ⟨Store.empty, Sample.ledger0, Sample.custodyLocked, []⟩
        (Sample.listing Sample.seller 100)).2.store = 0 :=
  have h := PublishNFT_lock_refused Sample.keeper
    ⟨Store.empty, Sample.ledger0, Sample.custodyLocked, []⟩ (Sample.listing Sample.seller 100)
    "already soft locked" (by decide) (by decide) rfl
  ⟨h.1, h.2.2.1⟩

/-- C12. For every state with a listing stored under `nftID` and every address
whose text is not `listing.Owner`, `RemoveNFT` fails with `ErrNotNftOwner` and
returns the context it was given: the listing is still retrievable by its id,
the index and the custody state are as before, and no call was made on a
collaborator, so no soft-unlock was requested. -/
theorem RemoveNFT_by_other (k : Keeper B N) (ctx : Ctx B N) (nftID : Nat) (owner : AccAddress)
    (nft : Nft) (hget : GetNft ctx.store nftID = some nft)
    (hne : nft.Owner ≠ k.bech32.AccAddressString owner) :
    RemoveNFT k ctx nftID owner = (.error .ErrNotNftOwner, ctx) ∧
      GetNft (RemoveNFT k ctx nftID owner).2.store nftID = some nft ∧
      (RemoveNFT k ctx nftID owner).2.store.nftDenomTokenID nft.DenomId nft.TokenId =
        ctx.store.nftDenomTokenID nft.DenomId nft.TokenId ∧
      (RemoveNFT k ctx nftID owner).2.nft = ctx.nft ∧
      (RemoveNFT k ctx nftID owner).2.log = ctx.log := by
  have hres : RemoveNFT k ctx nftID owner = (.error .ErrNotNftOwner, ctx) := by
    unfold RemoveNFT
    rw [hget]
    simp only [ne_eq, hne, not_false_eq_true, if_true]
  rw [hres]
  exact ⟨rfl, hget, rfl, rfl, rfl⟩

/-- C12, at an instance: the buyer tries to remove the seller's listing. -/
theorem RemoveNFT_by_other_witness :
    (RemoveNFT Sample.keeper Sample.ctxListedOnly 0 Sample.buyerAddr).1 =
        .error .ErrNotNftOwner ∧
      GetNft (RemoveNFT Sample.keeper Sample.ctxListedOnly 0 Sample.buyerAddr).2.store 0 =
        some (Sample.listing Sample.seller 100) ∧
      (RemoveNFT Sample.keeper Sample.ctxListedOnly 0 Sample.buyerAddr).2.log =
        Sample.ctxListedOnly.log :=
  have h := RemoveNFT_by_other Sample.keeper Sample.ctxListedOnly 0 Sample.buyerAddr
    (Sample.listing Sample.seller 100) (by decide) (by decide)
  ⟨congrArg Prod.fst h.1, h.2.1, h.2.2.2.2⟩

/-- C15. For every state and every collection whose family exists in the
custody service with a creator other than the collection owner,
`PublishCollection` fails with `ErrNotDenomOwner`; the store is the one before
the call, so no id was allocated and the collection table and the family index
are unchanged, as are ledger and custody state; the only call made is the
lookup of the family. -/
theorem PublishCollection_not_creator (k : Keeper B N) (ctx : Ctx B N) (c : Collection)
    (denom : Denom) (hd : k.nftKeeper.GetDenom ctx.nft c.DenomId = .ok denom)
    (hne : denom.Creator ≠ c.Owner) :
    (PublishCollection k ctx c).1 = .error .ErrNotDenomOwner ∧
      (PublishCollection k ctx c).2.store = ctx.store ∧
      GetCollectionCount (PublishCollection k ctx c).2.store = GetCollectionCount ctx.store ∧
      (PublishCollection k ctx c).2.bank = ctx.bank ∧
      (PublishCollection k ctx c).2.nft = ctx.nft ∧
      (PublishCollection k ctx c).2.log = ctx.log ++ [.GetDenom c.DenomId] := by
  have hres : PublishCollection k ctx c = (.error .ErrNotDenomOwner,
      ⟨ctx.store, ctx.bank, ctx.nft, ctx.log ++ [.GetDenom c.DenomId]⟩) := by
    unfold PublishCollection
    simp only [Ctx.call, hd, ne_eq, hne, not_false_eq_true, if_true]
  rw [hres]
  exact ⟨rfl, rfl, rfl, rfl, rfl, rfl⟩

/-- C15, at an instance: the seller, who did not create `D1`, publishes a
collection for it. -/
theorem PublishCollection_not_creator_witness :
    (PublishCollection Sample.keeper Sample.ctx0 ⟨0, "D1", [], [], false, Sample.seller⟩).1 =
        .error .ErrNotDenomOwner ∧
      GetCollectionCount (PublishCollection Sample.keeper Sample.ctx0
        ⟨0, "D1", [], [], false, Sample.seller⟩).2.store = 0 :=
  have h := PublishCollection_not_creator Sample.keeper Sample.ctx0
    ⟨0, "D1", [], [], false, Sample.seller⟩ ⟨"D1", Sample.creator⟩ (by decide) (by decide)
  ⟨h.1, h.2.2.1⟩

/-- C16. For every state and every listing id without stored listing, `BuyNFT`
fails with `ErrNftNotFound` and returns the context it was given: no call was
made on the ledger or on the custody service, and the listing store and the
index are unchanged. -/
theorem BuyNFT_not_found (k : Keeper B N) (ctx : Ctx B N) (nftID : Nat) (buyer : AccAddress)
    (hget : GetNft ctx.store nftID = none) :
    BuyNFT k ctx nftID buyer = (.error .ErrNftNotFound, ctx) ∧
      (BuyNFT k ctx nftID buyer).2.log = ctx.log ∧
      (BuyNFT k ctx nftID buyer).2.store = ctx.store ∧
      (BuyNFT k ctx nftID buyer).2.bank = ctx.bank ∧
      (BuyNFT k ctx nftID buyer).2.nft = ctx.nft := by
  have hres : BuyNFT k ctx nftID buyer = (.error .ErrNftNotFound, ctx) := by
    unfold BuyNFT
    rw [hget]
  rw [hres]
  exact ⟨rfl, rfl, rfl, rfl, rfl⟩

/-- C16, at an instance: listing id 7 does not exist. -/
theorem BuyNFT_not_found_witness :
    (BuyNFT Sample.keeper Sample.ctxListedOnly 7 Sample.buyerAddr).1 = .error .ErrNftNotFound ∧
      (BuyNFT Sample.keeper Sample.ctxListedOnly 7 Sample.buyerAddr).2.log =
        Sample.ctxListedOnly.log :=
  have h := BuyNFT_not_found Sample.keeper Sample.ctxListedOnly 7 Sample.buyerAddr (by decide)
  ⟨congrArg Prod.fst h.1, h.2.1⟩

/-- C17. For every state with a listing stored under `nftID`, `BuyNFT` by the
address whose text is `listing.Owner` fails with `ErrCannotBuyOwnNft` and
returns the context it was given: no payment was requested, no call was made
on the custody service, and the listing and its index entry remain. -/
theorem BuyNFT_own_listing (k : Keeper B N) (ctx : Ctx B N) (nftID : Nat) (buyer : AccAddress)
    (nft : Nft) (hget : GetNft ctx.store nftID = some nft)
    (hown : nft.Owner = k.bech32.AccAddressString buyer) :
    BuyNFT k ctx nftID buyer = (.error .ErrCannotBuyOwnNft, ctx) ∧
      (BuyNFT k ctx nftID buyer).2.log = ctx.log ∧
      (BuyNFT k ctx nftID buyer).2.bank = ctx.bank ∧
      (BuyNFT k ctx nftID buyer).2.nft = ctx.nft ∧
      GetNft (BuyNFT k ctx nftID buyer).2.store nftID = some nft ∧
      (BuyNFT k ctx nftID buyer).2.store.nftDenomTokenID nft.DenomId nft.TokenId =
        ctx.store.nftDenomTokenID nft.DenomId nft.TokenId := by
  have hres : BuyNFT k ctx nftID buyer = (.error .ErrCannotBuyOwnNft, ctx) := by
    unfold BuyNFT
    rw [hget]
    simp only [hown, if_true]
  rw [hres]
  exact ⟨rfl, rfl, rfl, rfl, hget, rfl⟩

/-- C17, at an instance: the seller tries to buy the own listing of `T1`. -/
theorem BuyNFT_own_listing_witness :
    (BuyNFT Sample.keeper Sample.ctxListedOnly 0 Sample.sellerAddr).1 =
        .error .ErrCannotBuyOwnNft ∧
      (BuyNFT Sample.keeper Sample.ctxListedOnly 0 Sample.sellerAddr).2.log =
        Sample.ctxListedOnly.log ∧
      GetNft (BuyNFT Sample.keeper Sample.ctxListedOnly 0 Sample.sellerAddr).2.store 0 =
        some (Sample.listing Sample.seller 100) :=
  have h := BuyNFT_own_listing Sample.keeper Sample.ctxListedOnly 0 Sample.sellerAddr
    (Sample.listing Sample.seller 100) (by decide) (by decide)
  ⟨congrArg Prod.fst h.1, h.2.1, h.2.2.2.2.1⟩

end FailureClaims

/-! ## Collection status, totals of the distribution, minting -/

section StatusAndMint
variable {B N : Type}

theorem CollectionsKeyed_empty : Store.empty.CollectionsKeyed := by
  intro i c h
  cases h

theorem CollectionsKeyed_SetCollection (s : Store) (c : Collection) (h : s.CollectionsKeyed) :
    (SetCollection s c).CollectionsKeyed := by
  intro i c' hc
  unfold SetCollection at hc
  by_cases hi : i = c.Id
  · simp only [hi, if_true, Option.some.injEq] at hc
    rw [← hc, hi]
  · simp only [hi, if_false] at hc
    exact h i c' hc

/-- The store that `PublishCollection` leaves is the old one or the old one
with the record appended and indexed. -/
theorem PublishCollection_store (k : Keeper B N) (ctx : Ctx B N) (c : Collection) :
    (PublishCollection k ctx c).2.store = ctx.store ∨
      (PublishCollection k ctx c).2.store =
        (AppendCollection ctx.store c).2.setCollectionDenomID c.DenomId
          (Uint64ToBytes (GetCollectionCount ctx.store)) := by
  cases hres : (PublishCollection k ctx c).1 with
  | ok id =>
    obtain ⟨_, _, hid, hstore, _, _⟩ := PublishCollection_ok k ctx c id hres
    subst hid
    exact Or.inr hstore
  | error e =>
    left
    unfold PublishCollection at hres ⊢
    simp only [Ctx.call] at hres ⊢
    cases hd : k.nftKeeper.GetDenom ctx.nft c.DenomId with
    | error e1 => rfl
    | ok denom =>
      simp only [hd] at hres ⊢
      by_cases hown : denom.Creator = c.Owner
      · simp only [hown, ne_eq, not_true_eq_false, if_false] at hres ⊢
        cases hpub : isCollectionPublished ctx.store c.DenomId with
        | true => simp only [if_true]
        | false => simp [hpub, AppendCollection] at hres
      · simp only [ne_eq, hown, not_false_eq_true, if_true]

theorem PublishCollection_keyed (k : Keeper B N) (ctx : Ctx B N) (c : Collection)
    (h : ctx.store.CollectionsKeyed) : (PublishCollection k ctx c).2.store.CollectionsKeyed := by
  rcases PublishCollection_store k ctx c with hs | hs
  · rw [hs]
    exact h
  · rw [hs]
    have := CollectionsKeyed_SetCollection ctx.store { c with Id := GetCollectionCount ctx.store } h
    intro i c' hc
    exact this i c' hc

/-- `MintNFT` once the family and its collection have been found. -/
theorem MintNFT_of_collection (k : Keeper B N) (ctx : Ctx B N) (denomID name uri data : String)
    (price : Coin) (recipient sender : AccAddress) (denom : Denom) (collection : Collection)
    (hd : k.nftKeeper.GetDenom ctx.nft denomID = .ok denom)
    (hc : getCollectionByDenomID ctx.store denomID = (collection, true)) :
    MintNFT k ctx denomID name uri data price recipient sender =
      match DistributeRoyalties k (ctx.call (.GetDenom denomID)) price denom.Creator
          collection.MintRoyalties with
      | (.error e, ctx1) => (.error e, ctx1)
      | (.ok _, ctx1) =>
        match k.nftKeeper.MintNFT ctx1.nft denomID name uri data sender recipient with
        | .error e => (.error (.external e),
            ctx1.call (.MintNFT denomID name uri data sender recipient))
        | .ok (id, custody) => (.ok id,
            { ctx1.call (.MintNFT denomID name uri data sender recipient) with
              nft := custody }) := by
  unfold MintNFT
  have hd' : k.nftKeeper.GetDenom (ctx.call (.GetDenom denomID)).nft denomID = .ok denom := hd
  have hc' : getCollectionByDenomID (ctx.call (.GetDenom denomID)).store denomID =
      (collection, true) := hc
  simp only [hd', hc', Bool.not_true, Bool.false_eq_true, if_false]
  rfl

/-- Whatever its outcome, `MintNFT` requests no payment into a module
account. -/
theorem MintNFT_no_deposit (k : Keeper B N) (ctx : Ctx B N) (denomID name uri data : String)
    (price : Coin) (recipient sender : AccAddress) :
    LogExtends (fun c => !c.isDeposit) ctx.log
      (MintNFT k ctx denomID name uri data price recipient sender).2.log := by
  have h0 : LogExtends (fun c => !c.isDeposit) ctx.log (ctx.call (.GetDenom denomID)).log :=
    LogExtends.single _ _ rfl
  have hmono : ∀ c : Call, c.isPayout = true → (!c.isDeposit) = true := by
    intro c hc
    cases c <;> simp_all [Call.isPayout, Call.isDeposit]
  cases hd : k.nftKeeper.GetDenom ctx.nft denomID with
  | error e =>
    have hres : MintNFT k ctx denomID name uri data price recipient sender =
        (.error (.external e), ctx.call (.GetDenom denomID)) := by
      unfold MintNFT
      have hd' : k.nftKeeper.GetDenom (ctx.call (.GetDenom denomID)).nft denomID = .error e := hd
      simp only [hd']
    rw [hres]
    exact h0
  | ok denom =>
    cases hc : getCollectionByDenomID ctx.store denomID with
    | mk collection found =>
      cases found with
      | false =>
        have hres : MintNFT k ctx denomID name uri data price recipient sender =
            (.error .ErrCollectionNotFound, ctx.call (.GetDenom denomID)) := by
          unfold MintNFT
          have hd' : k.nftKeeper.GetDenom (ctx.call (.GetDenom denomID)).nft denomID =
              .ok denom := hd
          have hc' : getCollectionByDenomID (ctx.call (.GetDenom denomID)).store denomID =
              (collection, false) := hc
          simp only [hd', hc', Bool.not_false, if_true]
        rw [hres]
        exact h0
      | true =>
        rw [MintNFT_of_collection k ctx denomID name uri data price recipient sender denom
          collection hd hc]
        have hl := DistributeRoyalties_log k (ctx.call (.GetDenom denomID)) price denom.Creator
          collection.MintRoyalties
        cases hdist : DistributeRoyalties k (ctx.call (.GetDenom denomID)) price denom.Creator
            collection.MintRoyalties with
        | mk res ctx1 =>
          rw [hdist] at hl
          have h1 := h0.trans (hl.mono hmono)
          cases res with
          | error e => exact h1
          | ok u =>
            simp only
            cases hm : k.nftKeeper.MintNFT ctx1.nft denomID name uri data sender recipient with
            | error e => exact h1.trans (LogExtends.single _ _ rfl)
            | ok r =>
              cases r with
              | mk id custody => exact h1.trans (LogExtends.single _ _ rfl)

theorem escrowIn_of_no_deposit (denom : String) (l l' : List Call)
    (h : LogExtends (fun c => !c.isDeposit) l l') : escrowIn denom l' = escrowIn denom l := by
  obtain ⟨calls, rfl, hc⟩ := h
  rw [escrowIn_append]
  have : escrowIn denom calls = 0 := by
    induction calls with
    | nil => rfl
    | cons c rest ih =>
      have hrest := ih (fun c' hc' => hc c' (List.mem_cons_of_mem _ hc'))
      have hhead := hc c (List.mem_cons_self _ _)
      have hrest' : (List.map (Call.escrowIn denom) rest).sum = 0 := hrest
      simp only [escrowIn, List.map_cons, List.sum_cons, hrest', add_zero]
      cases c <;> simp_all [Call.isDeposit, Call.escrowIn]
  rw [this, add_zero]

/-- C18. For every store whose collections are stored under their ids, every
id and every boolean `v`: `setCollectionStatus` fails with
`ErrCollectionNotFound` and returns the store unchanged if no collection is
stored under the id; otherwise it succeeds, `getCollectionStatus` on the
resulting store returns `v`, the record stored under the id is the previous
one with `Verified := v` (id, family, owner and both royalty lists as before),
and every other collection, the family index, the counters and the listing
tables are unchanged. -/
theorem setCollectionStatus_frame (s : Store) (id : Nat) (v : Bool)
    (hkeyed : s.CollectionsKeyed) :
    (s.collections id = none →
        setCollectionStatus s id v = (.error .ErrCollectionNotFound, s)) ∧
      ∀ c, s.collections id = some c →
        (setCollectionStatus s id v).1 = .ok () ∧
        getCollectionStatus (setCollectionStatus s id v).2 id = .ok v ∧
        (setCollectionStatus s id v).2.collections id = some { c with Verified := v } ∧
        (∀ i, i ≠ id → (setCollectionStatus s id v).2.collections i = s.collections i) ∧
        (setCollectionStatus s id v).2.collectionDenomID = s.collectionDenomID ∧
        (setCollectionStatus s id v).2.collectionCount = s.collectionCount ∧
        (setCollectionStatus s id v).2.nfts = s.nfts ∧
        (setCollectionStatus s id v).2.nftCount = s.nftCount ∧
        (setCollectionStatus s id v).2.nftDenomTokenID = s.nftDenomTokenID := by
  constructor
  · intro hnone
    unfold setCollectionStatus GetCollection
    rw [hnone]
  · intro c hc
    have hid : c.Id = id := hkeyed id c hc
    have hres : setCollectionStatus s id v =
        (.ok (), SetCollection s { c with Verified := v }) := by
      unfold setCollectionStatus GetCollection
      rw [hc]
    rw [hres]
    have hlook : (SetCollection s { c with Verified := v }).collections id =
        some { c with Verified := v } := by
      simp [SetCollection, hid]
    refine ⟨rfl, ?_, hlook, ?_, rfl, rfl, rfl, rfl, rfl⟩
    · unfold getCollectionStatus GetCollection
      simp only [hlook]
    · intro i hi
      simp [SetCollection, hid, hi]

/-- C18, at an instance: the collection of `D1`, published under id 0, is set
to verified. -/
theorem setCollectionStatus_frame_witness :
    (setCollectionStatus (PublishCollection Sample.keeper Sample.ctx0
        (Sample.collection [])).2.store 0 true).1 = .ok () ∧
      getCollectionStatus (setCollectionStatus (PublishCollection Sample.keeper Sample.ctx0
        (Sample.collection [])).2.store 0 true).2 0 = .ok true ∧
      setCollectionStatus (PublishCollection Sample.keeper Sample.ctx0
        (Sample.collection [])).2.store 5 true =
        (.error .ErrCollectionNotFound, (PublishCollection Sample.keeper Sample.ctx0
          (Sample.collection [])).2.store) :=
  have h := setCollectionStatus_frame (PublishCollection Sample.keeper Sample.ctx0
    (Sample.collection [])).2.store
  have hk := PublishCollection_keyed Sample.keeper Sample.ctx0 (Sample.collection [])
    CollectionsKeyed_empty
  ⟨((h 0 true hk).2 (Sample.collection []) (by decide)).1,
    ((h 0 true hk).2 (Sample.collection []) (by decide)).2.1,
    (h 5 true hk).1 (by decide)⟩

/-- C19. For every price and every non-empty royalty list, whatever the sum
of the percents: every run of `DistributeRoyalties` that succeeds, so that
the addresses it decoded were well-formed and the ledger accepted its sends,
has sent out of the module account a total that is the larger of
`price.Amount` and the sum of the portions; it is never less than the price,
and when the portions sum to more than the price no remainder is sent to the
seller (the calls are the royalty sends only) and more than the price leaves
the module account. -/
theorem DistributeRoyalties_total (k : Keeper B N) (ctx : Ctx B N) (price : Coin)
    (seller : String) (royalties : List Royalty)
    (hne : royalties ≠ [])
    (hok : (DistributeRoyalties k ctx price seller royalties).1 = .ok ()) :
    (∀ denom, escrowOut denom (DistributeRoyalties k ctx price seller royalties).2.log =
        escrowOut denom ctx.log +
          if denom = price.Denom then max price.Amount (portionSum price.Amount royalties)
          else 0) ∧
      price.Amount ≤ escrowOut price.Denom
          (DistributeRoyalties k ctx price seller royalties).2.log -
        escrowOut price.Denom ctx.log ∧
      (price.Amount < portionSum price.Amount royalties →
        (DistributeRoyalties k ctx price seller royalties).2.log =
          ctx.log ++ royalties.map (royaltyCall k price) ∧
        price.Amount < escrowOut price.Denom
            (DistributeRoyalties k ctx price seller royalties).2.log -
          escrowOut price.Denom ctx.log) := by
  obtain ⟨_, _, hlog, _, _⟩ := DistributeRoyalties_ok k ctx _ price seller royalties hne
    (result_eq_of_fst hok)
  generalize (DistributeRoyalties k ctx price seller royalties).2 = ctx' at hlog ⊢
  have htotal : ∀ denom, escrowOut denom ctx'.log =
      escrowOut denom ctx.log +
        if denom = price.Denom then max price.Amount (portionSum price.Amount royalties)
        else 0 := by
    intro denom
    rw [hlog, escrowOut_append, escrowOut_append, escrowOut_royaltyCalls, escrowOut_sellerCalls]
    by_cases hd : denom = price.Denom
    · by_cases hpos : 0 < price.Amount - portionSum price.Amount royalties
      · have hmax : max price.Amount (portionSum price.Amount royalties) = price.Amount :=
          max_eq_left (by omega)
        simp only [hd, hpos, and_self, if_true, hmax]
        ring
      · have hmax : max price.Amount (portionSum price.Amount royalties) =
            portionSum price.Amount royalties := max_eq_right (by omega)
        simp [hd, hpos, hmax]
    · simp [hd]
  refine ⟨htotal, ?_, ?_⟩
  · rw [htotal price.Denom]
    simp only [if_true]
    have := le_max_left price.Amount (portionSum price.Amount royalties)
    omega
  · intro hover
    have hnpos : ¬ 0 < price.Amount - portionSum price.Amount royalties := by omega
    constructor
    · rw [hlog]
      simp [sellerCalls, hnpos]
    · rw [htotal price.Denom]
      simp only [if_true]
      have := le_max_right price.Amount (portionSum price.Amount royalties)
      omega

/-- C19, at an instance: two royalties of 60 percent on `100 uDenom`, on a
ledger that accepts the sends: the run succeeds, `120 uDenom` leave the module
account and nothing goes to the seller. -/
theorem DistributeRoyalties_total_witness :
    (DistributeRoyalties Sample.openKeeper ⟨Store.empty, (), Sample.custody0, []⟩ Sample.price
        Sample.seller [⟨Sample.royalty, ⟨60 * precisionReuse⟩⟩,
          ⟨Sample.creator, ⟨60 * precisionReuse⟩⟩]).1 = .ok () ∧
      (Sample.price.Amount < portionSum Sample.price.Amount
          [⟨Sample.royalty, ⟨60 * precisionReuse⟩⟩, ⟨Sample.creator, ⟨60 * precisionReuse⟩⟩] →
        (DistributeRoyalties Sample.openKeeper ⟨Store.empty, (), Sample.custody0, []⟩
            Sample.price Sample.seller [⟨Sample.royalty, ⟨60 * precisionReuse⟩⟩,
              ⟨Sample.creator, ⟨60 * precisionReuse⟩⟩]).2.log =
          [] ++ [⟨Sample.royalty, ⟨60 * precisionReuse⟩⟩,
            ⟨Sample.creator, ⟨60 * precisionReuse⟩⟩].map
              (royaltyCall Sample.openKeeper Sample.price) ∧
        Sample.price.Amount < escrowOut Sample.price.Denom
            (DistributeRoyalties Sample.openKeeper ⟨Store.empty, (), Sample.custody0, []⟩
              Sample.price Sample.seller [⟨Sample.royalty, ⟨60 * precisionReuse⟩⟩,
                ⟨Sample.creator, ⟨60 * precisionReuse⟩⟩]).2.log -
          escrowOut Sample.price.Denom []) ∧
      escrowOut "uDenom" (DistributeRoyalties Sample.openKeeper
        ⟨Store.empty, (), Sample.custody0, []⟩ Sample.price Sample.seller
        [⟨Sample.royalty, ⟨60 * precisionReuse⟩⟩,
          ⟨Sample.creator, ⟨60 * precisionReuse⟩⟩]).2.log = 120 ∧
      paidTo "uDenom" Sample.sellerAddr (DistributeRoyalties Sample.openKeeper
        ⟨Store.empty, (), Sample.custody0, []⟩ Sample.price Sample.seller
        [⟨Sample.royalty, ⟨60 * precisionReuse⟩⟩,
          ⟨Sample.creator, ⟨60 * precisionReuse⟩⟩]).2.log = 0 :=
  ⟨by decide,
    (DistributeRoyalties_total Sample.openKeeper ⟨Store.empty, (), Sample.custody0, []⟩
      Sample.price Sample.seller
      [⟨Sample.royalty, ⟨60 * precisionReuse⟩⟩, ⟨Sample.creator, ⟨60 * precisionReuse⟩⟩]
      (by decide) (by decide)).2.2,
    by decide, by decide⟩

/-- C20. For every state in which the family exists: whatever its outcome,
`MintNFT` requests no payment into a module account, from the sender or from
anyone. When no collection is published for the family it fails with
`ErrCollectionNotFound`, having made no call but the lookup of the family.
When the mint royalties of the collection are empty it makes no call on the
ledger, whatever the price. When they are non-empty, of non-negative percents
summing to at most 100 (fewer than `2 * 10^18` entries), and the price is
non-negative, a successful call has sent the portions to the royalty
addresses and the positive remainder to the creator of the family: exactly
`price.Amount` has left the module account and nothing has entered it. -/
theorem MintNFT_funds (k : Keeper B N) (ctx : Ctx B N) (denomID name uri data : String)
    (price : Coin) (recipient sender : AccAddress) (denom : Denom)
    (hd : k.nftKeeper.GetDenom ctx.nft denomID = .ok denom) :
    LogExtends (fun c => !c.isDeposit) ctx.log
        (MintNFT k ctx denomID name uri data price recipient sender).2.log ∧
      (∀ d, escrowIn d (MintNFT k ctx denomID name uri data price recipient sender).2.log =
        escrowIn d ctx.log) ∧
      ((getCollectionByDenomID ctx.store denomID).2 = false →
        (MintNFT k ctx denomID name uri data price recipient sender).1 =
          .error .ErrCollectionNotFound ∧
        (MintNFT k ctx denomID name uri data price recipient sender).2.bank = ctx.bank ∧
        (MintNFT k ctx denomID name uri data price recipient sender).2.log =
          ctx.log ++ [.GetDenom denomID]) ∧
      (∀ collection, getCollectionByDenomID ctx.store denomID = (collection, true) →
        collection.MintRoyalties = [] →
        (MintNFT k ctx denomID name uri data price recipient sender).2.bank = ctx.bank ∧
        (MintNFT k ctx denomID name uri data price recipient sender).2.log =
          ctx.log ++ [.GetDenom denomID, .MintNFT denomID name uri data sender recipient]) ∧
      (∀ collection id, getCollectionByDenomID ctx.store denomID = (collection, true) →
        collection.MintRoyalties ≠ [] →
        0 ≤ price.Amount →
        (∀ r ∈ collection.MintRoyalties, 0 ≤ r.Percent.raw) →
        percentSum collection.MintRoyalties ≤ hundredPercent →
        collection.MintRoyalties.length < 2 * 10 ^ 18 →
        (MintNFT k ctx denomID name uri data price recipient sender).1 = .ok id →
        (MintNFT k ctx denomID name uri data price recipient sender).2.log =
          ctx.log ++ [.GetDenom denomID] ++
            collection.MintRoyalties.map (royaltyCall k price) ++
            sellerCalls k price denom.Creator
              (price.Amount - portionSum price.Amount collection.MintRoyalties) ++
            [.MintNFT denomID name uri data sender recipient] ∧
        ∀ d, escrowOut d (MintNFT k ctx denomID name uri data price recipient sender).2.log =
          escrowOut d ctx.log + if d = price.Denom then price.Amount else 0) := by
  have hnodep := MintNFT_no_deposit k ctx denomID name uri data price recipient sender
  refine ⟨hnodep, fun d => escrowIn_of_no_deposit d _ _ hnodep, ?_, ?_, ?_⟩
  · intro hnot
    have hres : MintNFT k ctx denomID name uri data price recipient sender =
        (.error .ErrCollectionNotFound, ctx.call (.GetDenom denomID)) := by
      unfold MintNFT
      have hd' : k.nftKeeper.GetDenom (ctx.call (.GetDenom denomID)).nft denomID =
          .ok denom := hd
      cases hc : getCollectionByDenomID ctx.store denomID with
      | mk collection found =>
        rw [hc] at hnot
        simp only at hnot
        subst hnot
        have hc' : getCollectionByDenomID (ctx.call (.GetDenom denomID)).store denomID =
            (collection, false) := hc
        simp only [hd', hc', Bool.not_false, if_true]
    rw [hres]
    exact ⟨rfl, rfl, rfl⟩
  · intro collection hc hnil
    rw [MintNFT_of_collection k ctx denomID name uri data price recipient sender denom
      collection hd hc, hnil, DistributeRoyalties_nil]
    simp only
    cases hm : k.nftKeeper.MintNFT (ctx.call (.GetDenom denomID)).nft denomID name uri data
        sender recipient with
    | error e => exact ⟨rfl, by simp [Ctx.call]⟩
    | ok r =>
      cases r with
      | mk id custody => exact ⟨rfl, by simp [Ctx.call]⟩
  · intro collection id hc hne hprice hpct hsum hlen hok
    rw [MintNFT_of_collection k ctx denomID name uri data price recipient sender denom
      collection hd hc] at hok ⊢
    cases hdist : DistributeRoyalties k (ctx.call (.GetDenom denomID)) price denom.Creator
        collection.MintRoyalties with
    | mk res ctx1 =>
      cases res with
      | error e => simp [hdist] at hok
      | ok u =>
        obtain ⟨_, _, hlog, _, _⟩ := DistributeRoyalties_ok k _ ctx1 price denom.Creator
          collection.MintRoyalties hne hdist
        have hle := portionSum_le_amount price.Amount hprice _ hpct hsum hlen
        simp only [hdist] at hok ⊢
        have hlogfinal : ∀ (r : Except Err String × Ctx B N),
            r.2.log = ctx1.log ++ [.MintNFT denomID name uri data sender recipient] →
            r.2.log = ctx.log ++ [.GetDenom denomID] ++
                collection.MintRoyalties.map (royaltyCall k price) ++
                sellerCalls k price denom.Creator
                  (price.Amount - portionSum price.Amount collection.MintRoyalties) ++
                [.MintNFT denomID name uri data sender recipient] ∧
              ∀ d, escrowOut d r.2.log =
                escrowOut d ctx.log + if d = price.Denom then price.Amount else 0 := by
          intro r hr
          have hl : r.2.log = ctx.log ++ [.GetDenom denomID] ++
              collection.MintRoyalties.map (royaltyCall k price) ++
              sellerCalls k price denom.Creator
                (price.Amount - portionSum price.Amount collection.MintRoyalties) ++
              [.MintNFT denomID name uri data sender recipient] := by
            rw [hr, hlog]
            rfl
          refine ⟨hl, fun d => ?_⟩
          rw [hl]
          simp only [escrowOut_append, escrowOut_royaltyCalls, escrowOut_sellerCalls]
          have h0 : escrowOut d [Call.GetDenom denomID] = 0 := by
            simp [escrowOut, Call.escrowOut]
          have h1 : escrowOut d [Call.MintNFT denomID name uri data sender recipient] = 0 := by
            simp [escrowOut, Call.escrowOut]
          rw [h0, h1]
          by_cases hdd : d = price.Denom
          · by_cases hpos : 0 < price.Amount - portionSum price.Amount collection.MintRoyalties
            · simp only [hdd, hpos, and_self, if_true]
              ring
            · have : portionSum price.Amount collection.MintRoyalties = price.Amount := by
                omega
              simp [hdd, hpos, this]
          · simp [hdd]
        cases hm : k.nftKeeper.MintNFT ctx1.nft denomID name uri data sender recipient with
        | error e => simp [hm] at hok
        | ok r =>
          cases r with
          | mk id1 custody => exact hlogfinal _ (by simp [Ctx.call])

/-- C20, at an instance: with mint royalties of 10 percent and the price
`100 uDenom`, minting succeeds, `100 uDenom` leave the module account (which
held 500) and the balance of the sender is untouched; without a published
collection minting fails with `ErrCollectionNotFound`. -/
theorem MintNFT_funds_witness :
    (MintNFT Sample.keeper (Sample.ctxMint [⟨Sample.royalty, ⟨10 * precisionReuse⟩⟩]) "D1"
        "name" "uri" "data" Sample.price Sample.buyerAddr Sample.buyerAddr).1 = .ok "minted" ∧
      (∀ d, escrowIn d (MintNFT Sample.keeper
          (Sample.ctxMint [⟨Sample.royalty, ⟨10 * precisionReuse⟩⟩]) "D1"
          "name" "uri" "data" Sample.price Sample.buyerAddr Sample.buyerAddr).2.log =
        escrowIn d (Sample.ctxMint [⟨Sample.royalty, ⟨10 * precisionReuse⟩⟩]).log) ∧
      (MintNFT Sample.keeper (Sample.ctxMint [⟨Sample.royalty, ⟨10 * precisionReuse⟩⟩]) "D1"
        "name" "uri" "data" Sample.price Sample.buyerAddr
        Sample.buyerAddr).2.bank.module ModuleName "uDenom" = 400 ∧
      (MintNFT Sample.keeper (Sample.ctxMint [⟨Sample.royalty, ⟨10 * precisionReuse⟩⟩]) "D1"
        "name" "uri" "data" Sample.price Sample.buyerAddr
        Sample.buyerAddr).2.bank.account Sample.creatorAddr "uDenom" = 90 ∧
      (MintNFT Sample.keeper Sample.ctx0 "D1" "name" "uri" "data" Sample.price
        Sample.buyerAddr Sample.buyerAddr).1 = .error .ErrCollectionNotFound :=
  ⟨by decide,
    (MintNFT_funds Sample.keeper (Sample.ctxMint [⟨Sample.royalty, ⟨10 * precisionReuse⟩⟩])
      "D1" "name" "uri" "data" Sample.price Sample.buyerAddr Sample.buyerAddr
      ⟨"D1", Sample.creator⟩ (by decide)).2.1,
    by decide, by decide,
    ((MintNFT_funds Sample.keeper Sample.ctx0 "D1" "name" "uri" "data" Sample.price
      Sample.buyerAddr Sample.buyerAddr ⟨"D1", Sample.creator⟩ (by decide)).2.2.1
      (by decide)).1⟩

end StatusAndMint

/-! ## Removal of listings and the unlock -/

section Removal
variable {B N : Type}

/-- The outcomes of `RemoveNFT`: it returns the context it was given, or it
has deleted the listing and its index entry and then requested the
soft-unlock of the asset. -/
theorem RemoveNFT_cases (k : Keeper B N) (ctx : Ctx B N) (nftID : Nat) (owner : AccAddress) :
    (RemoveNFT k ctx nftID owner).2 = ctx ∨
      ∃ nft, GetNft ctx.store nftID = some nft ∧
        nft.Owner = k.bech32.AccAddressString owner ∧
        (RemoveNFT k ctx nftID owner).2.store = storeWithoutListing ctx.store nftID nft ∧
        (RemoveNFT k ctx nftID owner).2.bank = ctx.bank ∧
        (RemoveNFT k ctx nftID owner).2.log =
          ctx.log ++ [.SoftUnlockNFT ModuleName nft.DenomId nft.TokenId] := by
  unfold RemoveNFT
  cases hg : GetNft ctx.store nftID with
  | none => exact Or.inl rfl
  | some nft =>
    by_cases hown : nft.Owner = k.bech32.AccAddressString owner
    · right
      refine ⟨nft, rfl, hown, ?_⟩
      simp only [ne_eq, hown, not_true_eq_false, if_false, Ctx.call]
      cases hu : k.nftKeeper.SoftUnlockNFT ctx.nft ModuleName nft.DenomId nft.TokenId <;>
        exact ⟨rfl, rfl, rfl⟩
    · left
      simp only [ne_eq, hown, not_false_eq_true, if_true]

/-- The outcomes of the hand-over of a sale: the listing and its index entry
are deleted in every case; then either the custody lookup fails and the error
is returned with no unlock requested, or the soft-unlock of the asset is
requested. -/
theorem buyNFTHandOver_cases (k : Keeper B N) (ctx : Ctx B N) (nftID : Nat) (nft : Nft)
    (buyer : AccAddress) :
    (buyNFTHandOver k ctx nftID nft buyer).2.store = storeWithoutListing ctx.store nftID nft ∧
      ((∃ e, k.nftKeeper.GetBaseNFT ctx.nft nft.DenomId nft.TokenId = .error e ∧
          (buyNFTHandOver k ctx nftID nft buyer).1 = .error (.external e) ∧
          (buyNFTHandOver k ctx nftID nft buyer).2.log =
            ctx.log ++ [.GetBaseNFT nft.DenomId nft.TokenId]) ∨
        ∃ calls, (buyNFTHandOver k ctx nftID nft buyer).2.log = ctx.log ++ calls ∧
          Call.SoftUnlockNFT ModuleName nft.DenomId nft.TokenId ∈ calls) := by
  unfold buyNFTHandOver
  simp only [Ctx.call]
  cases hb : k.nftKeeper.GetBaseNFT ctx.nft nft.DenomId nft.TokenId with
  | error e => exact ⟨rfl, Or.inl ⟨e, rfl, rfl, rfl⟩⟩
  | ok baseNft =>
    cases hu : k.nftKeeper.SoftUnlockNFT ctx.nft ModuleName nft.DenomId nft.TokenId with
    | error e =>
      exact ⟨rfl, Or.inr ⟨[.GetBaseNFT nft.DenomId nft.TokenId,
        .SoftUnlockNFT ModuleName nft.DenomId nft.TokenId], by simp, by simp⟩⟩
    | ok custody =>
      exact ⟨rfl, Or.inr ⟨handOverCalls nft buyer baseNft, by simp [handOverCalls],
        by simp [handOverCalls]⟩⟩

/-- `BuyNFT` after the buyer's payment has been accepted: the payout ran on a
context with the same store and custody state, and either it failed and its
error is returned, or `BuyNFT` ends with the hand-over. -/
theorem BuyNFT_accepted (k : Keeper B N) (ctx : Ctx B N) (nftID : Nat) (buyer : AccAddress)
    (hacc : paymentAccepted k ctx nftID buyer = true) :
    ∃ nft ctx1, GetNft ctx.store nftID = some nft ∧
      ctx1.store = ctx.store ∧ ctx1.nft = ctx.nft ∧
      (∃ calls, ctx1.log = ctx.log ++ calls) ∧
      ((∃ e, BuyNFT k ctx nftID buyer = (.error e, ctx1)) ∨
        BuyNFT k ctx nftID buyer = buyNFTHandOver k ctx1 nftID nft buyer) := by
  unfold paymentAccepted at hacc
  rw [BuyNFT_eq_singleBranch]
  unfold BuyNFTSingleBranch
  cases hg : GetNft ctx.store nftID with
  | none => simp [hg] at hacc
  | some nft =>
    simp only [hg] at hacc ⊢
    by_cases hown : nft.Owner = k.bech32.AccAddressString buyer
    · simp [hown] at hacc
    · rw [if_neg hown] at hacc ⊢
      cases hc : NewCoins nft.Price with
      | error e1 => simp [hc] at hacc
      | ok amt =>
        simp only [hc] at hacc ⊢
        cases hpay : k.bankKeeper.SendCoinsFromAccountToModule ctx.bank buyer ModuleName
            amt with
        | error e1 => simp [hpay] at hacc
        | ok bank =>
          have hpay' : k.bankKeeper.SendCoinsFromAccountToModule
              (ctx.call (.SendCoinsFromAccountToModule buyer ModuleName amt)).bank buyer
              ModuleName amt = .ok bank := hpay
          simp only [hpay']
          have hfr := payoutSingleBranch_frame k
            { ctx.call (.SendCoinsFromAccountToModule buyer ModuleName amt) with
              bank := bank } nft
          obtain ⟨calls, hcalls, _⟩ := payoutSingleBranch_log k
            { ctx.call (.SendCoinsFromAccountToModule buyer ModuleName amt) with
              bank := bank } nft
          cases hpo : payoutSingleBranch k
              { ctx.call (.SendCoinsFromAccountToModule buyer ModuleName amt) with
                bank := bank } nft with
          | mk res ctx2 =>
            rw [hpo] at hfr hcalls
            have hlog : ∃ cs, ctx2.log = ctx.log ++ cs :=
              ⟨[.SendCoinsFromAccountToModule buyer ModuleName amt] ++ calls, by
                rw [hcalls]
                simp [Ctx.call]⟩
            refine ⟨nft, ctx2, rfl, hfr.1, hfr.2, hlog, ?_⟩
            cases res with
            | error e1 => exact Or.inl ⟨e1, rfl⟩
            | ok u => exact Or.inr rfl

/-- The outcomes of `BuyNFT` for the listing tables: the store is the one
before the call, or the listing and its index entry are deleted; in the latter
case either the custody lookup after the deletion failed and its error was
returned, or the soft-unlock of the asset was requested. -/
theorem BuyNFT_cases (k : Keeper B N) (ctx : Ctx B N) (nftID : Nat) (buyer : AccAddress) :
    (BuyNFT k ctx nftID buyer).2.store = ctx.store ∨
      ∃ nft, GetNft ctx.store nftID = some nft ∧
        (BuyNFT k ctx nftID buyer).2.store = storeWithoutListing ctx.store nftID nft ∧
        ((∃ e, k.nftKeeper.GetBaseNFT ctx.nft nft.DenomId nft.TokenId = .error e ∧
            (BuyNFT k ctx nftID buyer).1 = .error (.external e)) ∨
          ∃ calls, (BuyNFT k ctx nftID buyer).2.log = ctx.log ++ calls ∧
            Call.SoftUnlockNFT ModuleName nft.DenomId nft.TokenId ∈ calls) := by
  cases hacc : paymentAccepted k ctx nftID buyer with
  | false => exact Or.inl (BuyNFT_not_accepted k ctx nftID buyer hacc).2.1
  | true =>
    obtain ⟨nft, ctx1, hget, hstore, hnft, ⟨cs, hcs⟩, hres⟩ :=
      BuyNFT_accepted k ctx nftID buyer hacc
    rcases hres with ⟨e, he⟩ | hho
    · left
      rw [he]
      exact hstore
    · right
      obtain ⟨hs, hrest⟩ := buyNFTHandOver_cases k ctx1 nftID nft buyer
      refine ⟨nft, hget, ?_, ?_⟩
      · rw [hho, hs, hstore]
      · rcases hrest with ⟨e, hb, hr, _⟩ | ⟨calls, hl, hmem⟩
        · left
          refine ⟨e, ?_, ?_⟩
          · rw [← hnft]
            exact hb
          · rw [hho]
            exact hr
        · right
          refine ⟨cs ++ calls, ?_, List.mem_append_right _ hmem⟩
          rw [hho, hl, hcs, List.append_assoc]

/-- C14, refuted as stated: on a state whose listing of `T1` has no asset
behind it in the custody service, `BuyNFT` takes the payment, pays the seller,
deletes the listing and its index entry, and then returns the error of the
custody lookup; the calls it made contain no soft-unlock request. -/
theorem BuyNFT_deletes_without_unlock :
    GetNft (Sample.ctxListed [] 100).store 0 = some (Sample.listing Sample.seller 100) ∧
      (BuyNFT Sample.keeper
        ⟨(Sample.ctxListed [] 100).store, Sample.ledger0, Sample.custodyWithoutAsset, []⟩ 0
        Sample.buyerAddr).1 = .error (.external "not found NFT") ∧
      GetNft (BuyNFT Sample.keeper
        ⟨(Sample.ctxListed [] 100).store, Sample.ledger0, Sample.custodyWithoutAsset, []⟩ 0
        Sample.buyerAddr).2.store 0 = none ∧
      (BuyNFT Sample.keeper
        ⟨(Sample.ctxListed [] 100).store, Sample.ledger0, Sample.custodyWithoutAsset, []⟩ 0
        Sample.buyerAddr).2.store.nftDenomTokenID "D1" "T1" = none ∧
      (BuyNFT Sample.keeper
        ⟨(Sample.ctxListed [] 100).store, Sample.ledger0, Sample.custodyWithoutAsset, []⟩ 0
        Sample.buyerAddr).2.log =
        [.SendCoinsFromAccountToModule Sample.buyerAddr ModuleName [⟨"uDenom", 100⟩],
         .SendCoinsFromModuleToAccount ModuleName Sample.sellerAddr [⟨"uDenom", 100⟩],
         .GetBaseNFT "D1" "T1"] := by
  refine ⟨by decide, by decide, by decide, by decide, by decide⟩

/-- C14, amended. `RemoveNFT` either returns the context it was given, or it
has deleted the listing and its index entry and then requested the soft-unlock
of that asset, which is the one call it made. `BuyNFT` either leaves the store
as it was, or it has deleted the listing and its index entry; in that case
either the custody lookup that follows the deletion failed, and `BuyNFT`
returned that error without an unlock request, or the soft-unlock of that
asset is among the calls it made. -/
theorem deletion_and_unlock (k : Keeper B N) (ctx : Ctx B N) (nftID : Nat) (addr : AccAddress) :
    ((RemoveNFT k ctx nftID addr).2 = ctx ∨
        ∃ nft, GetNft ctx.store nftID = some nft ∧
          (RemoveNFT k ctx nftID addr).2.store = storeWithoutListing ctx.store nftID nft ∧
          (RemoveNFT k ctx nftID addr).2.log =
            ctx.log ++ [.SoftUnlockNFT ModuleName nft.DenomId nft.TokenId]) ∧
      ((BuyNFT k ctx nftID addr).2.store = ctx.store ∨
        ∃ nft, GetNft ctx.store nftID = some nft ∧
          (BuyNFT k ctx nftID addr).2.store = storeWithoutListing ctx.store nftID nft ∧
          ((∃ e, k.nftKeeper.GetBaseNFT ctx.nft nft.DenomId nft.TokenId = .error e ∧
              (BuyNFT k ctx nftID addr).1 = .error (.external e)) ∨
            ∃ calls, (BuyNFT k ctx nftID addr).2.log = ctx.log ++ calls ∧
              Call.SoftUnlockNFT ModuleName nft.DenomId nft.TokenId ∈ calls)) := by
  refine ⟨?_, BuyNFT_cases k ctx nftID addr⟩
  rcases RemoveNFT_cases k ctx nftID addr with h | ⟨nft, hget, _, hs, _, hl⟩
  · exact Or.inl h
  · exact Or.inr ⟨nft, hget, hs, hl⟩

end Removal

/-! ## The invariant of the listing tables -/

section Invariant
variable {B N : Type}

theorem Uint64ToBytes_injective (a b : Nat) (ha : a < 2 ^ 64) (hb : b < 2 ^ 64)
    (h : Uint64ToBytes a = Uint64ToBytes b) : a = b := by
  have h1 := BytesToUint64_Uint64ToBytes a
  have h2 := BytesToUint64_Uint64ToBytes b
  rw [h] at h1
  rw [h1] at h2
  omega

theorem ListingsIndexed_empty : ListingsIndexed Store.empty 0 := by
  refine ⟨?_, ?_, ?_, ?_⟩
  · intro d t bz h
    cases h
  · intro id n h
    cases h
  · intro id n h
    cases h
  · exact Nat.le_refl 0

theorem ListingsIndexed_same (s s' : Store) (m : Nat) (h : ListingsIndexed s m)
    (hs : SameListings s s') : ListingsIndexed s' m := by
  obtain ⟨h1, h2, h3⟩ := hs
  unfold ListingsIndexed
  rw [h1, h2, h3]
  exact h

/-- Publishing a listing for an asset without index entry keeps the tables in
agreement, as long as the counter does not wrap. -/
theorem ListingsIndexed_publish (s : Store) (m : Nat) (nft : Nft)
    (h : ListingsIndexed s m) (hm : m + 1 < 2 ^ 64) (hidx : indexPresent s nft = false) :
    ListingsIndexed ((AppendNft s nft).2.setNftDenomTokenID nft.DenomId nft.TokenId
      (Uint64ToBytes (GetNftCount s))) (m + 1) := by
  obtain ⟨ha, hb, hc, hd⟩ := h
  have hcount : GetNftCount s = s.nftCount := by
    unfold GetNftCount
    omega
  have hnone : s.nftDenomTokenID nft.DenomId nft.TokenId = none := by
    cases hx : s.nftDenomTokenID nft.DenomId nft.TokenId with
    | none => rfl
    | some bz =>
      obtain ⟨id, n, hbz, _⟩ := ha _ _ bz hx
      unfold indexPresent at hidx
      rw [hx, hbz] at hidx
      simp [Uint64ToBytes_length] at hidx
  have hfresh : s.nfts s.nftCount = none := by
    cases hx : s.nfts s.nftCount with
    | none => rfl
    | some n =>
      have := hc _ n hx
      omega
  rw [hcount]
  refine ⟨?_, ?_, ?_, ?_⟩
  · intro d t bz hbz
    simp only [Store.setNftDenomTokenID, AppendNft, hcount] at hbz ⊢
    by_cases hdt : d = nft.DenomId ∧ t = nft.TokenId
    · simp only [hdt, and_self, if_true, Option.some.injEq] at hbz
      exact ⟨s.nftCount, { nft with Id := s.nftCount }, hbz.symm, by simp, hdt.1.symm,
        hdt.2.symm⟩
    · simp only [hdt, if_false] at hbz
      obtain ⟨id, n, e1, e2, e3, e4⟩ := ha d t bz hbz
      have hid : id ≠ s.nftCount := by
        intro hid
        rw [hid, hfresh] at e2
        cases e2
      exact ⟨id, n, e1, by simp [hid, e2], e3, e4⟩
  · intro id n hn
    simp only [Store.setNftDenomTokenID, AppendNft, hcount] at hn ⊢
    by_cases hid : id = s.nftCount
    · simp only [hid, if_true, Option.some.injEq] at hn
      subst hn
      simp [hid]
    · simp only [hid, if_false] at hn
      have hidxn := hb id n hn
      have hdt : ¬ (n.DenomId = nft.DenomId ∧ n.TokenId = nft.TokenId) := by
        intro hdt
        rw [hdt.1, hdt.2, hnone] at hidxn
        cases hidxn
      simp only [hdt, if_false]
      exact hidxn
  · intro id n hn
    simp only [Store.setNftDenomTokenID, AppendNft, hcount] at hn ⊢
    by_cases hid : id = s.nftCount
    · rw [hid]
      omega
    · simp only [hid, if_false] at hn
      have := hc id n hn
      omega
  · simp only [Store.setNftDenomTokenID, AppendNft, hcount]
    omega

/-- Removing a stored listing together with the index entry of its asset
keeps the tables in agreement. -/
theorem ListingsIndexed_remove (s : Store) (m : Nat) (nftID : Nat) (nft : Nft)
    (h : ListingsIndexed s m) (hm : m < 2 ^ 64) (hget : GetNft s nftID = some nft) :
    ListingsIndexed (storeWithoutListing s nftID nft) m := by
  obtain ⟨ha, hb, hc, hd⟩ := h
  have hget' : s.nfts nftID = some nft := hget
  refine ⟨?_, ?_, ?_, ?_⟩
  · intro d t bz hbz
    simp only [storeWithoutListing, RemoveNft, Store.deleteNftDenomTokenID] at hbz ⊢
    by_cases hdt : d = nft.DenomId ∧ t = nft.TokenId
    · simp [hdt] at hbz
    · simp only [hdt, if_false] at hbz
      obtain ⟨id, n, e1, e2, e3, e4⟩ := ha d t bz hbz
      have hid : id ≠ nftID := by
        intro hid
        rw [hid, hget'] at e2
        have : nft = n := Option.some.inj e2
        subst this
        exact hdt ⟨e3.symm, e4.symm⟩
      exact ⟨id, n, e1, by simp [hid, e2], e3, e4⟩
  · intro id n hn
    simp only [storeWithoutListing, RemoveNft, Store.deleteNftDenomTokenID] at hn ⊢
    by_cases hid : id = nftID
    · simp [hid] at hn
    · simp only [hid, if_false] at hn
      have hidxn := hb id n hn
      have hdt : ¬ (n.DenomId = nft.DenomId ∧ n.TokenId = nft.TokenId) := by
        intro hdt
        have h1 := hb nftID nft hget'
        rw [hdt.1, hdt.2, h1] at hidxn
        have hlt1 := hc id n hn
        have hlt2 := hc nftID nft hget'
        exact hid (Uint64ToBytes_injective id nftID (by omega) (by omega)
          (Option.some.inj hidxn).symm)
      simp only [hdt, if_false]
      exact hidxn
  · intro id n hn
    simp only [storeWithoutListing, RemoveNft, Store.deleteNftDenomTokenID] at hn ⊢
    by_cases hid : id = nftID
    · simp [hid] at hn
    · simp only [hid, if_false] at hn
      exact hc id n hn
  · exact hd

theorem ListingsIndexed_mono (s : Store) (m m' : Nat) (h : ListingsIndexed s m)
    (hmm : m ≤ m') : ListingsIndexed s m' :=
  ⟨h.1, h.2.1, h.2.2.1, Nat.le_trans h.2.2.2 hmm⟩

/-- One step on the listing tables keeps them in agreement, as long as the
counter does not wrap. -/
theorem ListingsIndexed_step (s s' : Store) (m : Nat) (h : ListingsIndexed s m)
    (hm : m + 1 < 2 ^ 64) (hstep : ListingStep s s') : ListingsIndexed s' (m + 1) := by
  rcases hstep with hsame | ⟨nft, hidx, hs⟩ | ⟨nftID, nft, hget, hs⟩
  · exact ListingsIndexed_mono _ _ _ (ListingsIndexed_same s s' m h hsame) (Nat.le_succ m)
  · rw [hs]
    exact ListingsIndexed_publish s m nft h hm hidx
  · rw [hs]
    exact ListingsIndexed_mono _ _ _
      (ListingsIndexed_remove s m nftID nft h (by omega) hget) (Nat.le_succ m)

theorem SameListings.of_eq (s s' : Store) (h : s' = s) : SameListings s s' := by
  rw [h]
  exact ⟨rfl, rfl, rfl⟩

/-- The store that `PublishNFT` leaves is the old one, or the old one with the
listing appended and indexed, the index having had no entry for the asset. -/
theorem PublishNFT_store (k : Keeper B N) (ctx : Ctx B N) (nft : Nft) :
    (PublishNFT k ctx nft).2.store = ctx.store ∨
      (indexPresent ctx.store nft = false ∧
        (PublishNFT k ctx nft).2.store =
          (AppendNft ctx.store nft).2.setNftDenomTokenID nft.DenomId nft.TokenId
            (Uint64ToBytes (GetNftCount ctx.store))) := by
  cases hauth : authorised k ctx.nft nft with
  | false => exact Or.inl (PublishNFT_unauthorised k ctx nft hauth).2.1
  | true =>
    cases hidx : indexPresent ctx.store nft with
    | true => exact Or.inl (PublishNFT_already_published k ctx nft hauth hidx).2.1
    | false =>
      obtain ⟨denom, nftVal, hd, hn⟩ := authorised_lookups k ctx.nft nft hauth
      rw [PublishNFT_of_lookups k ctx nft denom nftVal hd hn, hauth, hidx, if_pos rfl,
        if_neg Bool.false_ne_true]
      cases hl : k.nftKeeper.SoftLockNFT ctx.nft ModuleName nft.DenomId nft.TokenId with
      | error e => exact Or.inl rfl
      | ok custody => exact Or.inr ⟨rfl, rfl⟩

/-- `MintNFT` leaves the store as it was, whatever its outcome. -/
theorem MintNFT_store (k : Keeper B N) (ctx : Ctx B N) (denomID name uri data : String)
    (price : Coin) (recipient sender : AccAddress) :
    (MintNFT k ctx denomID name uri data price recipient sender).2.store = ctx.store := by
  cases hd : k.nftKeeper.GetDenom ctx.nft denomID with
  | error e =>
    have hres : MintNFT k ctx denomID name uri data price recipient sender =
        (.error (.external e), ctx.call (.GetDenom denomID)) := by
      unfold MintNFT
      have hd' : k.nftKeeper.GetDenom (ctx.call (.GetDenom denomID)).nft denomID = .error e := hd
      simp only [hd']
    rw [hres]
    rfl
  | ok denom =>
    cases hc : getCollectionByDenomID ctx.store denomID with
    | mk collection found =>
      cases found with
      | false =>
        have hres : MintNFT k ctx denomID name uri data price recipient sender =
            (.error .ErrCollectionNotFound, ctx.call (.GetDenom denomID)) := by
          unfold MintNFT
          have hd' : k.nftKeeper.GetDenom (ctx.call (.GetDenom denomID)).nft denomID =
              .ok denom := hd
          have hc' : getCollectionByDenomID (ctx.call (.GetDenom denomID)).store denomID =
              (collection, false) := hc
          simp only [hd', hc', Bool.not_false, if_true]
        rw [hres]
        rfl
      | true =>
        rw [MintNFT_of_collection k ctx denomID name uri data price recipient sender denom
          collection hd hc]
        have hf := DistributeRoyalties_frame k (ctx.call (.GetDenom denomID)) price
          denom.Creator collection.MintRoyalties
        cases hdist : DistributeRoyalties k (ctx.call (.GetDenom denomID)) price denom.Creator
            collection.MintRoyalties with
        | mk res ctx1 =>
          rw [hdist] at hf
          cases res with
          | error e => exact hf.1
          | ok u =>
            simp only
            cases hm : k.nftKeeper.MintNFT ctx1.nft denomID name uri data sender recipient with
            | error e => exact hf.1
            | ok r =>
              cases r with
              | mk id custody => exact hf.1

/-- Every operation of the keeper, whatever its outcome, acts on the listing
tables by one `ListingStep`. -/
theorem Op.apply_step (k : Keeper B N) (ctx : Ctx B N) (op : Op) :
    ListingStep ctx.store (Op.apply k ctx op).store := by
  cases op with
  | PublishCollection collection =>
    left
    rcases PublishCollection_store k ctx collection with hs | hs
    · exact SameListings.of_eq _ _ hs
    · show SameListings ctx.store (Marketplace.PublishCollection k ctx collection).2.store
      rw [hs]
      exact ⟨rfl, rfl, rfl⟩
  | PublishNFT nft =>
    rcases PublishNFT_store k ctx nft with hs | ⟨hidx, hs⟩
    · exact Or.inl (SameListings.of_eq _ _ hs)
    · exact Or.inr (Or.inl ⟨nft, hidx, hs⟩)
  | BuyNFT nftID buyer =>
    rcases BuyNFT_cases k ctx nftID buyer with hs | ⟨nft, hget, hs, _⟩
    · exact Or.inl (SameListings.of_eq _ _ hs)
    · exact Or.inr (Or.inr ⟨nftID, nft, hget, hs⟩)
  | MintNFT denomID name uri data price recipient sender =>
    exact Or.inl (SameListings.of_eq _ _
      (MintNFT_store k ctx denomID name uri data price recipient sender))
  | RemoveNFT nftID owner =>
    rcases RemoveNFT_cases k ctx nftID owner with hs | ⟨nft, hget, _, hs, _⟩
    · exact Or.inl (SameListings.of_eq _ _ (congrArg Ctx.store hs))
    · exact Or.inr (Or.inr ⟨nftID, nft, hget, hs⟩)
  | setCollectionStatus id verified =>
    left
    show SameListings ctx.store (Marketplace.setCollectionStatus ctx.store id verified).2
    unfold Marketplace.setCollectionStatus GetCollection
    cases ctx.store.collections id <;> exact ⟨rfl, rfl, rfl⟩

/-- A run keeps the listing tables in agreement, as long as it is too short
for the counter to wrap. -/
theorem ListingsIndexed_run (k : Keeper B N) (ops : List Op) :
    ∀ (ctx : Ctx B N) (m : Nat), ListingsIndexed ctx.store m → m + ops.length < 2 ^ 64 →
      ListingsIndexed (run k ctx ops).store (m + ops.length) := by
  induction ops with
  | nil =>
    intro ctx m h _
    exact h
  | cons op rest ih =>
    intro ctx m h hm
    have hlen : (op :: rest).length = rest.length + 1 := rfl
    rw [hlen] at hm ⊢
    have hstep := ListingsIndexed_step ctx.store (Op.apply k ctx op).store m h (by omega)
      (Op.apply_step k ctx op)
    have := ih (Op.apply k ctx op) (m + 1) hstep (by omega)
    have e : m + (rest.length + 1) = m + 1 + rest.length := by omega
    rw [e]
    exact this

/-- Every operation of the keeper keeps the collections stored under their
ids. -/
theorem Op.apply_keyed (k : Keeper B N) (ctx : Ctx B N) (op : Op)
    (h : ctx.store.CollectionsKeyed) : (Op.apply k ctx op).store.CollectionsKeyed := by
  cases op with
  | PublishCollection collection => exact PublishCollection_keyed k ctx collection h
  | PublishNFT nft =>
    rcases PublishNFT_store k ctx nft with hs | ⟨_, hs⟩
    · show (Marketplace.PublishNFT k ctx nft).2.store.CollectionsKeyed
      rw [hs]
      exact h
    · show (Marketplace.PublishNFT k ctx nft).2.store.CollectionsKeyed
      rw [hs]
      exact h
  | BuyNFT nftID buyer =>
    rcases BuyNFT_cases k ctx nftID buyer with hs | ⟨nft, _, hs, _⟩
    · show (Marketplace.BuyNFT k ctx nftID buyer).2.store.CollectionsKeyed
      rw [hs]
      exact h
    · show (Marketplace.BuyNFT k ctx nftID buyer).2.store.CollectionsKeyed
      rw [hs]
      exact h
  | MintNFT denomID name uri data price recipient sender =>
    show (Marketplace.MintNFT k ctx denomID name uri data price recipient
      sender).2.store.CollectionsKeyed
    rw [MintNFT_store]
    exact h
  | RemoveNFT nftID owner =>
    rcases RemoveNFT_cases k ctx nftID owner with hs | ⟨nft, _, _, hs, _⟩
    · show (Marketplace.RemoveNFT k ctx nftID owner).2.store.CollectionsKeyed
      rw [hs]
      exact h
    · show (Marketplace.RemoveNFT k ctx nftID owner).2.store.CollectionsKeyed
      rw [hs]
      exact h
  | setCollectionStatus id verified =>
    show (Marketplace.setCollectionStatus ctx.store id verified).2.CollectionsKeyed
    unfold Marketplace.setCollectionStatus GetCollection
    cases hc : ctx.store.collections id with
    | none => exact h
    | some c => exact CollectionsKeyed_SetCollection _ _ h

/-- Every store reached from the empty store has its collections stored under
their ids. -/
theorem reachedStore_keyed (k : Keeper B N) (bank : B) (custody : N) (log : List Call)
    (ops : List Op) : (reachedStore k bank custody log ops).CollectionsKeyed := by
  have hgen : ∀ (ops : List Op) (ctx : Ctx B N), ctx.store.CollectionsKeyed →
      (run k ctx ops).store.CollectionsKeyed := by
    intro ops
    induction ops with
    | nil => intro ctx h; exact h
    | cons op rest ih => intro ctx h; exact ih _ (Op.apply_keyed k ctx op h)
  exact hgen ops _ CollectionsKeyed_empty

end Invariant

/-! ## Claim on the reachable states -/

section InvariantClaim
variable {B N : Type}

/-- C13. In every state reached from the empty store by a sequence of
operations of the keeper (`PublishNFT`, `BuyNFT`, `RemoveNFT`, and the others),
each successful or failing, on any ledger and custody service, the sequence
being shorter than the `2^64` values of the id counter: there is at most one
stored listing per asset; the index maps an asset to the encoding of an id
exactly when the listing stored under that id is of that asset; and every
index entry is the encoding of a 64-bit id. -/
theorem reached_listings_indexed (k : Keeper B N) (bank : B) (custody : N) (log : List Call)
    (ops : List Op) (hlen : ops.length < 2 ^ 64) :
    (∀ id1 id2 n1 n2, GetNft (reachedStore k bank custody log ops) id1 = some n1 →
        GetNft (reachedStore k bank custody log ops) id2 = some n2 →
        n1.DenomId = n2.DenomId → n1.TokenId = n2.TokenId → id1 = id2) ∧
      (∀ d t id, id < 2 ^ 64 →
        ((reachedStore k bank custody log ops).nftDenomTokenID d t = some (Uint64ToBytes id) ↔
          ∃ n, GetNft (reachedStore k bank custody log ops) id = some n ∧
            n.DenomId = d ∧ n.TokenId = t)) ∧
      (∀ d t bz, (reachedStore k bank custody log ops).nftDenomTokenID d t = some bz →
        ∃ id, id < 2 ^ 64 ∧ bz = Uint64ToBytes id) := by
  have h := ListingsIndexed_run k ops ⟨Store.empty, bank, custody, log⟩ 0
    ListingsIndexed_empty (by omega)
  obtain ⟨ha, hb, hc, hd⟩ := h
  have hbound : ∀ id n, (reachedStore k bank custody log ops).nfts id = some n → id < 2 ^ 64 := by
    intro id n hn
    have := hc id n hn
    omega
  refine ⟨?_, ?_, ?_⟩
  · intro id1 id2 n1 n2 h1 h2 hden htok
    have e1 := hb id1 n1 h1
    have e2 := hb id2 n2 h2
    rw [hden, htok, e2] at e1
    exact (Uint64ToBytes_injective id2 id1 (hbound id2 n2 h2) (hbound id1 n1 h1)
      (Option.some.inj e1)).symm
  · intro d t id hid
    constructor
    · intro hidx
      obtain ⟨id', n, e1, e2, e3, e4⟩ := ha d t _ hidx
      have : id = id' := Uint64ToBytes_injective id id' hid (hbound id' n e2) e1
      subst this
      exact ⟨n, e2, e3, e4⟩
    · rintro ⟨n, hn, rfl, rfl⟩
      exact hb id n hn
  · intro d t bz hidx
    obtain ⟨id', n, e1, e2, _, _⟩ := ha d t bz hidx
    exact ⟨id', hbound id' n e2, e1⟩

/-- C13, at an instance: the seller lists `T1`, lists it again (refused), the
buyer buys it and lists it at `70 uDenom`, and the seller tries to remove that
listing (refused): the one stored listing is the buyer's, under id 1, and the
index of `T1` holds the encoding of 1. -/
theorem reached_listings_indexed_witness :
    GetNft (reachedStore Sample.keeper Sample.ledger0 Sample.custody0 []
        [.PublishNFT (Sample.listing Sample.seller 100),
         .PublishNFT (Sample.listing Sample.seller 250),
         .BuyNFT 0 Sample.buyerAddr,
         .PublishNFT (Sample.listing Sample.buyer 70),
         .RemoveNFT 1 Sample.sellerAddr]) 1 =
        some ⟨1, "T1", "D1", ⟨"uDenom", 70⟩, Sample.buyer⟩ ∧
      ((reachedStore Sample.keeper Sample.ledger0 Sample.custody0 []
        [.PublishNFT (Sample.listing Sample.seller 100),
         .PublishNFT (Sample.listing Sample.seller 250),
         .BuyNFT 0 Sample.buyerAddr,
         .PublishNFT (Sample.listing Sample.buyer 70),
         .RemoveNFT 1 Sample.sellerAddr]).nftDenomTokenID "D1" "T1" =
          some (Uint64ToBytes 1) ↔
        ∃ n, GetNft (reachedStore Sample.keeper Sample.ledger0 Sample.custody0 []
          [.PublishNFT (Sample.listing Sample.seller 100),
           .PublishNFT (Sample.listing Sample.seller 250),
           .BuyNFT 0 Sample.buyerAddr,
           .PublishNFT (Sample.listing Sample.buyer 70),
           .RemoveNFT 1 Sample.sellerAddr]) 1 = some n ∧
          n.DenomId = "D1" ∧ n.TokenId = "T1") :=
  ⟨by decide,
    (reached_listings_indexed Sample.keeper Sample.ledger0 Sample.custody0 []
      [.PublishNFT (Sample.listing Sample.seller 100),
       .PublishNFT (Sample.listing Sample.seller 250),
       .BuyNFT 0 Sample.buyerAddr,
       .PublishNFT (Sample.listing Sample.buyer 70),
       .RemoveNFT 1 Sample.sellerAddr] (by decide)).2.1 "D1" "T1" 1 (by decide)⟩

end InvariantClaim

end Marketplace
